import Mathlib

/-!
# SimpleJava: the IR translator (`code/ASTVisitors/Translator.h`)

A shallow embedding of the translation pass from the abstract syntax tree to the
tree-shaped intermediate representation, together with the subtree wrappers it is
built from, and theorems about the trees it emits.

Conventions of the embedding

* a `new T(...)` expression of the source is the constructor application of the
  corresponding inductive type; trees are compared structurally;
* a pointer that the source compares with `0` is an explicit `null` constructor
  (or `Option`), a dereference of a null pointer and a failing `assert(0)` are
  results in `Except TranslateError`;
* the mutable fields of `CTranslator` are a record threaded through the visitor
  functions; the counters behind `new CTemp()` and `new CLabel()` are the `Pool`.
-/

namespace Translate

/-! ## Temporaries and labels (`Structs/Temp.h`) -/

/-- Modelled from the spec: the class `Temp::CLabel` of `Structs/Temp.h`, which is not
among the sources. A label is either anonymous and auto-numbered (`new CLabel()`) or
named (`new CLabel(name)`), and two labels are the same label when they carry the same
number or the same name. -/
inductive CLabel where
  | anon (id : Nat)
  | named (name : String)
  deriving DecidableEq, Repr

/-- Modelled from the spec: the class `Temp::CTemp` of `Structs/Temp.h`, which is not
among the sources. A temporary is a fresh abstract register carrying a unique
number. -/
structure CTemp where
  id : Nat
  deriving DecidableEq, Repr

/-- Modelled from the spec: the pool behind `new CTemp()` and `new CLabel()`, two
monotonic counters giving unique identities (`Structs/Temp.h` is not among the
sources). -/
structure Pool where
  nextTemp : Nat
  nextLabel : Nat
  deriving DecidableEq, Repr

/-- The effect of `new CTemp()`: the temporary numbered by the counter, which is then
advanced. -/
def Pool.newTemp (p : Pool) : CTemp × Pool :=
  (⟨p.nextTemp⟩, { p with nextTemp := p.nextTemp + 1 })

/-- The effect of `new CLabel()`: the anonymous label numbered by the counter, which is
then advanced. -/
def Pool.newLabel (p : Pool) : CLabel × Pool :=
  (CLabel.anon p.nextLabel, { p with nextLabel := p.nextLabel + 1 })

/-! ## The IR tree (`IRTree.h`) -/

/-- The relational operators of `CJUMP`, the enumeration `CJUMP_OP` of `IRTree.h`. -/
inductive CJUMP_OP where
  | EQ | NE | LT | GT | LE | GE | ULT | ULE | UGT | UGE
  deriving DecidableEq, Repr

/-- Modelled from the spec: the operator enumeration carried by the arithmetic and
unary nodes of the syntax tree and passed unchanged to `BINOP`. Its declaration
(`common.h`) is not among the sources; `PLUS_OP`, `MULT_OP`, `AND_OP` and `OR_OP` are
the enumerators the translator names, `MINUS_OP` and `DIV_OP` complete the arithmetic
operators of the language. -/
inductive ArithmeticOpType where
  | PLUS_OP | MINUS_OP | MULT_OP | DIV_OP | AND_OP | OR_OP
  deriving DecidableEq, Repr

mutual
/-- IR expressions: the subclasses of `IExp` in `IRTree.h`. The label of a `NAME` is a
pointer the translator reads out of a `std::map`, which is null (`none`) for a key the
map does not hold. -/
inductive IExp where
  | CONST (value : Int)
  | NAME (label : Option CLabel)
  | TEMP (temp : CTemp)
  | BINOP (binop : ArithmeticOpType) (left right : IExp)
  | MEM (exp : IExp)
  | CALL (func : IExp) (args : ExpList)
  | ESEQ (stm : IStm) (exp : IExp)
/-- IR statements: the subclasses of `IStm` in `IRTree.h`. -/
inductive IStm where
  | MOVE (dst src : IExp)
  | EXP (exp : IExp)
  | JUMP (label : CLabel)
  | CJUMP (relop : CJUMP_OP) (left right : IExp) (iftrue iffalse : CLabel)
  | SEQ (left right : IStm)
  | LABEL (label : CLabel)
/-- The class `ExpList(head, tail)` of `IRTree.h`; `null` is the pointer `0` that ends
a list. -/
inductive ExpList where
  | null
  | cons (head : IExp) (tail : ExpList)
end

/-- An element of `trees`, a `const INode*`: an expression tree or a statement tree. -/
inductive INode where
  | exp (e : IExp)
  | stm (s : IStm)

/-- The expressions of an `ExpList`, head first. -/
def ExpList.toList : ExpList → List IExp
  | .null => []
  | .cons h t => h :: t.toList

/-! ## Subtree wrappers -/

/-- The ways a translation can stop without a tree: the `assert(0)` of
`CStmConverter`, a dereference of a null `currentNode` or `currentFrame`, and a lookup
that finds nothing in the frame or in the symbol table. -/
inductive TranslateError where
  | assertFailed
  | nullPointer
  | unknownName (name : String)
  deriving DecidableEq, Repr

/-- The implementations of `ISubtreeWrapper`: `CExpConverter`, `CStmConverter` and the
three subclasses of `CConditionalWrapper`. -/
inductive ISubtreeWrapper where
  | CExpConverter (expr : IExp)
  | CStmConverter (stm : IStm)
  | CRelativeCmpWrapper (op : CJUMP_OP) (first second : IExp)
  | CFromAndConverter (leftArg rightArg : IExp)
  | CFromOrConverter (leftArg rightArg : IExp)

open IExp IStm in
/-- The method `ToConditional(t, f)` of each wrapper. -/
def ISubtreeWrapper.ToConditional (w : ISubtreeWrapper) (t f : CLabel) (p : Pool) :
    Except TranslateError (IStm × Pool) :=
  match w with
  | .CExpConverter expr => .ok (CJUMP .EQ expr (CONST 0) f t, p)
  | .CStmConverter _ => .error .assertFailed
  | .CRelativeCmpWrapper op first second => .ok (CJUMP op first second t f, p)
  | .CFromAndConverter leftArg rightArg =>
      let (z, p1) := p.newLabel
      .ok (SEQ (CJUMP .LT leftArg (CONST 1) f z)
            (SEQ (LABEL z) (CJUMP .LT rightArg (CONST 1) f t)), p1)
  | .CFromOrConverter leftArg rightArg =>
      let (z, p1) := p.newLabel
      .ok (SEQ (CJUMP .GT leftArg (CONST 1) t z)
            (SEQ (LABEL z) (CJUMP .LT rightArg (CONST 1) f t)), p1)

open IExp IStm in
/-- The method `CConditionalWrapper::ToExp`, shared by the three conditional
wrappers. -/
def CConditionalWrapper.ToExp (w : ISubtreeWrapper) (p : Pool) :
    Except TranslateError (IExp × Pool) :=
  let (r, p1) := p.newTemp
  let (t, p2) := p1.newLabel
  let (f, p3) := p2.newLabel
  match w.ToConditional t f p3 with
  | .error err => .error err
  | .ok (c, p4) =>
      .ok (ESEQ
            (SEQ (MOVE (TEMP r) (CONST 1))
            (SEQ c
            (SEQ (LABEL f)
            (SEQ (MOVE (TEMP r) (CONST 0))
                 (LABEL t)))))
            (TEMP r), p4)

open IExp IStm in
/-- The method `CConditionalWrapper::ToStm`, shared by the three conditional
wrappers. -/
def CConditionalWrapper.ToStm (w : ISubtreeWrapper) (p : Pool) :
    Except TranslateError (IStm × Pool) :=
  let (jmp, p1) := p.newLabel
  match w.ToConditional jmp jmp p1 with
  | .error err => .error err
  | .ok (c, p2) => .ok (SEQ c (LABEL jmp), p2)

/-- The method `ToExp()` of each wrapper. -/
def ISubtreeWrapper.ToExp (w : ISubtreeWrapper) (p : Pool) :
    Except TranslateError (IExp × Pool) :=
  match w with
  | .CExpConverter expr => .ok (expr, p)
  | .CStmConverter _ => .error .assertFailed
  | w => CConditionalWrapper.ToExp w p

/-- The method `ToStm()` of each wrapper. -/
def ISubtreeWrapper.ToStm (w : ISubtreeWrapper) (p : Pool) :
    Except TranslateError (IStm × Pool) :=
  match w with
  | .CExpConverter expr => .ok (IStm.EXP expr, p)
  | .CStmConverter stm => .ok (stm, p)
  | w => CConditionalWrapper.ToStm w p

/-! ## Running a statement tree

The operational reading of the statement nodes, used to state what the trees built by
the conditional wrappers compute: the statements of a tree run in `SEQ` order,
`LABEL` marks a position, `JUMP` and `CJUMP` continue at the position of a label,
`MOVE(TEMP r, e)` stores the value of `e` in `r`. -/

/-- The contents of the temporaries. -/
abbrev Store := CTemp → Int

/-- The store after `MOVE(TEMP t, v)`. -/
def Store.set (σ : Store) (t : CTemp) (v : Int) : Store :=
  fun x => if x = t then v else σ x

/-- The statements of a tree in the order of its `SEQ` nodes, left to right. -/
def flatten : IStm → List IStm
  | .SEQ left right => flatten left ++ flatten right
  | .MOVE dst src => [.MOVE dst src]
  | .EXP exp => [.EXP exp]
  | .JUMP label => [.JUMP label]
  | .CJUMP relop left right iftrue iffalse => [.CJUMP relop left right iftrue iffalse]
  | .LABEL label => [.LABEL label]

/-- The value of an expression that reads constants and temporaries; the other
expression kinds (memory, calls, nested statements) have no value here. -/
def evalExp (σ : Store) : IExp → Option Int
  | .CONST value => some value
  | .TEMP temp => some (σ temp)
  | _ => none

/-- Whether `a op b` holds; the unsigned relations compare the 32-bit unsigned
readings of the operands. -/
def evalRel (op : CJUMP_OP) (a b : Int) : Bool :=
  match op with
  | .EQ => decide (a = b)
  | .NE => decide (a ≠ b)
  | .LT => decide (a < b)
  | .GT => decide (a > b)
  | .LE => decide (a ≤ b)
  | .GE => decide (a ≥ b)
  | .ULT => decide (a % 2 ^ 32 < b % 2 ^ 32)
  | .ULE => decide (a % 2 ^ 32 ≤ b % 2 ^ 32)
  | .UGT => decide (a % 2 ^ 32 > b % 2 ^ 32)
  | .UGE => decide (a % 2 ^ 32 ≥ b % 2 ^ 32)

/-- The position of `LABEL l` in a statement list. -/
def labelIndex (l : CLabel) : List IStm → Option Nat
  | [] => none
  | .LABEL l' :: rest =>
      if l' = l then some 0 else (labelIndex l rest).map (· + 1)
  | _ :: rest => (labelIndex l rest).map (· + 1)

/-- A state of the run: the position of the next statement, the store, and the
positions of the statements executed so far, the latest first. -/
structure Config where
  pc : Nat
  store : Store
  trace : List Nat

/-- How a run ends. -/
inductive Outcome where
  /-- control ran past the last statement -/
  | finished (c : Config)
  /-- control left through a jump to a label that the list does not define -/
  | exited (target : CLabel) (c : Config)
  /-- a statement outside the interpreted fragment -/
  | stuck (c : Config)
  /-- the step budget was used up -/
  | timeout (c : Config)

/-- Continue at a label: at its position when the list defines it, out of the list
otherwise. -/
def jumpTo (prog : List IStm) (l : CLabel) (c : Config) : Config ⊕ Outcome :=
  match labelIndex l prog with
  | some i => .inl { c with pc := i }
  | none => .inr (.exited l c)

/-- One step at the statement `s` found at position `c.pc`. -/
def stepStm (prog : List IStm) (s : IStm) (c : Config) : Config ⊕ Outcome :=
  let c' : Config := { c with trace := c.pc :: c.trace }
  match s with
  | .MOVE (.TEMP t) src =>
      match evalExp c.store src with
      | some v => .inl { c' with pc := c.pc + 1, store := c.store.set t v }
      | none => .inr (.stuck c)
  | .MOVE _ _ => .inr (.stuck c)
  | .EXP e =>
      match evalExp c.store e with
      | some _ => .inl { c' with pc := c.pc + 1 }
      | none => .inr (.stuck c)
  | .JUMP l => jumpTo prog l c'
  | .CJUMP op l r t f =>
      match evalExp c.store l, evalExp c.store r with
      | some a, some b => jumpTo prog (if evalRel op a b then t else f) c'
      | _, _ => .inr (.stuck c)
  | .LABEL _ => .inl { c' with pc := c.pc + 1 }
  | .SEQ _ _ => .inr (.stuck c)

/-- Run a statement list from a state, for at most `fuel` steps. -/
def exec (prog : List IStm) : Nat → Config → Outcome
  | 0, c => .timeout c
  | fuel + 1, c =>
      match prog.get? c.pc with
      | none => .finished c
      | some s =>
          match stepStm prog s c with
          | .inl c' => exec prog fuel c'
          | .inr o => o

/-- Run a statement tree from its first statement. -/
def run (fuel : Nat) (s : IStm) (σ : Store) : Outcome :=
  exec (flatten s) fuel { pc := 0, store := σ, trace := [] }

/-- The value a temporary holds when the run has passed the last statement. -/
def Outcome.result (o : Outcome) (r : CTemp) : Option Int :=
  match o with
  | .finished c => some (c.store r)
  | _ => none

/-- The label through which the run left the tree. -/
def Outcome.exitLabel (o : Outcome) : Option CLabel :=
  match o with
  | .exited l _ => some l
  | _ => none

/-- The positions of the statements the run executed, the first one first. -/
def Outcome.executed (o : Outcome) : List Nat :=
  match o with
  | .finished c => c.trace.reverse
  | .exited _ c => c.trace.reverse
  | .stuck c => c.trace.reverse
  | .timeout c => c.trace.reverse

/-! ## Symbol table and frame -/

/-- An interned name (`CSymbol`); `getString()` is the string itself. -/
abbrev CSymbol := String

/-- Modelled from the spec: an entry of the symbol table for a field, a formal or a
local (`CVarInfo`; the symbol table header is not among the sources). The translator
reads its `name`. -/
structure CVarInfo where
  name : CSymbol
  deriving DecidableEq, Repr

/-- Modelled from the spec: the symbol-table entry of a method (`CMethodInfo`), with
its formals `params` and its locals `vars` in declaration order. -/
structure CMethodInfo where
  name : CSymbol
  params : List CVarInfo
  vars : List CVarInfo
  deriving DecidableEq, Repr

/-- Modelled from the spec: the symbol-table entry of a class (`CClassInfo`), with its
fields `vars` in declaration order and its methods. -/
structure CClassInfo where
  name : CSymbol
  vars : List CVarInfo
  methods : List CMethodInfo
  deriving DecidableEq, Repr

/-- Modelled from the spec: the populated symbol table (`CTable`). -/
structure CTable where
  classInfo : List CClassInfo
  deriving DecidableEq, Repr

/-- Modelled from the spec: `CTable::getClassInfo`, the entry of the class with the
given name; the lookup of a name that the table does not hold fails. -/
def CTable.getClassInfo (table : CTable) (name : CSymbol) :
    Except TranslateError CClassInfo :=
  match table.classInfo.find? (fun cl => cl.name == name) with
  | some cl => .ok cl
  | none => .error (.unknownName name)

/-- Modelled from the spec: `CClassInfo::getMethodInfo`, the entry of the method with
the given name; the lookup of a name that the class does not hold fails. -/
def CClassInfo.getMethodInfo (cl : CClassInfo) (name : CSymbol) :
    Except TranslateError CMethodInfo :=
  match cl.methods.find? (fun m => m.name == name) with
  | some m => .ok m
  | none => .error (.unknownName name)

/-- Modelled from the spec: the access expressions of the formal and local slots of a
frame, which the spec leaves to the implementation of `CFrame` (`Structs/Frame.h` is
not among the sources). They are a parameter of the translation. -/
structure FrameLayout where
  formal : Nat → IExp
  localVar : Nat → IExp

/-- Modelled from the spec: the activation record `CFrame` of a method
(`Structs/Frame.h` is not among the sources): the access expressions of its formals,
locals and object fields, keyed by source name, in allocation order. -/
structure CFrame where
  name : CSymbol
  layout : FrameLayout
  formals : List (CSymbol × IExp)
  locals : List (CSymbol × IExp)
  fields : List (CSymbol × IExp)

/-- Modelled from the spec: the word size `CFrame::wordSize`, a frame-level constant,
4. -/
def CFrame.wordSize : Int := 4

/-- Modelled from the spec: `new CFrame(name)`, a frame with no formals, locals or
fields. -/
def CFrame.new (layout : FrameLayout) (name : CSymbol) : CFrame :=
  { name := name, layout := layout, formals := [], locals := [], fields := [] }

/-- Modelled from the spec: `getTP()->getExp()`, the access expression of formal 0,
the receiver. -/
def CFrame.getTP (fr : CFrame) : IExp := fr.layout.formal 0

/-- Modelled from the spec: `allocFormal` binds the name to the next formal slot. -/
def CFrame.allocFormal (fr : CFrame) (name : CSymbol) : CFrame :=
  { fr with formals := fr.formals ++ [(name, fr.layout.formal fr.formals.length)] }

/-- Modelled from the spec: `allocLocal` binds the name to a new local slot. -/
def CFrame.allocLocal (fr : CFrame) (name : CSymbol) : CFrame :=
  { fr with locals := fr.locals ++ [(name, fr.layout.localVar fr.locals.length)] }

/-- Modelled from the spec: `allocVar` binds the name to the word of the next field
index `i` of the receiver, `MEM(BINOP(PLUS, this, CONST(W * (i + 1))))`. -/
def CFrame.allocVar (fr : CFrame) (name : CSymbol) : CFrame :=
  { fr with fields := fr.fields ++
      [(name, .MEM (.BINOP .PLUS_OP fr.getTP
          (.CONST (CFrame.wordSize * ((fr.fields.length : Int) + 1)))))] }

/-- Modelled from the spec: `findByName` returns the access expression bound to the
name (formals, then locals, then fields) and fails when there is none. -/
def CFrame.findByName (fr : CFrame) (name : CSymbol) : Except TranslateError IExp :=
  match (fr.formals ++ fr.locals ++ fr.fields).find? (fun b => b.1 == name) with
  | some b => .ok b.2
  | none => .error (.unknownName name)

/-- Modelled from the spec: `externalCall(name, args)`, the call of the runtime function
with the given reserved name, `CALL(NAME(label name), args)`. -/
def CFrame.externalCall (_fr : CFrame) (funcName : String) (args : ExpList) : IExp :=
  .CALL (.NAME (some (.named funcName))) args

/-! ## The syntax tree

The node classes the translator visits, with the members it reads (`ast.h` is not among
the sources). A member that the translator compares with `0` before the visit is
nullable: it has a `null` alternative or is an `Option`. -/

mutual
/-- Expression nodes. -/
inductive ExpNode where
  | CInvokeExpressionNode (firstExp secondExp : ExpNode)
  | CLengthExpressionNode (expr : ExpNode)
  | CArithmeticExpressionNode (firstExp : ExpNode) (opType : ArithmeticOpType)
      (secondExp : ExpNode)
  | CUnaryExpressionNode (op : ArithmeticOpType) (expr : ExpNode)
  | CCompareExpressionNode (firstExp secondExp : ExpNode)
  | CNotExpressionNode (expr : ExpNode)
  | CNewArrayExpressionNode (expr : ExpNode)
  | CNewObjectExpressionNode (objType : CSymbol)
  | CIntExpressionNode (value : Int)
  | CBooleanExpressionNode (value : Bool)
  | CIdentExpressionNode (name : CSymbol)
  | CThisExpressionNode
  | CParenExpressionNode (expr : ExpNode)
  | CInvokeMethodExpressionNode (expr : ExpNode) (name : CSymbol) (args : ArgsNode)
/-- The member `args` of a method invocation: null, or the node of a non-empty
argument list. -/
inductive ArgsNode where
  | null
  | CFewArgsExpressionNode (expr : ExpListNode)
/-- Argument lists: `prevExps` holds the arguments that precede `nextExp`. -/
inductive ExpListNode where
  | CListExpressionNode (prevExps : ExpListNode) (nextExp : ExpNode)
  | CLastListExpressionNode (expr : ExpNode)
end

mutual
/-- Statement nodes. -/
inductive StmNode where
  | CBracedStatementNode (statements : StatementsNode)
  | CIfStatementNode (expression : ExpNode) (thenStatement : StmNode)
      (elseStatement : ElseNode)
  | CWhileStatementNode (expression : ExpNode) (statement : StmNode)
  | CPrintStatementNode (expression : ExpNode)
  | CAssignStatementNode (identifier : CSymbol) (expression : ExpNode)
  | CInvokeExpressionStatementNode (firstexpression secondexpression : ExpNode)
/-- The member `statements` of a block or of a statement list: null, or a list. -/
inductive StatementsNode where
  | null
  | CNumerousStatementsNode (statements : StatementsNode) (statement : StmNode)
/-- The member `elseStatement` of an `if`: null, or a statement. -/
inductive ElseNode where
  | null
  | stm (s : StmNode)
end

/-- The statements of a method body: `CStatsFirstNode` with its optional statement,
`CStatsListNode` with its nullable list and its optional statement. -/
inductive StatsNode where
  | null
  | CStatsFirstNode (stm : Option StmNode)
  | CStatsListNode (list : StatsNode) (stm : Option StmNode)

/-- Method bodies; the declarations of locals are not read by the translator, which
takes the locals from the symbol table. -/
inductive MethodBodyNode where
  | CMethodBodyVarsNode
  | CMethodBodyStatsNode (stats : StatsNode)
  | CMethodBodyAllNode (stats : StatsNode)

/-- A method declaration `CMethodDeclarationRuleNode`; the type and the parameter list
are not read by the translator. -/
structure CMethodDeclarationRuleNode where
  ident : CSymbol
  method_body : Option MethodBodyNode
  return_exp : ExpNode

/-- The member `list` of `CMethodDeclarationsListNode`: null, or the methods declared
before `item`. -/
inductive MethodDeclarationsNode where
  | null
  | CMethodDeclarationsListNode (list : MethodDeclarationsNode)
      (item : CMethodDeclarationRuleNode)

/-- A class declaration `CClassDeclarationRuleNode`; its `extends` clause and its field
declarations are visited without effect. -/
structure CClassDeclarationRuleNode where
  ident : CSymbol
  method : MethodDeclarationsNode

/-- The member `decl` of the program and of `CDeclarationsListNode`: null, or the
classes declared before `cl`. -/
inductive DeclarationsNode where
  | null
  | CDeclarationsListNode (decl : DeclarationsNode) (cl : Option CClassDeclarationRuleNode)

/-- The main class `CMainClassDeclarationRuleNode` with its optional statement. -/
structure CMainClassDeclarationRuleNode where
  stmt : Option StmNode

/-- The root `CProgramRuleNode`. -/
structure CProgramRuleNode where
  mainClass : CMainClassDeclarationRuleNode
  decl : DeclarationsNode

/-! ## The translator -/

/-- The fields of `CTranslator`, with the label and temporary counters. `currentNode`
and `currentFrame` are null until a visit assigns them; `arguments` is the shared
accumulator of call arguments, null when empty. -/
structure CTranslator where
  table : CTable
  layout : FrameLayout
  functionalLabels : List (String × CLabel)
  currentClass : CClassInfo
  currentMethod : CMethodInfo
  currentFrame : Option CFrame
  currentNode : Option ISubtreeWrapper
  typeForInvoke : String
  arguments : ExpList
  trees : List INode
  pool : Pool

/-- The entries the constructor puts in `functionalLabels`: for each method of each
class the key `<class>@<method>` with the label of that name. -/
def mkFunctionalLabels (table : CTable) : List (String × CLabel) :=
  table.classInfo.flatMap fun cl =>
    cl.methods.map fun m => (cl.name ++ "@" ++ m.name, CLabel.named (cl.name ++ "@" ++ m.name))

/-- The constructor `CTranslator(_symbols, _table)`; it reads the first class of the
table and the first method of that class. -/
def CTranslator.new (table : CTable) (layout : FrameLayout) (pool : Pool) :
    Except TranslateError CTranslator :=
  match table.classInfo with
  | [] => .error .nullPointer
  | cl :: _ =>
      match cl.methods with
      | [] => .error .nullPointer
      | m :: _ =>
          .ok { table := table, layout := layout
                functionalLabels := mkFunctionalLabels table
                currentClass := cl, currentMethod := m
                currentFrame := none, currentNode := none
                typeForInvoke := "", arguments := .null
                trees := [], pool := pool }

/-- The expression `functionalLabels[key]`: the label stored under the key, a null
pointer when there is none. -/
def CTranslator.functionalLabel (tr : CTranslator) (key : String) : Option CLabel :=
  (tr.functionalLabels.find? (fun kv => kv.1 == key)).map (·.2)

/-- The call `currentNode->ToExp()`. -/
def CTranslator.ToExp (tr : CTranslator) : Except TranslateError (IExp × CTranslator) :=
  match tr.currentNode with
  | none => .error .nullPointer
  | some w =>
      match w.ToExp tr.pool with
      | .error err => .error err
      | .ok (e, p) => .ok (e, { tr with pool := p })

/-- The call `currentNode->ToStm()`. -/
def CTranslator.ToStm (tr : CTranslator) : Except TranslateError (IStm × CTranslator) :=
  match tr.currentNode with
  | none => .error .nullPointer
  | some w =>
      match w.ToStm tr.pool with
      | .error err => .error err
      | .ok (st, p) => .ok (st, { tr with pool := p })

/-- The call `currentNode->ToConditional(t, f)`. -/
def CTranslator.ToConditional (tr : CTranslator) (t f : CLabel) :
    Except TranslateError (IStm × CTranslator) :=
  match tr.currentNode with
  | none => .error .nullPointer
  | some w =>
      match w.ToConditional t f tr.pool with
      | .error err => .error err
      | .ok (st, p) => .ok (st, { tr with pool := p })

/-- The frame `currentFrame` points to. -/
def CTranslator.frame (tr : CTranslator) : Except TranslateError CFrame :=
  match tr.currentFrame with
  | none => .error .nullPointer
  | some fr => .ok fr

/-- The statement `currentNode = shared_ptr<CExpConverter>(new CExpConverter(e))`. -/
def CTranslator.setExp (tr : CTranslator) (e : IExp) : CTranslator :=
  { tr with currentNode := some (.CExpConverter e) }

/-- The statement `currentNode = shared_ptr<CStmConverter>(new CStmConverter(s))`. -/
def CTranslator.setStm (tr : CTranslator) (st : IStm) : CTranslator :=
  { tr with currentNode := some (.CStmConverter st) }

/-- A `new CTemp()` inside a visit. -/
def CTranslator.newTemp (tr : CTranslator) : CTemp × CTranslator :=
  (tr.pool.newTemp.1, { tr with pool := tr.pool.newTemp.2 })

/-- A `new CLabel()` inside a visit. -/
def CTranslator.newLabel (tr : CTranslator) : CLabel × CTranslator :=
  (tr.pool.newLabel.1, { tr with pool := tr.pool.newLabel.2 })

open IExp IStm in
/-- The body of `visit(const CNewArrayExpressionNode*)` after the visit of the size
expression. -/
def newArrayTail (tr0 : CTranslator) : Except TranslateError CTranslator := do
  let (arg, tr1) ← tr0.ToExp
  let (arrSize, tr2) := tr1.newTemp
  let calcArrSize := BINOP .PLUS_OP arg (CONST 1)
  let storeArrSize := MOVE (TEMP arrSize) calcArrSize
  let sizeInBytes := BINOP .MULT_OP (MEM (TEMP arrSize)) (CONST 4)
  let args := ExpList.cons sizeInBytes .null
  let fr ← tr2.frame
  let memCall := fr.externalCall "#malloc" args
  let (temp, tr3) := tr2.newTemp
  let storeCalcRes := MOVE (TEMP temp) memCall
  let storeLength := MOVE (MEM (TEMP temp)) (MEM (TEMP arrSize))
  let res := ESEQ (SEQ storeArrSize (SEQ storeCalcRes storeLength)) (TEMP temp)
  return tr3.setExp res

/-- The value of an `int` that is assigned the integer `n`: the 32-bit two's
complement reading of `n`. -/
def toInt32 (n : Int) : Int := (n + 2 ^ 31) % 2 ^ 32 - 2 ^ 31

open IExp IStm in
/-- The method `visit(const CNewObjectExpressionNode*)`; `varsSizeInBytes` is an
`int`. -/
def visitNewObject (objType : CSymbol) (tr0 : CTranslator) :
    Except TranslateError CTranslator := do
  let (temp, tr1) := tr0.newTemp
  let cl ← tr1.table.getClassInfo objType
  let varsSizeInBytes := toInt32 (CFrame.wordSize * (cl.vars.length : Int))
  let varsSizeInBytes :=
    if varsSizeInBytes < CFrame.wordSize then CFrame.wordSize else varsSizeInBytes
  let args := ExpList.cons (CONST varsSizeInBytes) .null
  let fr ← tr1.frame
  let memCall := fr.externalCall "#malloc" args
  let storeCalcRes := MOVE (TEMP temp) memCall
  let res := ESEQ storeCalcRes (TEMP temp)
  return { tr1.setExp res with typeForInvoke := objType }

open IExp IStm in
/-- The body of `visit(const CArithmeticExpressionNode*)` after the two operands have
been translated to `arg1` and `arg2`. -/
def arithmeticTail (opType : ArithmeticOpType) (arg1 arg2 : IExp) (tr : CTranslator) :
    Except TranslateError CTranslator :=
  match opType with
  | .AND_OP =>
      match (ISubtreeWrapper.CFromAndConverter arg1 arg2).ToExp tr.pool with
      | .error err => .error err
      | .ok (res, p) => .ok ({ tr with pool := p }.setExp res)
  | .OR_OP =>
      match (ISubtreeWrapper.CFromOrConverter arg1 arg2).ToExp tr.pool with
      | .error err => .error err
      | .ok (res, p) => .ok ({ tr with pool := p }.setExp res)
  | op => .ok (tr.setExp (BINOP op arg1 arg2))

/-- The tail shared by the visits of a comparison and of a negation: the value of a
`CRelativeCmpWrapper` becomes the current node. -/
def relativeCmpTail (op : CJUMP_OP) (arg1 arg2 : IExp) (tr : CTranslator) :
    Except TranslateError CTranslator :=
  match (ISubtreeWrapper.CRelativeCmpWrapper op arg1 arg2).ToExp tr.pool with
  | .error err => .error err
  | .ok (res, p) => .ok ({ tr with pool := p }.setExp res)

open IExp IStm in
/-- The body of `visit(const CInvokeMethodExpressionNode*)` after the visit of the
arguments; `texp` is the translation of the receiver. -/
def invokeTail (name : CSymbol) (texp : IExp) (tr : CTranslator) : CTranslator :=
  let arguments := ExpList.cons texp tr.arguments
  let res := CALL (NAME (tr.functionalLabel (tr.typeForInvoke ++ "@" ++ name))) arguments
  { tr.setExp res with arguments := .null }

/-- The statement `arguments = shared_ptr<ExpList>(new ExpList(currentNode->ToExp(),
arguments))`. -/
def pushArgument (tr : CTranslator) : Except TranslateError CTranslator := do
  let (e, tr1) ← tr.ToExp
  return { tr1 with arguments := .cons e tr1.arguments }

mutual
/-- The methods `visit` of the expression nodes. -/
def visitExp : ExpNode → CTranslator → Except TranslateError CTranslator
  | .CInvokeExpressionNode firstExp secondExp, tr => do
      let tr1 ← visitExp firstExp tr
      visitExp secondExp tr1
  | .CLengthExpressionNode expr, tr => visitExp expr tr
  | .CArithmeticExpressionNode firstExp opType secondExp, tr => do
      let tr1 ← visitExp firstExp tr
      let (arg1, tr2) ← tr1.ToExp
      let tr3 ← visitExp secondExp tr2
      let (arg2, tr4) ← tr3.ToExp
      arithmeticTail opType arg1 arg2 tr4
  | .CUnaryExpressionNode op expr, tr => do
      let tr1 ← visitExp expr tr
      let (arg, tr2) ← tr1.ToExp
      return tr2.setExp (.BINOP op (.CONST 0) arg)
  | .CCompareExpressionNode firstExp secondExp, tr => do
      let tr1 ← visitExp firstExp tr
      let (arg1, tr2) ← tr1.ToExp
      let tr3 ← visitExp secondExp tr2
      let (arg2, tr4) ← tr3.ToExp
      relativeCmpTail .LT arg1 arg2 tr4
  | .CNotExpressionNode expr, tr => do
      let tr1 ← visitExp expr tr
      let (arg, tr2) ← tr1.ToExp
      relativeCmpTail .EQ arg (.CONST 0) tr2
  | .CNewArrayExpressionNode expr, tr => do
      let tr1 ← visitExp expr tr
      newArrayTail tr1
  | .CNewObjectExpressionNode objType, tr => visitNewObject objType tr
  | .CIntExpressionNode value, tr => .ok (tr.setExp (.CONST value))
  | .CBooleanExpressionNode value, tr => .ok (tr.setExp (.CONST (if value then 1 else 0)))
  | .CIdentExpressionNode name, tr => do
      let fr ← tr.frame
      let result ← fr.findByName name
      return tr.setExp result
  | .CThisExpressionNode, tr => do
      let tr1 := { tr with typeForInvoke := tr.currentClass.name }
      let fr ← tr1.frame
      return tr1.setExp fr.getTP
  | .CParenExpressionNode expr, tr => visitExp expr tr
  | .CInvokeMethodExpressionNode expr name args, tr => do
      let tr1 ← visitExp expr tr
      let (texp, tr2) ← tr1.ToExp
      let tr3 ← visitArgs args tr2
      return invokeTail name texp tr3
/-- The visit of the member `args` when it is not null:
`visit(const CFewArgsExpressionNode*)`. -/
def visitArgs : ArgsNode → CTranslator → Except TranslateError CTranslator
  | .null, tr => .ok tr
  | .CFewArgsExpressionNode expr, tr => visitExpList expr tr
/-- The methods `visit` of `CListExpressionNode` and `CLastListExpressionNode`. -/
def visitExpList : ExpListNode → CTranslator → Except TranslateError CTranslator
  | .CListExpressionNode prevExps nextExp, tr => do
      let tr1 ← visitExpList prevExps tr
      let tr2 ← visitExp nextExp tr1
      pushArgument tr2
  | .CLastListExpressionNode expr, tr => do
      let tr1 ← visitExp expr tr
      pushArgument tr1
end

open IExp IStm in
/-- The body of `visit(const CWhileStatementNode*)` after the visit of the loop body;
`expr` is the translation of the condition. -/
def whileTail (expr : IExp) (tr0 : CTranslator) : Except TranslateError CTranslator := do
  let (statement, tr1) ← tr0.ToStm
  let (f, tr2) := tr1.newLabel
  let (t, tr3) := tr2.newLabel
  let res :=
    SEQ (SEQ (SEQ (SEQ
              (CJUMP .EQ expr (CONST 0) f t)
              (LABEL t))
              statement)
              (CJUMP .EQ expr (CONST 0) f t))
              (LABEL f)
  return tr3.setStm res

open IExp IStm in
/-- The body of `visit(const CPrintStatementNode*)` after the visit of the
expression. -/
def printTail (tr0 : CTranslator) : Except TranslateError CTranslator := do
  let (exp, tr1) ← tr0.ToExp
  let args := ExpList.cons exp .null
  let fr ← tr1.frame
  let printCall := fr.externalCall "#print" args
  let (st, p) ← (ISubtreeWrapper.CExpConverter printCall).ToStm tr1.pool
  return { tr1 with pool := p }.setStm st

/-- The body of `visit(const CAssignStatementNode*)` after the visit of the
expression. -/
def assignTail (identifier : CSymbol) (tr0 : CTranslator) :
    Except TranslateError CTranslator := do
  let fr ← tr0.frame
  let dst ← fr.findByName identifier
  let (src, tr1) ← tr0.ToExp
  return tr1.setStm (.MOVE dst src)

mutual
/-- The methods `visit` of the statement nodes. -/
def visitStm : StmNode → CTranslator → Except TranslateError CTranslator
  | .CBracedStatementNode statements, tr => visitStatements statements tr
  | .CIfStatementNode expression thenStatement elseStatement, tr => do
      let tr1 ← visitExp expression tr
      let (t, tr2) := tr1.newLabel
      let (f, tr3) := tr2.newLabel
      let (e, tr4) := tr3.newLabel
      let (stm, tr5) ← tr4.ToConditional t f
      let tr6 ← visitStm thenStatement tr5
      let (thenStm, tr7) ← tr6.ToStm
      let thenStm := IStm.SEQ (.SEQ (.LABEL t) thenStm) (.JUMP e)
      let tr8 ← visitElse elseStatement tr7
      let (elseStm, tr9) ← tr8.ToStm
      let elseStm := IStm.SEQ (.SEQ (.LABEL f) elseStm) (.LABEL e)
      let res := IStm.SEQ (.SEQ stm thenStm) elseStm
      return tr9.setStm res
  | .CWhileStatementNode expression statement, tr => do
      let tr1 ← visitExp expression tr
      let (expr, tr2) ← tr1.ToExp
      let tr3 ← visitStm statement tr2
      whileTail expr tr3
  | .CPrintStatementNode expression, tr => do
      let tr1 ← visitExp expression tr
      printTail tr1
  | .CAssignStatementNode identifier expression, tr => do
      let tr1 ← visitExp expression tr
      assignTail identifier tr1
  | .CInvokeExpressionStatementNode firstexpression secondexpression, tr => do
      let tr1 ← visitExp firstexpression tr
      visitExp secondexpression tr1
/-- The method `visit(const CNumerousStatementsNode*)`; a null member is not
visited. -/
def visitStatements : StatementsNode → CTranslator → Except TranslateError CTranslator
  | .null, tr => .ok tr
  | .CNumerousStatementsNode statements statement, tr => do
      let (inner_seq, tr0) ←
        (match statements with
          | .null => Except.ok (none, tr)
          | _ => do
              let tr' ← visitStatements statements tr
              let (inner, tr'') ← tr'.ToStm
              Except.ok (some inner, tr''))
      let tr1 ← visitStm statement tr0
      let (res, tr2) ← tr1.ToStm
      match inner_seq with
      | none => return tr2.setStm res
      | some inner => do
          let (last, tr3) ← tr2.ToStm
          return tr3.setStm (.SEQ inner last)
/-- The visit of the member `elseStatement` when it is not null. -/
def visitElse : ElseNode → CTranslator → Except TranslateError CTranslator
  | .null, tr => .ok tr
  | .stm s, tr => visitStm s tr
end

/-- The visit of an optional statement member. -/
def visitOptStm : Option StmNode → CTranslator → Except TranslateError CTranslator
  | none, tr => .ok tr
  | some s, tr => visitStm s tr

/-- The call `stats->accept(this)` on a `stats` pointer: a null pointer is a null
dereference, the other two cases are the methods `visit` of `CStatsFirstNode` and
`CStatsListNode`, which test their own members `list` and `stm` before visiting
them. -/
def visitStats : StatsNode → CTranslator → Except TranslateError CTranslator
  | .null, _ => .error .nullPointer
  | .CStatsFirstNode stm, tr => visitOptStm stm tr
  | .CStatsListNode list stm, tr => do
      let (inner_seq, tr0) ←
        (match list with
          | .null => Except.ok (none, tr)
          | _ => do
              let tr' ← visitStats list tr
              let (inner, tr'') ← tr'.ToStm
              Except.ok (some inner, tr''))
      let (res, tr1) ← tr0.ToStm
      match stm with
      | none => return tr1.setStm res
      | some s => do
          let tr2 ← visitStm s tr1
          match inner_seq with
          | none => return tr2.setStm res
          | some inner => do
              let (last, tr3) ← tr2.ToStm
              return tr3.setStm (.SEQ inner last)

/-- The methods `visit` of the three method-body nodes; the member `stats` is visited
without a test, so a null one is a null dereference. -/
def visitMethodBody : MethodBodyNode → CTranslator → Except TranslateError CTranslator
  | .CMethodBodyVarsNode, tr => .ok tr
  | .CMethodBodyStatsNode stats, tr => visitStats stats tr
  | .CMethodBodyAllNode stats, tr => visitStats stats tr

/-- The frame a method visit builds: `this`, the formals, the locals and the fields
of the current class. -/
def buildFrame (layout : FrameLayout) (methodName : CSymbol) (method : CMethodInfo)
    (cl : CClassInfo) : CFrame :=
  let fr := (CFrame.new layout methodName).allocFormal "this"
  let fr := method.params.foldl (fun fr v => fr.allocFormal v.name) fr
  let fr := method.vars.foldl (fun fr v => fr.allocLocal v.name) fr
  cl.vars.foldl (fun fr v => fr.allocVar v.name) fr

/-- The method `visit(const CMethodDeclarationRuleNode*)`. -/
def visitMethodDeclaration (node : CMethodDeclarationRuleNode) (tr : CTranslator) :
    Except TranslateError CTranslator := do
  let method ← tr.currentClass.getMethodInfo node.ident
  let tr1 := { tr with currentMethod := method
                       currentFrame := some (buildFrame tr.layout node.ident method tr.currentClass) }
  let tr2 ← visitExp node.return_exp tr1
  let (res, tr3) ← tr2.ToExp
  match node.method_body with
  | none => return { tr3 with trees := tr3.trees ++ [.exp res] }
  | some body => do
      let tr4 ← visitMethodBody body tr3
      let (arg1, tr5) ← tr4.ToStm
      return { tr5 with trees := tr5.trees ++ [.exp (.ESEQ arg1 res)] }

/-- The method `visit(const CMethodDeclarationsListNode*)`; a null member is not
visited. -/
def visitMethodDeclarations : MethodDeclarationsNode → CTranslator →
    Except TranslateError CTranslator
  | .null, tr => .ok tr
  | .CMethodDeclarationsListNode list item, tr => do
      let tr1 ← visitMethodDeclarations list tr
      visitMethodDeclaration item tr1

/-- The method `visit(const CClassDeclarationRuleNode*)`; the member `method` is
visited without a test, so a null one is a null dereference. -/
def visitClassDeclaration (node : CClassDeclarationRuleNode) (tr : CTranslator) :
    Except TranslateError CTranslator := do
  let cl ← tr.table.getClassInfo node.ident
  let tr1 := { tr with currentClass := cl }
  match node.method with
  | .null => .error .nullPointer
  | m => visitMethodDeclarations m tr1

/-- The method `visit(const CDeclarationsListNode*)`; a null member is not visited. -/
def visitDeclarations : DeclarationsNode → CTranslator → Except TranslateError CTranslator
  | .null, tr => .ok tr
  | .CDeclarationsListNode decl cl, tr => do
      let tr1 ← visitDeclarations decl tr
      match cl with
      | none => return tr1
      | some c => visitClassDeclaration c tr1

/-- The method `visit(const CMainClassDeclarationRuleNode*)`. -/
def visitMainClass (node : CMainClassDeclarationRuleNode) (tr : CTranslator) :
    Except TranslateError CTranslator := do
  let method ← tr.currentClass.getMethodInfo "main"
  let tr1 := { tr with currentMethod := method
                       currentFrame := some (buildFrame tr.layout "main" method tr.currentClass) }
  match node.stmt with
  | none => return tr1
  | some s => do
      let tr2 ← visitStm s tr1
      let (st, tr3) ← tr2.ToStm
      return { tr3 with trees := tr3.trees ++ [.stm st] }

/-- The method `visit(const CProgramRuleNode*)`. -/
def visitProgram (node : CProgramRuleNode) (tr : CTranslator) :
    Except TranslateError CTranslator := do
  let tr1 ← visitMainClass node.mainClass tr
  visitDeclarations node.decl tr1

/-- The wrapper a visit leaves in `currentNode`, when the visit succeeds. -/
def currentNodeOf (r : Except TranslateError CTranslator) : Option ISubtreeWrapper :=
  match r with
  | .ok tr => tr.currentNode
  | .error _ => none

/-- The value a visit leaves in `typeForInvoke`, when the visit succeeds. -/
def typeForInvokeOf (r : Except TranslateError CTranslator) : Option String :=
  match r with
  | .ok tr => some tr.typeForInvoke
  | .error _ => none

/-! ## Jump targets and label definitions of a tree -/

mutual
/-- The labels named as a target by the `JUMP` and `CJUMP` statements inside an
expression, in order of occurrence. -/
def IExp.targets : IExp → List CLabel
  | .CONST _ => []
  | .NAME _ => []
  | .TEMP _ => []
  | .BINOP _ left right => left.targets ++ right.targets
  | .MEM exp => exp.targets
  | .CALL func args => func.targets ++ args.targets
  | .ESEQ stm exp => stm.targets ++ exp.targets
/-- The labels named as a target by the `JUMP` and `CJUMP` statements of a statement
tree: for a `CJUMP` both its true and its false label. -/
def IStm.targets : IStm → List CLabel
  | .MOVE dst src => dst.targets ++ src.targets
  | .EXP exp => exp.targets
  | .JUMP label => [label]
  | .CJUMP _ left right iftrue iffalse => left.targets ++ right.targets ++ [iftrue, iffalse]
  | .SEQ left right => left.targets ++ right.targets
  | .LABEL _ => []
/-- The jump targets inside the expressions of an `ExpList`. -/
def ExpList.targets : ExpList → List CLabel
  | .null => []
  | .cons head tail => head.targets ++ tail.targets
end

mutual
/-- The labels of the `LABEL` statements inside an expression, one entry for each
`LABEL` statement, in order of occurrence. -/
def IExp.labels : IExp → List CLabel
  | .CONST _ => []
  | .NAME _ => []
  | .TEMP _ => []
  | .BINOP _ left right => left.labels ++ right.labels
  | .MEM exp => exp.labels
  | .CALL func args => func.labels ++ args.labels
  | .ESEQ stm exp => stm.labels ++ exp.labels
/-- The labels of the `LABEL` statements of a statement tree, one entry for each
`LABEL` statement. -/
def IStm.labels : IStm → List CLabel
  | .MOVE dst src => dst.labels ++ src.labels
  | .EXP exp => exp.labels
  | .JUMP _ => []
  | .CJUMP _ left right _ _ => left.labels ++ right.labels
  | .SEQ left right => left.labels ++ right.labels
  | .LABEL label => [label]
/-- The labels of the `LABEL` statements inside the expressions of an `ExpList`. -/
def ExpList.labels : ExpList → List CLabel
  | .null => []
  | .cons head tail => head.labels ++ tail.labels
end

/-- The jump targets of an emitted tree. -/
def INode.targets : INode → List CLabel
  | .exp e => e.targets
  | .stm s => s.targets

/-- The labels of the `LABEL` statements of an emitted tree. -/
def INode.labels : INode → List CLabel
  | .exp e => e.labels
  | .stm s => s.labels

/-- Every label named as a target of a `JUMP` or `CJUMP` of the tree occurs as a
`LABEL` statement of the same tree. -/
def INode.TargetsDefined (n : INode) : Prop := ∀ l ∈ n.targets, l ∈ n.labels

/-- No label occurs in more than one `LABEL` statement of the tree. -/
def INode.LabelsUnique (n : INode) : Prop := n.labels.Nodup

/-- The access expressions of a frame layout contain no jump. -/
def FrameLayout.JumpFree (layout : FrameLayout) : Prop :=
  ∀ i, (layout.formal i).targets = [] ∧ (layout.localVar i).targets = []

/-- The trees a run of the translator has emitted. -/
def treesOf (r : Except TranslateError CTranslator) : List INode :=
  match r with
  | .ok tr => tr.trees
  | .error _ => []

/-! ## The invariant behind the definedness of jump targets -/

/-- The jump targets of the expression are labels of the expression. -/
def IExp.Closed (e : IExp) : Prop := ∀ l ∈ e.targets, l ∈ e.labels

/-- The jump targets of the statement are labels of the statement. -/
def IStm.Closed (s : IStm) : Prop := ∀ l ∈ s.targets, l ∈ s.labels

/-- The jump targets inside the list are labels inside the list. -/
def ExpList.Closed (a : ExpList) : Prop := ∀ l ∈ a.targets, l ∈ a.labels

/-- The current node is null or a value or statement wrapper of a closed tree. -/
def WrapperClosed : Option ISubtreeWrapper → Prop
  | none => True
  | some (.CExpConverter e) => e.Closed
  | some (.CStmConverter s) => s.Closed
  | some _ => False

/-- The access expressions a frame holds contain no jump. -/
def CFrame.JumpFree (fr : CFrame) : Prop :=
  fr.layout.JumpFree ∧ ∀ b ∈ fr.formals ++ fr.locals ++ fr.fields, b.2.targets = []

/-- The part of the translator state the visits of expressions and statements build
on: the current node, the argument accumulator and the frame hold closed trees. -/
def CTranslator.Closed (tr : CTranslator) : Prop :=
  WrapperClosed tr.currentNode ∧ tr.arguments.Closed ∧
    ∀ fr, tr.currentFrame = some fr → fr.JumpFree

/-- The fields of the translator that the visits of expressions and statements leave
alone. -/
def CTranslator.outer (tr : CTranslator) :
    CTable × List (String × CLabel) × CClassInfo × CMethodInfo × List INode :=
  (tr.table, tr.functionalLabels, tr.currentClass, tr.currentMethod, tr.trees)

/-- The visit from `tr` to `tr'` left the table, the class, the method, the frame, the
layout and the emitted trees alone. -/
def Stable (tr tr' : CTranslator) : Prop :=
  tr'.outer = tr.outer ∧ tr'.currentFrame = tr.currentFrame ∧
    tr'.layout.formal = tr.layout.formal ∧ tr'.layout.localVar = tr.layout.localVar

/-- Every tree emitted so far has its jump targets defined. -/
def CTranslator.TreesDefined (tr : CTranslator) : Prop :=
  ∀ n ∈ tr.trees, n.TargetsDefined

/-- The invariant of a whole translation: the state is closed, the frame layout is
jump free, and every emitted tree has its jump targets defined. -/
def CTranslator.WellFormed (tr : CTranslator) : Prop :=
  tr.Closed ∧ tr.layout.JumpFree ∧ tr.TreesDefined

/-! ## A sample symbol table and translator state -/

/-- A frame layout for the examples: formals above, locals below a frame pointer. -/
def sampleLayout : FrameLayout :=
  { formal := fun i => .MEM (.BINOP .PLUS_OP (.NAME (some (.named "fp"))) (.CONST (4 * i)))
    localVar := fun i =>
      .MEM (.BINOP .MINUS_OP (.NAME (some (.named "fp"))) (.CONST (4 * (i + 1)))) }

/-- The class `A` of the examples, with field `x` and method `m(p, q)`. -/
def sampleClassA : CClassInfo :=
  { name := "A", vars := [⟨"x"⟩]
    methods := [{ name := "m", params := [⟨"p"⟩, ⟨"q"⟩], vars := [] }] }

/-- The method `m(p, q)` of class `B`, with local `v`. -/
def sampleMethodBm : CMethodInfo :=
  { name := "m", params := [⟨"p"⟩, ⟨"q"⟩], vars := [⟨"v"⟩] }

/-- The class `B` of the examples, with field `y` and method `m(p, q)`. -/
def sampleClassB : CClassInfo :=
  { name := "B", vars := [⟨"y"⟩], methods := [sampleMethodBm] }

/-- The symbol table of the examples. -/
def sampleTable : CTable :=
  { classInfo := [{ name := "Main", vars := [], methods := [⟨"main", [], []⟩] },
                  sampleClassA, sampleClassB] }

/-- A translator state inside the method `m` of class `B`, before any expression or
statement has been visited. -/
def sampleTranslator : CTranslator :=
  { table := sampleTable, layout := sampleLayout
    functionalLabels := mkFunctionalLabels sampleTable
    currentClass := sampleClassB, currentMethod := sampleMethodBm
    currentFrame := some (buildFrame sampleLayout "m" sampleMethodBm sampleClassB)
    currentNode := none, typeForInvoke := "", arguments := .null
    trees := [], pool := { nextTemp := 0, nextLabel := 0 } }

/-- The statement `System.out.println(n);`. -/
def samplePrint (n : Int) : StmNode := .CPrintStatementNode (.CIntExpressionNode n)

/-- The statement `if (true) System.out.println(1); else System.out.println(2);`. -/
def sampleIfElse : StmNode :=
  .CIfStatementNode (.CBooleanExpressionNode true) (samplePrint 1) (.stm (samplePrint 2))

/-- The statement `if (true) System.out.println(1);`, with no else branch. -/
def sampleIf : StmNode :=
  .CIfStatementNode (.CBooleanExpressionNode true) (samplePrint 1) .null

/-- The statement `while (true) System.out.println(1);`. -/
def sampleWhile : StmNode :=
  .CWhileStatementNode (.CBooleanExpressionNode true) (samplePrint 1)

/-- The expression `this.m(1, 2)`: the argument list is the chain
`CListExpressionNode(CLastListExpressionNode(1), 2)`. -/
def sampleInvokeTwoArgs : ExpNode :=
  .CInvokeMethodExpressionNode .CThisExpressionNode "m"
    (.CFewArgsExpressionNode
      (.CListExpressionNode (.CLastListExpressionNode (.CIntExpressionNode 1))
        (.CIntExpressionNode 2)))

/-- The expression `new A().m(this, 2)`, inside class `B`. -/
def sampleInvokeOnNew : ExpNode :=
  .CInvokeMethodExpressionNode (.CNewObjectExpressionNode "A") "m"
    (.CFewArgsExpressionNode
      (.CListExpressionNode (.CLastListExpressionNode .CThisExpressionNode)
        (.CIntExpressionNode 2)))

/-- The expression `new int[3]`. -/
def sampleNewArray : ExpNode := .CNewArrayExpressionNode (.CIntExpressionNode 3)

/-- The expression `v.length`, for the local `v`. -/
def sampleLength : ExpNode := .CLengthExpressionNode (.CIdentExpressionNode "v")

/-- The argument chain of the integer literals whose source order is
`prev.reverse ++ [k]`: `k` is the last argument, `prev` lists the arguments before it,
the nearest first. -/
def literalArgs : Int → List Int → ExpListNode
  | k, [] => .CLastListExpressionNode (.CIntExpressionNode k)
  | k, k' :: prev => .CListExpressionNode (literalArgs k' prev) (.CIntExpressionNode k)

/-- The constants `CONST k` for `k` in `ks`, in the order of `ks`, put in front of an
`ExpList`. -/
def constsOnto : List Int → ExpList → ExpList
  | [], l => l
  | k :: ks, l => .cons (.CONST k) (constsOnto ks l)

/-- The IR of `System.out.println(n);`. -/
def samplePrintIR (n : Int) : IStm :=
  .EXP (.CALL (.NAME (some (.named "#print"))) (.cons (.CONST n) .null))

/-- The while-loop tree in the words of the spec (algorithm A3), for a condition that
is the value `e`, whose `to_cond(t, f)` is `CJUMP(EQ, e, CONST(0), f, t)`:
`SEQ(SEQ(c.to_cond(t, f), LABEL(t)), SEQ(body, SEQ(c.to_cond(t, f), LABEL(f))))`. -/
def whileSpec (e : IExp) (body : IStm) (t f : CLabel) : IStm :=
  .SEQ (.SEQ (.CJUMP .EQ e (.CONST 0) f t) (.LABEL t))
    (.SEQ body (.SEQ (.CJUMP .EQ e (.CONST 0) f t) (.LABEL f)))

/-- Whether a wrapper is one of the concrete conditional wrappers, the subclasses of
`CConditionalWrapper`. -/
def ISubtreeWrapper.isConditional : ISubtreeWrapper → Bool
  | .CRelativeCmpWrapper _ _ _ => true
  | .CFromAndConverter _ _ => true
  | .CFromOrConverter _ _ => true
  | _ => false

/-- The statement part of the tree of `CConditionalWrapper::ToExp`, with the statement
`c` in the place of the conditional. -/
def toExpBody (r : CTemp) (t f : CLabel) (c : IStm) : IStm :=
  .SEQ (.MOVE (.TEMP r) (.CONST 1))
    (.SEQ c
    (.SEQ (.LABEL f)
    (.SEQ (.MOVE (.TEMP r) (.CONST 0))
          (.LABEL t))))

/-- A class with `2 ^ 29` fields. -/
def sampleBigClass : CClassInfo :=
  { name := "Big", vars := List.replicate (2 ^ 29) ⟨"x"⟩, methods := [] }

/-- The sample translator state with the symbol table extended by `sampleBigClass`. -/
def sampleBigTranslator : CTranslator :=
  { sampleTranslator with table := { classInfo := sampleBigClass :: sampleTable.classInfo } }

/-- The expression `true && false`. -/
def sampleAnd : ExpNode :=
  .CArithmeticExpressionNode (.CBooleanExpressionNode true) .AND_OP
    (.CBooleanExpressionNode false)

/-- The statement `if (true && false) System.out.println(1); else System.out.println(2);`. -/
def sampleIfAnd : StmNode :=
  .CIfStatementNode sampleAnd (samplePrint 1) (.stm (samplePrint 2))

/-- The value the translator builds for `x && y`: the tree of
`CFromAndConverter(x, y).ToExp()` with the result temporary `r` and the labels `t`,
`f`, `z`. -/
def andValue (x y : IExp) (r : CTemp) (t f z : CLabel) : IExp :=
  .ESEQ
    (.SEQ (.MOVE (.TEMP r) (.CONST 1))
    (.SEQ (.SEQ (.CJUMP .LT x (.CONST 1) f z)
            (.SEQ (.LABEL z) (.CJUMP .LT y (.CONST 1) f t)))
    (.SEQ (.LABEL f)
    (.SEQ (.MOVE (.TEMP r) (.CONST 0))
          (.LABEL t)))))
    (.TEMP r)

/-- The class `Main` of the examples, with the method `main`. -/
def sampleClassMain : CClassInfo :=
  { name := "Main", vars := [], methods := [⟨"main", [], []⟩] }

/-- The translator state the constructor builds from the sample table. -/
def sampleMainTranslator : CTranslator :=
  { table := sampleTable, layout := sampleLayout
    functionalLabels := mkFunctionalLabels sampleTable
    currentClass := sampleClassMain, currentMethod := ⟨"main", [], []⟩
    currentFrame := none, currentNode := none, typeForInvoke := "", arguments := .null
    trees := [], pool := { nextTemp := 0, nextLabel := 0 } }

/-- The program whose main statement is `sampleIfElse`, with no other class. -/
def sampleProgramIf : CProgramRuleNode :=
  { mainClass := { stmt := some sampleIfElse }, decl := .null }

/-- The expression `1 < 2`. -/
def sampleCompare : ExpNode :=
  .CCompareExpressionNode (.CIntExpressionNode 1) (.CIntExpressionNode 2)

/-- The statement `while (1 < 2) System.out.println(1);`. -/
def sampleWhileCompare : StmNode := .CWhileStatementNode sampleCompare (samplePrint 1)

/-- The program whose main statement is `sampleWhileCompare`, with no other class. -/
def sampleProgramWhile : CProgramRuleNode :=
  { mainClass := { stmt := some sampleWhileCompare }, decl := .null }

/-- The IR of `1 < 2` built from temporary 0 and the labels 0 and 1. -/
def sampleCompareIR : IExp :=
  .ESEQ (toExpBody ⟨0⟩ (.anon 0) (.anon 1)
          (.CJUMP .LT (.CONST 1) (.CONST 2) (.anon 0) (.anon 1)))
    (.TEMP ⟨0⟩)

/-- The IR of `while (1 < 2) System.out.println(1);` built after `sampleCompareIR`. -/
def sampleWhileCompareIR : IStm :=
  .SEQ (.SEQ (.SEQ (.SEQ
          (.CJUMP .EQ sampleCompareIR (.CONST 0) (.anon 2) (.anon 3))
          (.LABEL (.anon 3)))
          (samplePrintIR 1))
          (.CJUMP .EQ sampleCompareIR (.CONST 0) (.anon 2) (.anon 3)))
          (.LABEL (.anon 2))

/-- The declaration of a method `m` with no body node, returning 7. -/
def sampleMethodNoBody : CMethodDeclarationRuleNode :=
  { ident := "m", method_body := none, return_exp := .CIntExpressionNode 7 }

/-- The declaration of a method `m` whose body is the statement
`System.out.println(1);`, returning 7. -/
def sampleMethodStats : CMethodDeclarationRuleNode :=
  { ident := "m"
    method_body := some (.CMethodBodyStatsNode (.CStatsFirstNode (some (samplePrint 1))))
    return_exp := .CIntExpressionNode 7 }

/-- The declaration of a method `m` whose statement body has a null member `stats`,
returning 7. -/
def sampleMethodNullStats : CMethodDeclarationRuleNode :=
  { ident := "m", method_body := some (.CMethodBodyStatsNode .null)
    return_exp := .CIntExpressionNode 7 }

/-- The declaration of a method `m` whose body declares variables only, returning 7. -/
def sampleMethodVarsOnly : CMethodDeclarationRuleNode :=
  { ident := "m", method_body := some .CMethodBodyVarsNode
    return_exp := .CIntExpressionNode 7 }

/-! ## The node objects of a `while`

The IR nodes as objects: an address-level reading of the `new` expressions of
`visit(const CWhileStatementNode*)`, in which a child is a pointer. -/

/-- An IR node object: its class and members, a child being the address of another
object. `expTree` and `stmTree` are the roots of trees built by earlier visits, whose
own objects are not detailed. -/
inductive Cell where
  | expTree (e : IExp)
  | stmTree (s : IStm)
  | CONST (value : Int)
  | CJUMP (relop : CJUMP_OP) (left right : Nat) (iftrue iffalse : CLabel)
  | SEQ (left right : Nat)
  | LABEL (label : CLabel)

/-- The child pointers of an object, in member order. -/
def Cell.children : Cell → List Nat
  | .CJUMP _ left right _ _ => [left, right]
  | .SEQ left right => [left, right]
  | _ => []

/-- The objects allocated so far; the address of an object is its index. -/
abbrev Heap := List Cell

/-- A `new` expression: the object gets the next address. -/
def Heap.alloc (h : Heap) (c : Cell) : Nat × Heap := (h.length, h ++ [c])

/-- The positions at which the object at address `a` is installed as a child: the
pairs of a parent address and a member index. -/
def Heap.positions (h : Heap) (a : Nat) : List (Nat × Nat) :=
  h.enum.flatMap fun ic =>
    (ic.2.children.enum.filter fun kc => kc.2 == a).map fun kc => (ic.1, kc.1)

/-- The `new` expressions of `visit(const CWhileStatementNode*)`, lines 348 to 353:
`expr` and `statement` are the addresses of the condition and of the body, `f` and
`t` the two labels. The result is the address of the root `SEQ`. -/
def whileTailAlloc (expr statement : Nat) (f t : CLabel) (h : Heap) : Nat × Heap :=
  let (zero1, h) := h.alloc (.CONST 0)
  let (jump1, h) := h.alloc (.CJUMP .EQ expr zero1 f t)
  let (labelT, h) := h.alloc (.LABEL t)
  let (seq1, h) := h.alloc (.SEQ jump1 labelT)
  let (seq2, h) := h.alloc (.SEQ seq1 statement)
  let (zero2, h) := h.alloc (.CONST 0)
  let (jump2, h) := h.alloc (.CJUMP .EQ expr zero2 f t)
  let (seq3, h) := h.alloc (.SEQ seq2 jump2)
  let (labelF, h) := h.alloc (.LABEL f)
  h.alloc (.SEQ seq3 labelF)

/-- The expression an address stands for. -/
def Heap.readExp (h : Heap) (a : Nat) : Option IExp :=
  match h.get? a with
  | some (.expTree e) => some e
  | some (.CONST value) => some (.CONST value)
  | _ => none

/-- The statement tree an address stands for, followed through at most `fuel` levels
of child pointers. -/
def Heap.readStm (h : Heap) : Nat → Nat → Option IStm
  | 0, _ => none
  | fuel + 1, a =>
      match h.get? a with
      | some (.stmTree s) => some s
      | some (.LABEL label) => some (.LABEL label)
      | some (.CJUMP relop left right iftrue iffalse) =>
          match h.readExp left, h.readExp right with
          | some l, some r => some (.CJUMP relop l r iftrue iffalse)
          | _, _ => none
      | some (.SEQ left right) =>
          match h.readStm fuel left, h.readStm fuel right with
          | some l, some r => some (.SEQ l r)
          | _, _ => none
      | _ => none

/-- The statement `while (this.m(1, 2)) { }`, whose body is a block with no
statements. -/
def sampleWhileEmptyBlock : StmNode :=
  .CWhileStatementNode sampleInvokeTwoArgs (.CBracedStatementNode .null)

/-- The IR of the call `this.m(1, 2)` as the translator emits it inside class `B`. -/
def sampleInvokeIR : IExp :=
  .CALL (.NAME (some (.named "B@m")))
    (.cons (sampleLayout.formal 0) (.cons (.CONST 2) (.cons (.CONST 1) .null)))

/-- The program whose main statement is the block `{ }`, with no other class. -/
def sampleProgramEmptyBlock : CProgramRuleNode :=
  { mainClass := { stmt := some (.CBracedStatementNode .null) }, decl := .null }

/-- The expression `this.m(2, 3)`. -/
def sampleInvokeInner : ExpNode :=
  .CInvokeMethodExpressionNode .CThisExpressionNode "m"
    (.CFewArgsExpressionNode
      (.CListExpressionNode (.CLastListExpressionNode (.CIntExpressionNode 2))
        (.CIntExpressionNode 3)))

/-- The expression `this.m(1, this.m(2, 3))`: an invocation with two arguments, the
second of which is an invocation with two arguments. -/
def sampleInvokeNested : ExpNode :=
  .CInvokeMethodExpressionNode .CThisExpressionNode "m"
    (.CFewArgsExpressionNode
      (.CListExpressionNode (.CLastListExpressionNode (.CIntExpressionNode 1))
        sampleInvokeInner))

/-- The argument list of the `CALL` a visit leaves in the current node. -/
def callArgumentsOf (r : Except TranslateError CTranslator) : Option (List IExp) :=
  match r with
  | .ok tr =>
      match tr.currentNode with
      | some (.CExpConverter (.CALL _ args)) => some args.toList
      | _ => none
  | .error _ => none

/-- The accumulator `arguments` after a visit, as a list. -/
def argumentsOf (r : Except TranslateError CTranslator) : Option (List IExp) :=
  match r with
  | .ok tr => some tr.arguments.toList
  | .error _ => none

/-- The run did not stop on the `assert(0)` of `CStmConverter`. -/
def NoAssert {α : Type} (r : Except TranslateError α) : Prop :=
  r ≠ .error .assertFailed

/-- The visit left a value wrapper (`CExpConverter`) in the current node, or stopped
for a reason other than the `assert(0)` of `CStmConverter`. -/
def LeavesValue (r : Except TranslateError CTranslator) : Prop :=
  match r with
  | .ok tr => ∃ x, tr.currentNode = some (.CExpConverter x)
  | .error err => err ≠ .assertFailed

end Translate

/-! ## Theorems -/

namespace Translate

open IExp IStm

/-! ### The runs of the trees built by the conditional wrappers -/

theorem evalExp_CONST (σ : Store) (v : Int) : evalExp σ (CONST v) = some v := rfl

theorem evalExp_TEMP (σ : Store) (t : CTemp) : evalExp σ (TEMP t) = some (σ t) := rfl

theorem exec_succ (prog : List IStm) (fuel : Nat) (c : Config) :
    exec prog (fuel + 1) c =
      match prog.get? c.pc with
      | none => .finished c
      | some s =>
          match stepStm prog s c with
          | .inl c' => exec prog fuel c'
          | .inr o => o := rfl

/-- The tree `CFromAndConverter(a, b).ToExp()` builds from a pool: the result
temporary is the next temporary, `t`, `f` and `z` are the next three labels. -/
theorem CFromAndConverter_ToExp_eq (ea eb : IExp) (p : Pool) :
    (ISubtreeWrapper.CFromAndConverter ea eb).ToExp p =
      .ok (ESEQ
            (SEQ (MOVE (TEMP ⟨p.nextTemp⟩) (CONST 1))
            (SEQ (SEQ (CJUMP .LT ea (CONST 1) (.anon (p.nextLabel + 1)) (.anon (p.nextLabel + 2)))
                   (SEQ (LABEL (.anon (p.nextLabel + 2)))
                        (CJUMP .LT eb (CONST 1) (.anon (p.nextLabel + 1)) (.anon p.nextLabel))))
            (SEQ (LABEL (.anon (p.nextLabel + 1)))
            (SEQ (MOVE (TEMP ⟨p.nextTemp⟩) (CONST 0))
                 (LABEL (.anon p.nextLabel))))))
            (TEMP ⟨p.nextTemp⟩),
           { nextTemp := p.nextTemp + 1, nextLabel := p.nextLabel + 3 }) := rfl

/-- The tree `CFromOrConverter(a, b).ToExp()` builds from a pool. -/
theorem CFromOrConverter_ToExp_eq (ea eb : IExp) (p : Pool) :
    (ISubtreeWrapper.CFromOrConverter ea eb).ToExp p =
      .ok (ESEQ
            (SEQ (MOVE (TEMP ⟨p.nextTemp⟩) (CONST 1))
            (SEQ (SEQ (CJUMP .GT ea (CONST 1) (.anon p.nextLabel) (.anon (p.nextLabel + 2)))
                   (SEQ (LABEL (.anon (p.nextLabel + 2)))
                        (CJUMP .LT eb (CONST 1) (.anon (p.nextLabel + 1)) (.anon p.nextLabel))))
            (SEQ (LABEL (.anon (p.nextLabel + 1)))
            (SEQ (MOVE (TEMP ⟨p.nextTemp⟩) (CONST 0))
                 (LABEL (.anon p.nextLabel))))))
            (TEMP ⟨p.nextTemp⟩),
           { nextTemp := p.nextTemp + 1, nextLabel := p.nextLabel + 3 }) := rfl

/-- What the tree of `CFromOrConverter(a, b).ToExp()` computes on 0/1 operands: the
result temporary ends as `b`, whatever `a` is, since `a > 1` never holds. -/
theorem CFromOrConverter_ToExp_run (ea eb : IExp) (a b : Int) (p : Pool) (σ : Store)
    (fuel : Nat) (ha : a = 0 ∨ a = 1) (hb : b = 0 ∨ b = 1)
    (hea : evalExp (σ.set ⟨p.nextTemp⟩ 1) ea = some a)
    (heb : evalExp (σ.set ⟨p.nextTemp⟩ 1) eb = some b) :
    ∃ s r p', (ISubtreeWrapper.CFromOrConverter ea eb).ToExp p = .ok (ESEQ s (TEMP r), p') ∧
      (run (fuel + 8) s σ).result r = some b := by
  refine ⟨_, _, _, CFromOrConverter_ToExp_eq ea eb p, ?_⟩
  simp only [run, flatten, List.append, List.cons_append, List.nil_append]
  rcases ha with rfl | rfl <;> rcases hb with rfl | rfl <;>
    simp [exec_succ, stepStm, jumpTo, labelIndex, evalExp_CONST, evalRel, hea, heb,
      Outcome.result, Store.set]

/-- C1 (the code departs from the claim at `a = 1`, `b = 0`): the statement part of
`CFromOrConverter(CONST 1, CONST 0).ToExp()`, run from any store, ends with the result
temporary equal to 0, although `1 || 0` is true. -/
theorem CFromOrConverter_ToExp_true_false (p : Pool) (σ : Store) (fuel : Nat) :
    ∃ s r p',
      (ISubtreeWrapper.CFromOrConverter (CONST 1) (CONST 0)).ToExp p
        = .ok (ESEQ s (TEMP r), p') ∧
      (run (fuel + 8) s σ).result r = some 0 := by
  refine ⟨_, _, _, CFromOrConverter_ToExp_eq (CONST 1) (CONST 0) p, ?_⟩
  simp [run, flatten, exec_succ, stepStm, jumpTo, labelIndex, evalExp_CONST, evalRel,
    Outcome.result, Store.set]

/-- C2: for `a`, `b` in {0, 1} held by the operand expressions, the statement part of
`CFromAndConverter(a, b).ToExp()` runs to its end (eight steps suffice) and leaves the
result temporary equal to 1 exactly when `a = 1` and `b = 1`, and to 0 otherwise. -/
theorem CFromAndConverter_ToExp_run (ea eb : IExp) (a b : Int) (p : Pool) (σ : Store)
    (fuel : Nat) (ha : a = 0 ∨ a = 1) (hb : b = 0 ∨ b = 1)
    (hea : evalExp (σ.set ⟨p.nextTemp⟩ 1) ea = some a)
    (heb : evalExp (σ.set ⟨p.nextTemp⟩ 1) eb = some b) :
    ∃ s r p', (ISubtreeWrapper.CFromAndConverter ea eb).ToExp p = .ok (ESEQ s (TEMP r), p') ∧
      (run (fuel + 8) s σ).result r = some (if a = 1 ∧ b = 1 then 1 else 0) := by
  refine ⟨_, _, _, CFromAndConverter_ToExp_eq ea eb p, ?_⟩
  simp only [run, flatten, List.append, List.cons_append, List.nil_append]
  rcases ha with rfl | rfl <;> rcases hb with rfl | rfl <;>
    simp [exec_succ, stepStm, jumpTo, labelIndex, evalExp_CONST, evalRel, hea, heb,
      Outcome.result, Store.set]

/-- The round trip of `&&` at `a = 1`, `b = 1` held by constants. -/
theorem CFromAndConverter_ToExp_run_witness :
    ((1 : Int) = 0 ∨ (1 : Int) = 1) ∧
    evalExp (Store.set (fun _ => 0) ⟨0⟩ 1) (CONST 1) = some 1 ∧
    ∃ s r p',
      (ISubtreeWrapper.CFromAndConverter (CONST 1) (CONST 1)).ToExp ⟨0, 0⟩
        = .ok (ESEQ s (TEMP r), p') ∧
      (run (0 + 8) s (fun _ => 0)).result r
        = some (if (1 : Int) = 1 ∧ (1 : Int) = 1 then 1 else 0) :=
  ⟨Or.inr rfl, rfl,
    CFromAndConverter_ToExp_run (CONST 1) (CONST 1) 1 1 ⟨0, 0⟩ (fun _ => 0) 0
      (Or.inr rfl) (Or.inr rfl) rfl rfl⟩

/-- Short circuit of `&&`: when the left operand holds 0, the run of
`CFromAndConverter(a, b).ToConditional(t, f)` executes its first statement only and
leaves through `f`; the `CJUMP` on `b`, at position 2, is not executed. -/
theorem CFromAndConverter_ToConditional_short_circuit (ea eb : IExp) (t f : CLabel)
    (p : Pool) (σ : Store) (fuel : Nat) (hf : f ≠ .anon p.nextLabel)
    (hea : evalExp σ ea = some 0) :
    ∃ s p', (ISubtreeWrapper.CFromAndConverter ea eb).ToConditional t f p = .ok (s, p') ∧
      (flatten s).get? 2 = some (CJUMP .LT eb (CONST 1) f t) ∧
      (run (fuel + 1) s σ).executed = [0] ∧
      (run (fuel + 1) s σ).exitLabel = some f := by
  refine ⟨_, _, rfl, rfl, ?_⟩
  have hf' : ¬ (CLabel.anon p.nextLabel = f) := fun h => hf h.symm
  simp [run, flatten, exec_succ, stepStm, jumpTo, labelIndex, evalExp_CONST, evalRel, hea,
    Outcome.executed, Outcome.exitLabel, Pool.newLabel, hf']

/-- C3 (the code departs from the claim in its `||` half): when the left operand of
`CFromOrConverter(a, b).ToConditional(t, f)` holds 1, the run does not leave through
`t` at the first `CJUMP`: it goes on to `LABEL z` and executes the `CJUMP` that reads
`b`, at position 2, and leaves through `f` when `b` holds 0. -/
theorem CFromOrConverter_ToConditional_reads_right (ea eb : IExp) (b : Int) (t f : CLabel)
    (p : Pool) (σ : Store) (fuel : Nat)
    (ht : t ≠ .anon p.nextLabel) (hf : f ≠ .anon p.nextLabel)
    (hea : evalExp σ ea = some 1) (heb : evalExp σ eb = some b) :
    ∃ s p', (ISubtreeWrapper.CFromOrConverter ea eb).ToConditional t f p = .ok (s, p') ∧
      (flatten s).get? 2 = some (CJUMP .LT eb (CONST 1) f t) ∧
      (run (fuel + 3) s σ).executed = [0, 1, 2] ∧
      (run (fuel + 3) s σ).exitLabel = some (if b < 1 then f else t) := by
  refine ⟨_, _, rfl, rfl, ?_⟩
  have ht' : ¬ (CLabel.anon p.nextLabel = t) := fun h => ht h.symm
  have hf' : ¬ (CLabel.anon p.nextLabel = f) := fun h => hf h.symm
  by_cases hb : b < 1 <;>
    simp [run, flatten, exec_succ, stepStm, jumpTo, labelIndex, evalExp_CONST, evalRel, hea,
      heb, Outcome.executed, Outcome.exitLabel, Pool.newLabel, ht', hf', hb]

/-- The run of `1 || 0` towards the labels 0 (true) and 1 (false): the `CJUMP` on the
right operand is executed and control leaves through the false label. -/
theorem CFromOrConverter_ToConditional_reads_right_witness :
    CLabel.anon 0 ≠ CLabel.anon 2 ∧ CLabel.anon 1 ≠ CLabel.anon 2 ∧
    ∃ s p',
      (ISubtreeWrapper.CFromOrConverter (CONST 1) (CONST 0)).ToConditional
        (.anon 0) (.anon 1) ⟨0, 2⟩ = .ok (s, p') ∧
      (flatten s).get? 2 = some (CJUMP .LT (CONST 0) (CONST 1) (.anon 1) (.anon 0)) ∧
      (run (0 + 3) s (fun _ => 0)).executed = [0, 1, 2] ∧
      (run (0 + 3) s (fun _ => 0)).exitLabel
        = some (if (0 : Int) < 1 then CLabel.anon 1 else CLabel.anon 0) :=
  ⟨by decide, by decide,
    CFromOrConverter_ToConditional_reads_right (CONST 1) (CONST 0) 0 (.anon 0) (.anon 1)
      ⟨0, 2⟩ (fun _ => 0) 0 (by decide) (by decide) rfl rfl⟩

end Translate

namespace Translate

open IExp IStm

/-! ### The current node -/

theorem CTranslator.ToConditional_CExpConverter (tr : CTranslator) (e : IExp) (t f : CLabel)
    (h : tr.currentNode = some (.CExpConverter e)) :
    tr.ToConditional t f = .ok (CJUMP .EQ e (CONST 0) f t, tr) := by
  cases tr
  cases h
  rfl

theorem CTranslator.ToExp_CExpConverter (tr : CTranslator) (e : IExp)
    (h : tr.currentNode = some (.CExpConverter e)) : tr.ToExp = .ok (e, tr) := by
  cases tr
  cases h
  rfl

theorem CTranslator.ToStm_CStmConverter (tr : CTranslator) (st : IStm)
    (h : tr.currentNode = some (.CStmConverter st)) : tr.ToStm = .ok (st, tr) := by
  cases tr
  cases h
  rfl

/-! ### `if` -/

/-- The visit of an `if`, step by step: the condition leaves the value `e`, three
labels are drawn, the then branch is visited and read with `ToStm`, the else member is
visited when it is not null, and the current node is read with `ToStm` again. -/
theorem visitStm_CIfStatementNode_steps (c : ExpNode) (th : StmNode) (els : ElseNode)
    (tr tr1 tr2 tr3 tr4 tr5 : CTranslator) (e : IExp) (s1 s2 : IStm)
    (hc : visitExp c tr = .ok tr1)
    (he : tr1.currentNode = some (.CExpConverter e))
    (hth : visitStm th tr1.newLabel.2.newLabel.2.newLabel.2 = .ok tr2)
    (hs1 : tr2.ToStm = .ok (s1, tr3))
    (hel : visitElse els tr3 = .ok tr4)
    (hs2 : tr4.ToStm = .ok (s2, tr5)) :
    visitStm (.CIfStatementNode c th els) tr =
      .ok (tr5.setStm
        (SEQ (SEQ (CJUMP .EQ e (CONST 0) (.anon (tr1.pool.nextLabel + 1))
                      (.anon tr1.pool.nextLabel))
                  (SEQ (SEQ (LABEL (.anon tr1.pool.nextLabel)) s1)
                       (JUMP (.anon (tr1.pool.nextLabel + 2)))))
             (SEQ (SEQ (LABEL (.anon (tr1.pool.nextLabel + 1))) s2)
                  (LABEL (.anon (tr1.pool.nextLabel + 2)))))) := by
  have he' : tr1.newLabel.2.newLabel.2.newLabel.2.currentNode = some (.CExpConverter e) := he
  rw [visitStm]
  simp only [hc, bind, Except.bind, CTranslator.ToConditional_CExpConverter _ _ _ _ he', hth,
    hs1, hel, hs2, pure, Except.pure]
  rfl

/-- C4 (as amended): for an `if` with an else branch whose condition translates to
the value `e`, whose branches translate to the statements `s1` and `s2`, the visit
leaves a statement wrapper holding
`SEQ(SEQ(CJUMP(EQ, e, CONST(0), F, T), SEQ(SEQ(LABEL(T), s1), JUMP(E))),
SEQ(SEQ(LABEL(F), s2), LABEL(E)))`, where `T`, `F`, `E` are the three labels drawn from
the pool right after the condition, pairwise distinct. -/
theorem visit_CIfStatementNode_else (c : ExpNode) (th el : StmNode)
    (tr tr1 tr2 tr3 tr4 tr5 : CTranslator) (e : IExp) (s1 s2 : IStm)
    (hc : visitExp c tr = .ok tr1)
    (he : tr1.currentNode = some (.CExpConverter e))
    (hth : visitStm th tr1.newLabel.2.newLabel.2.newLabel.2 = .ok tr2)
    (hs1 : tr2.ToStm = .ok (s1, tr3))
    (hel : visitStm el tr3 = .ok tr4)
    (hs2 : tr4.ToStm = .ok (s2, tr5)) :
    ∃ T F E : CLabel,
      T = .anon tr1.pool.nextLabel ∧ F = .anon (tr1.pool.nextLabel + 1) ∧
      E = .anon (tr1.pool.nextLabel + 2) ∧ T ≠ F ∧ T ≠ E ∧ F ≠ E ∧
      visitStm (.CIfStatementNode c th (.stm el)) tr =
        .ok (tr5.setStm
          (SEQ (SEQ (CJUMP .EQ e (CONST 0) F T) (SEQ (SEQ (LABEL T) s1) (JUMP E)))
               (SEQ (SEQ (LABEL F) s2) (LABEL E)))) := by
  refine ⟨_, _, _, rfl, rfl, rfl, by simp, by simp, by simp, ?_⟩
  have hel' : visitElse (.stm el) tr3 = .ok tr4 := by rw [visitElse]; exact hel
  exact visitStm_CIfStatementNode_steps c th (.stm el) tr tr1 tr2 tr3 tr4 tr5 e s1 s2
    hc he hth hs1 hel' hs2

/-- The tree of `if (true) System.out.println(1); else System.out.println(2);`. -/
theorem visit_CIfStatementNode_else_witness :
    currentNodeOf (visitStm sampleIfElse sampleTranslator) =
      some (.CStmConverter
        (SEQ (SEQ (CJUMP .EQ (CONST 1) (CONST 0) (.anon 1) (.anon 0))
                  (SEQ (SEQ (LABEL (.anon 0)) (samplePrintIR 1)) (JUMP (.anon 2))))
             (SEQ (SEQ (LABEL (.anon 1)) (samplePrintIR 2)) (LABEL (.anon 2))))) := by
  obtain ⟨T, F, E, rfl, rfl, rfl, -, -, -, h⟩ :=
    visit_CIfStatementNode_else (.CBooleanExpressionNode true) (samplePrint 1) (samplePrint 2)
      sampleTranslator _ _ _ _ _ (CONST 1) (samplePrintIR 1) (samplePrintIR 2)
      rfl rfl rfl rfl rfl rfl
  rw [sampleIfElse, h]
  rfl

/-- The tree the visit builds for `sampleIfElse`, step by step. -/
theorem visitStm_sampleIfElse :
    currentNodeOf (visitStm sampleIfElse sampleTranslator) =
      some (.CStmConverter
        (SEQ (SEQ (CJUMP .EQ (CONST 1) (CONST 0) (.anon 1) (.anon 0))
                  (SEQ (SEQ (LABEL (.anon 0)) (samplePrintIR 1)) (JUMP (.anon 2))))
             (SEQ (SEQ (LABEL (.anon 1)) (samplePrintIR 2)) (LABEL (.anon 2))))) := by
  rw [sampleIfElse,
    visitStm_CIfStatementNode_steps (.CBooleanExpressionNode true) (samplePrint 1)
      (.stm (samplePrint 2)) sampleTranslator _ _ _ _ _ (CONST 1) (samplePrintIR 1)
      (samplePrintIR 2) rfl rfl rfl rfl rfl rfl]
  rfl

/-- C4 (counterexample): the tree of
`if (true) System.out.println(1); else System.out.println(2);` is not of the shape
`SEQ(CJUMP(EQ, e, CONST(0), F, T), SEQ(then-arm, else-arm))`: its left child is a `SEQ`,
not the `CJUMP`. -/
theorem visit_CIfStatementNode_else_not_right_nested :
    ¬ ∃ (e : IExp) (s1 s2 : IStm) (T F E : CLabel),
      currentNodeOf (visitStm sampleIfElse sampleTranslator) =
        some (.CStmConverter
          (SEQ (CJUMP .EQ e (CONST 0) F T)
               (SEQ (SEQ (SEQ (LABEL T) s1) (JUMP E)) (SEQ (SEQ (LABEL F) s2) (LABEL E))))) := by
  rintro ⟨e, s1, s2, T, F, E, h⟩
  rw [visitStm_sampleIfElse] at h
  cases h

/-- C5 (the code departs from the claim): for `if (true) System.out.println(1);`, which
has no else branch, the statement between `LABEL(F)` and `LABEL(E)` is the translation
of the then branch once more, not `EXP(CONST(0))`: the current node still holds the
then branch when the else arm is read. -/
theorem visit_CIfStatementNode_no_else_repeats_then :
    currentNodeOf (visitStm sampleIf sampleTranslator) =
      some (.CStmConverter
        (SEQ (SEQ (CJUMP .EQ (CONST 1) (CONST 0) (.anon 1) (.anon 0))
                  (SEQ (SEQ (LABEL (.anon 0)) (samplePrintIR 1)) (JUMP (.anon 2))))
             (SEQ (SEQ (LABEL (.anon 1)) (samplePrintIR 1)) (LABEL (.anon 2))))) ∧
    samplePrintIR 1 ≠ EXP (CONST 0) := by
  refine ⟨?_, by simp [samplePrintIR]⟩
  rw [sampleIf,
    visitStm_CIfStatementNode_steps (.CBooleanExpressionNode true) (samplePrint 1) .null
      sampleTranslator _ _ _ _ _ (CONST 1) (samplePrintIR 1) (samplePrintIR 1)
      rfl rfl rfl rfl rfl rfl]
  rfl

/-! ### `while` -/

/-- C6: for a loop whose condition translates to the value `e` and whose body
translates to the statement `s`, the visit leaves a statement wrapper whose tree, read
left to right through its `SEQ` nodes, is `CJUMP(EQ, e, CONST(0), f, t)`, `LABEL(t)`,
the statements of `s`, `CJUMP(EQ, e, CONST(0), f, t)`, `LABEL(f)`, which is also the
statement sequence of the tree of algorithm A3; `f` and `t` are the two labels drawn
from the pool after the body, and they are distinct. -/
theorem visit_CWhileStatementNode_flatten (c : ExpNode) (body : StmNode)
    (tr tr1 tr2 tr3 : CTranslator) (e : IExp) (s : IStm)
    (hc : visitExp c tr = .ok tr1)
    (he : tr1.currentNode = some (.CExpConverter e))
    (hb : visitStm body tr1 = .ok tr2)
    (hs : tr2.ToStm = .ok (s, tr3)) :
    ∃ (w : IStm) (t f : CLabel),
      f = .anon tr3.pool.nextLabel ∧ t = .anon (tr3.pool.nextLabel + 1) ∧ t ≠ f ∧
      visitStm (.CWhileStatementNode c body) tr
        = .ok (tr3.newLabel.2.newLabel.2.setStm w) ∧
      flatten w = [CJUMP .EQ e (CONST 0) f t, LABEL t] ++ flatten s
                    ++ [CJUMP .EQ e (CONST 0) f t, LABEL f] ∧
      flatten w = flatten (whileSpec e s t f) := by
  refine ⟨SEQ (SEQ (SEQ (SEQ
              (CJUMP .EQ e (CONST 0) (.anon tr3.pool.nextLabel) (.anon (tr3.pool.nextLabel + 1)))
              (LABEL (.anon (tr3.pool.nextLabel + 1)))) s)
              (CJUMP .EQ e (CONST 0) (.anon tr3.pool.nextLabel) (.anon (tr3.pool.nextLabel + 1))))
              (LABEL (.anon tr3.pool.nextLabel)),
    _, _, rfl, rfl, by simp, ?_, ?_, ?_⟩
  · rw [visitStm]
    simp only [hc, bind, Except.bind, CTranslator.ToExp_CExpConverter _ _ he, hb, whileTail, hs,
      pure, Except.pure]
    rfl
  · simp [flatten]
  · simp [flatten, whileSpec]

/-- The tree of `while (true) System.out.println(1);`. -/
theorem visit_CWhileStatementNode_flatten_witness :
    ∃ w : IStm,
      currentNodeOf (visitStm sampleWhile sampleTranslator) = some (.CStmConverter w) ∧
      flatten w = [CJUMP .EQ (CONST 1) (CONST 0) (.anon 0) (.anon 1), LABEL (.anon 1),
                   samplePrintIR 1,
                   CJUMP .EQ (CONST 1) (CONST 0) (.anon 0) (.anon 1), LABEL (.anon 0)] := by
  obtain ⟨w, t, f, rfl, rfl, -, h, hw, -⟩ :=
    visit_CWhileStatementNode_flatten (.CBooleanExpressionNode true) (samplePrint 1)
      sampleTranslator _ _ _ (CONST 1) (samplePrintIR 1) rfl rfl rfl rfl
  refine ⟨w, ?_, hw⟩
  rw [sampleWhile, h]
  rfl

/-! ### Method invocation -/

/-- The accumulator after an argument chain of integer literals: the constants stand
in `arguments` with the last source argument first, in front of what was there. -/
theorem visitExpList_literalArgs (prev : List Int) (k : Int) (tr : CTranslator) :
    visitExpList (literalArgs k prev) tr =
      .ok { tr with currentNode := some (.CExpConverter (CONST k))
                    arguments := constsOnto (k :: prev) tr.arguments } := by
  induction prev generalizing k tr with
  | nil =>
      rw [literalArgs, visitExpList]
      rfl
  | cons k' prev ih =>
      rw [literalArgs, visitExpList]
      simp only [ih, bind, Except.bind]
      rfl

/-- C7 (the code departs from the claim): for `this.m(1, 2)` the emitted call is
`CALL(NAME("B@m"), [this, CONST 2, CONST 1])`: the receiver comes first and the
arguments follow in reverse source order, each being prepended to `arguments`. -/
theorem visit_CInvokeMethodExpressionNode_reverses_arguments :
    currentNodeOf (visitExp sampleInvokeTwoArgs sampleTranslator) =
      some (.CExpConverter
        (CALL (NAME (some (.named "B@m")))
          (.cons (sampleLayout.formal 0) (.cons (CONST 2) (.cons (CONST 1) .null))))) := rfl

/-- C8 (the code departs from the claim): inside class `B`, translating the receiver of
`new A().m(this, 2)` sets `typeForInvoke` to `A`, and `A@m` has a label, but the
emitted call names `B@m`: the argument `this` has overwritten `typeForInvoke` before
the label is looked up. -/
theorem visit_CInvokeMethodExpressionNode_class_of_last_argument :
    typeForInvokeOf (visitExp (.CNewObjectExpressionNode "A") sampleTranslator) = some "A" ∧
    sampleTranslator.functionalLabel "A@m" = some (.named "A@m") ∧
    ∃ args, currentNodeOf (visitExp sampleInvokeOnNew sampleTranslator) =
      some (.CExpConverter (CALL (NAME (some (.named "B@m"))) args)) :=
  ⟨rfl, rfl, _, rfl⟩

/-! ### Arrays -/

/-- The tree of `new int[size]` for every size expression: when the size has been
translated to the value `n`, the visit leaves
`ESEQ(SEQ(MOVE(TEMP s, BINOP(PLUS, n, CONST 1)), SEQ(MOVE(TEMP b, CALL(NAME(#malloc),
[BINOP(MUL, MEM(TEMP s), CONST 4)])), MOVE(MEM(TEMP b), MEM(TEMP s)))), TEMP b)` with
`s` and `b` the next two temporaries. -/
theorem newArrayTail_shape (tr : CTranslator) (n : IExp) (fr : CFrame)
    (hn : tr.currentNode = some (.CExpConverter n)) (hfr : tr.currentFrame = some fr) :
    newArrayTail tr = .ok (tr.newTemp.2.newTemp.2.setExp
      (ESEQ
        (SEQ (MOVE (TEMP ⟨tr.pool.nextTemp⟩) (BINOP .PLUS_OP n (CONST 1)))
        (SEQ (MOVE (TEMP ⟨tr.pool.nextTemp + 1⟩)
                (CALL (NAME (some (.named "#malloc")))
                  (.cons (BINOP .MULT_OP (MEM (TEMP ⟨tr.pool.nextTemp⟩)) (CONST 4)) .null)))
             (MOVE (MEM (TEMP ⟨tr.pool.nextTemp + 1⟩)) (MEM (TEMP ⟨tr.pool.nextTemp⟩)))))
        (TEMP ⟨tr.pool.nextTemp + 1⟩))) := by
  have hfr' : tr.newTemp.2.frame = .ok fr := by
    cases tr
    cases hfr
    rfl
  rw [newArrayTail]
  simp only [bind, Except.bind, CTranslator.ToExp_CExpConverter _ _ hn, hfr', pure, Except.pure]
  rfl

/-- C9 (the code departs from the claim): for `new int[3]` the byte count passed to
`#malloc` and the length stored in the header both read `MEM(TEMP(s))`, the word at the
address held in the size temporary, not `TEMP(s)`. -/
theorem visit_CNewArrayExpressionNode_reads_MEM :
    currentNodeOf (visitExp sampleNewArray sampleTranslator) =
      some (.CExpConverter
        (ESEQ
          (SEQ (MOVE (TEMP ⟨0⟩) (BINOP .PLUS_OP (CONST 3) (CONST 1)))
          (SEQ (MOVE (TEMP ⟨1⟩)
                  (CALL (NAME (some (.named "#malloc")))
                    (.cons (BINOP .MULT_OP (MEM (TEMP ⟨0⟩)) (CONST 4)) .null)))
               (MOVE (MEM (TEMP ⟨1⟩)) (MEM (TEMP ⟨0⟩)))))
          (TEMP ⟨1⟩))) := rfl

/-- The visit of `e.length` is the visit of `e`. -/
theorem visit_CLengthExpressionNode_eq (expr : ExpNode) (tr : CTranslator) :
    visitExp (.CLengthExpressionNode expr) tr = visitExp expr tr := by
  rw [visitExp]

/-- C10 (the code departs from the claim): for `v.length` the visit leaves the value
wrapper of the access expression `x` of `v` itself, exactly as the visit of `v` does,
not the wrapper of `MEM(x)`. -/
theorem visit_CLengthExpressionNode_no_load :
    visitExp sampleLength sampleTranslator
      = visitExp (.CIdentExpressionNode "v") sampleTranslator ∧
    currentNodeOf (visitExp sampleLength sampleTranslator)
      = some (.CExpConverter (sampleLayout.localVar 0)) ∧
    currentNodeOf (visitExp sampleLength sampleTranslator)
      ≠ some (.CExpConverter (MEM (sampleLayout.localVar 0))) := by
  have h : currentNodeOf (visitExp sampleLength sampleTranslator)
      = some (.CExpConverter (sampleLayout.localVar 0)) := rfl
  refine ⟨visit_CLengthExpressionNode_eq _ _, h, ?_⟩
  rw [h]
  simp [sampleLayout]

end Translate

namespace Translate

open IExp IStm

/-! ### The wrappers -/

/-- C16: for all expressions `a`, `b`, labels `t`, `f` and every pool,
`CFromAndConverter(a, b).ToConditional(t, f)` returns
`SEQ(CJUMP(LT, a, CONST(1), f, z), SEQ(LABEL(z), CJUMP(LT, b, CONST(1), f, t)))` where
`z` is the label drawn from the pool by the call: the pool counter moves past it, and
`z` differs from every label allocated before (every anonymous label with a smaller
number, `t` and `f` included when they were drawn from the pool, and every named
label). -/
theorem CFromAndConverter_ToConditional_shape (a b : IExp) (t f : CLabel) (p : Pool) :
    ∃ z : CLabel,
      z = .anon p.nextLabel ∧
      (ISubtreeWrapper.CFromAndConverter a b).ToConditional t f p =
        .ok (SEQ (CJUMP .LT a (CONST 1) f z) (SEQ (LABEL z) (CJUMP .LT b (CONST 1) f t)),
             { nextTemp := p.nextTemp, nextLabel := p.nextLabel + 1 }) ∧
      (∀ i : Nat, i < p.nextLabel → z ≠ .anon i) ∧
      (∀ name : String, z ≠ .named name) := by
  refine ⟨_, rfl, rfl, ?_, ?_⟩
  · intro i hi h
    injection h with h
    omega
  · intro name h
    cases h

/-- C17: for every concrete conditional wrapper `C` and every pool, `C.ToExp()` returns
`ESEQ(SEQ(MOVE(TEMP(r), CONST(1)), SEQ(C.ToConditional(t, f), SEQ(LABEL(f),
SEQ(MOVE(TEMP(r), CONST(0)), LABEL(t))))), TEMP(r))` where `r` is the next temporary
and `t`, `f` are the next two labels, distinct; in that tree a jump to `t` in the
place of the conditional ends with `r = 1`, and a jump to `f` ends with `r = 0`, after
falling through to `LABEL(t)`. -/
theorem CConditionalWrapper_ToExp_shape (w : ISubtreeWrapper) (p : Pool)
    (hw : w.isConditional = true) :
    ∃ (r : CTemp) (t f : CLabel) (c : IStm) (p' : Pool),
      r = ⟨p.nextTemp⟩ ∧ t = .anon p.nextLabel ∧ f = .anon (p.nextLabel + 1) ∧ t ≠ f ∧
      w.ToConditional t f { nextTemp := p.nextTemp + 1, nextLabel := p.nextLabel + 2 }
        = .ok (c, p') ∧
      w.ToExp p =
        .ok (ESEQ
              (SEQ (MOVE (TEMP r) (CONST 1))
              (SEQ c
              (SEQ (LABEL f)
              (SEQ (MOVE (TEMP r) (CONST 0))
                   (LABEL t)))))
              (TEMP r), p') ∧
      (∀ (σ : Store) (fuel : Nat),
        (run (fuel + 4) (toExpBody r t f (JUMP t)) σ).result r = some 1 ∧
        (run (fuel + 6) (toExpBody r t f (JUMP f)) σ).result r = some 0) := by
  have hsem : ∀ (σ : Store) (fuel : Nat),
      (run (fuel + 4) (toExpBody ⟨p.nextTemp⟩ (.anon p.nextLabel) (.anon (p.nextLabel + 1))
          (JUMP (.anon p.nextLabel))) σ).result ⟨p.nextTemp⟩ = some 1 ∧
      (run (fuel + 6) (toExpBody ⟨p.nextTemp⟩ (.anon p.nextLabel) (.anon (p.nextLabel + 1))
          (JUMP (.anon (p.nextLabel + 1)))) σ).result ⟨p.nextTemp⟩ = some 0 := by
    intro σ fuel
    constructor <;>
      simp [run, toExpBody, flatten, exec_succ, stepStm, jumpTo, labelIndex, evalExp_CONST,
        Outcome.result, Store.set]
  cases w with
  | CExpConverter e => cases hw
  | CStmConverter s => cases hw
  | CRelativeCmpWrapper op a b =>
      exact ⟨_, _, _, _, _, rfl, rfl, rfl, by simp, rfl, rfl, hsem⟩
  | CFromAndConverter a b =>
      exact ⟨_, _, _, _, _, rfl, rfl, rfl, by simp, rfl, rfl, hsem⟩
  | CFromOrConverter a b =>
      exact ⟨_, _, _, _, _, rfl, rfl, rfl, by simp, rfl, rfl, hsem⟩

/-- The value of the comparison wrapper `CRelativeCmpWrapper(LT, CONST 1, CONST 2)`. -/
theorem CConditionalWrapper_ToExp_shape_witness :
    (ISubtreeWrapper.CRelativeCmpWrapper .LT (CONST 1) (CONST 2)).isConditional = true ∧
    (ISubtreeWrapper.CRelativeCmpWrapper .LT (CONST 1) (CONST 2)).ToExp ⟨0, 0⟩ =
      .ok (ESEQ
            (SEQ (MOVE (TEMP ⟨0⟩) (CONST 1))
            (SEQ (CJUMP .LT (CONST 1) (CONST 2) (.anon 0) (.anon 1))
            (SEQ (LABEL (.anon 1))
            (SEQ (MOVE (TEMP ⟨0⟩) (CONST 0))
                 (LABEL (.anon 0))))))
            (TEMP ⟨0⟩), ⟨1, 2⟩) := by
  obtain ⟨r, t, f, c, p', rfl, rfl, rfl, -, hc, he, -⟩ :=
    CConditionalWrapper_ToExp_shape (.CRelativeCmpWrapper .LT (CONST 1) (CONST 2)) ⟨0, 0⟩ rfl
  cases hc
  exact ⟨rfl, he⟩

/-- C18: for every expression `e`, labels `t`, `f` and every pool,
`CExpConverter(e).ToExp()` is `e`, `CExpConverter(e).ToStm()` is `EXP(e)` and
`CExpConverter(e).ToConditional(t, f)` is `CJUMP(EQ, e, CONST(0), f, t)`, none of them
drawing from the pool; and from every store the run of that `CJUMP` leaves through
`f` when `e` has the value 0, through `t` when `e` has another value, and through
neither when `e` has no value in the store (an expression outside the constants and
temporaries, where the run stops at the `CJUMP`). -/
theorem CExpConverter_conversions (e : IExp) (t f : CLabel) (p : Pool) :
    (ISubtreeWrapper.CExpConverter e).ToExp p = .ok (e, p) ∧
    (ISubtreeWrapper.CExpConverter e).ToStm p = .ok (EXP e, p) ∧
    (ISubtreeWrapper.CExpConverter e).ToConditional t f p
      = .ok (CJUMP .EQ e (CONST 0) f t, p) ∧
    ∀ (σ : Store) (fuel : Nat),
      (run (fuel + 1) (CJUMP .EQ e (CONST 0) f t) σ).exitLabel
        = (evalExp σ e).map (fun v => if v = 0 then f else t) := by
  refine ⟨rfl, rfl, rfl, ?_⟩
  intro σ fuel
  cases hv : evalExp σ e with
  | none =>
      simp [run, flatten, exec_succ, stepStm, hv, Outcome.exitLabel]
  | some v =>
      by_cases h0 : v = 0 <;>
        simp [run, flatten, exec_succ, stepStm, jumpTo, labelIndex, evalExp_CONST, evalRel, hv,
          Outcome.exitLabel, h0]

/-- The conversions of `CExpConverter(MEM(TEMP 3))`, an expression that reads memory,
and the two runs of the test of `CExpConverter(TEMP 3)`: through label 1 where
temporary 3 holds 0, through label 0 where it holds 5. -/
theorem CExpConverter_conversions_witness :
    (ISubtreeWrapper.CExpConverter (MEM (TEMP ⟨3⟩))).ToExp ⟨4, 2⟩
      = .ok (MEM (TEMP ⟨3⟩), ⟨4, 2⟩) ∧
    (ISubtreeWrapper.CExpConverter (MEM (TEMP ⟨3⟩))).ToStm ⟨4, 2⟩
      = .ok (EXP (MEM (TEMP ⟨3⟩)), ⟨4, 2⟩) ∧
    (ISubtreeWrapper.CExpConverter (MEM (TEMP ⟨3⟩))).ToConditional (.anon 0) (.anon 1) ⟨4, 2⟩
      = .ok (CJUMP .EQ (MEM (TEMP ⟨3⟩)) (CONST 0) (.anon 1) (.anon 0), ⟨4, 2⟩) ∧
    (run 1 (CJUMP .EQ (TEMP ⟨3⟩) (CONST 0) (.anon 1) (.anon 0)) (fun _ => 0)).exitLabel
      = some (.anon 1) ∧
    (run 1 (CJUMP .EQ (TEMP ⟨3⟩) (CONST 0) (.anon 1) (.anon 0)) (fun _ => 5)).exitLabel
      = some (.anon 0) :=
  ⟨(CExpConverter_conversions (MEM (TEMP ⟨3⟩)) (.anon 0) (.anon 1) ⟨4, 2⟩).1,
    (CExpConverter_conversions (MEM (TEMP ⟨3⟩)) (.anon 0) (.anon 1) ⟨4, 2⟩).2.1,
    (CExpConverter_conversions (MEM (TEMP ⟨3⟩)) (.anon 0) (.anon 1) ⟨4, 2⟩).2.2.1,
    (CExpConverter_conversions (TEMP ⟨3⟩) (.anon 0) (.anon 1) ⟨4, 2⟩).2.2.2 (fun _ => 0) 0,
    (CExpConverter_conversions (TEMP ⟨3⟩) (.anon 0) (.anon 1) ⟨4, 2⟩).2.2.2 (fun _ => 5) 0⟩

/-- C19: for every statement `s`, labels `t`, `f` and every pool,
`CStmConverter(s).ToStm()` is `s`, while `CStmConverter(s).ToExp()` and
`CStmConverter(s).ToConditional(t, f)` fail on their `assert(0)`: neither returns an
IR node. -/
theorem CStmConverter_conversions (s : IStm) (t f : CLabel) (p : Pool) :
    (ISubtreeWrapper.CStmConverter s).ToStm p = .ok (s, p) ∧
    (ISubtreeWrapper.CStmConverter s).ToExp p = .error .assertFailed ∧
    (ISubtreeWrapper.CStmConverter s).ToConditional t f p = .error .assertFailed ∧
    (∀ (e : IExp) (p' : Pool), (ISubtreeWrapper.CStmConverter s).ToExp p ≠ .ok (e, p')) ∧
    (∀ (c : IStm) (p' : Pool),
      (ISubtreeWrapper.CStmConverter s).ToConditional t f p ≠ .ok (c, p')) := by
  refine ⟨rfl, rfl, rfl, ?_, ?_⟩
  · intro e p' h
    cases h
  · intro c p' h
    cases h

end Translate

namespace Translate

open IExp IStm

/-! ### `new T()` -/

/-- The visit of `new T()`, step by step: `b` is the next temporary and the byte count
is the `int` value of `W * k`, raised to `W` when it is smaller. -/
theorem visitNewObject_eq (objType : CSymbol) (tr : CTranslator) (cl : CClassInfo)
    (fr : CFrame) (hcl : tr.table.getClassInfo objType = .ok cl)
    (hfr : tr.currentFrame = some fr) :
    visitExp (.CNewObjectExpressionNode objType) tr =
      .ok { tr.newTemp.2.setExp
              (ESEQ (MOVE (TEMP ⟨tr.pool.nextTemp⟩)
                      (CALL (NAME (some (.named "#malloc")))
                        (.cons (CONST
                          (if toInt32 (CFrame.wordSize * (cl.vars.length : Int)) < CFrame.wordSize
                            then CFrame.wordSize
                            else toInt32 (CFrame.wordSize * (cl.vars.length : Int)))) .null)))
                    (TEMP ⟨tr.pool.nextTemp⟩))
            with typeForInvoke := objType } := by
  have hcl' : tr.newTemp.2.table.getClassInfo objType = .ok cl := hcl
  have hfr' : tr.newTemp.2.frame = .ok fr := by
    cases tr
    cases hfr
    rfl
  rw [visitExp, visitNewObject]
  simp only [bind, Except.bind, hcl', hfr', pure, Except.pure]
  rfl

/-- C20 (as amended): for every `new T()` where the class `T` has `k` fields and
`W * k` fits in an `int` (`W * k < 2 ^ 31`, `W = CFrame::wordSize`), the visit leaves
the value `ESEQ(MOVE(TEMP(b), CALL(NAME("#malloc"), [CONST(max(W, W * k))])), TEMP(b))`
for the next temporary `b`, and sets `typeForInvoke` to the name of `T`. -/
theorem visit_CNewObjectExpressionNode_shape (objType : CSymbol) (tr : CTranslator)
    (cl : CClassInfo) (fr : CFrame) (hcl : tr.table.getClassInfo objType = .ok cl)
    (hfr : tr.currentFrame = some fr)
    (hk : CFrame.wordSize * (cl.vars.length : Int) < 2 ^ 31) :
    ∃ (b : CTemp) (tr' : CTranslator),
      b = ⟨tr.pool.nextTemp⟩ ∧
      visitExp (.CNewObjectExpressionNode objType) tr = .ok tr' ∧
      tr'.currentNode = some (.CExpConverter
        (ESEQ (MOVE (TEMP b)
                (CALL (NAME (some (.named "#malloc")))
                  (.cons (CONST (max CFrame.wordSize (CFrame.wordSize * (cl.vars.length : Int))))
                    .null)))
              (TEMP b))) ∧
      tr'.typeForInvoke = objType ∧ cl.name = objType ∧
      tr'.pool = { nextTemp := tr.pool.nextTemp + 1, nextLabel := tr.pool.nextLabel } := by
  have hname : cl.name = objType := by
    unfold CTable.getClassInfo at hcl
    split at hcl
    · rename_i c hfind
      cases hcl
      have := List.find?_some hfind
      simpa using this
    · cases hcl
  have h32 : toInt32 (CFrame.wordSize * (cl.vars.length : Int))
      = CFrame.wordSize * (cl.vars.length : Int) := by
    have h0 : (0 : Int) ≤ CFrame.wordSize * (cl.vars.length : Int) := by
      unfold CFrame.wordSize
      positivity
    unfold toInt32
    omega
  refine ⟨_, _, rfl, visitNewObject_eq objType tr cl fr hcl hfr, ?_, rfl, hname, rfl⟩
  rw [h32]
  by_cases hlt : CFrame.wordSize * (cl.vars.length : Int) < CFrame.wordSize
  · simp [CTranslator.setExp, hlt, max_eq_left (le_of_lt hlt)]
  · simp [CTranslator.setExp, hlt, max_eq_right (not_lt.mp hlt)]

/-- The tree of `new A()` for the class `A` with one field. -/
theorem visit_CNewObjectExpressionNode_shape_witness :
    CFrame.wordSize * ((sampleClassA.vars.length : Nat) : Int) < 2 ^ 31 ∧
    currentNodeOf (visitExp (.CNewObjectExpressionNode "A") sampleTranslator) =
      some (.CExpConverter
        (ESEQ (MOVE (TEMP ⟨0⟩)
                (CALL (NAME (some (.named "#malloc"))) (.cons (CONST 4) .null)))
              (TEMP ⟨0⟩))) := by
  obtain ⟨b, tr', rfl, h, hn, -, -, -⟩ :=
    visit_CNewObjectExpressionNode_shape "A" sampleTranslator sampleClassA _ rfl rfl
      (by decide)
  refine ⟨by decide, ?_⟩
  rw [h]
  exact hn

/-- C20 (counterexample): for the class `Big` with `2 ^ 29` fields, `W * k = 2 ^ 31`
does not fit in an `int`; the byte count the visit passes to `#malloc` is `CONST(4)`,
not `CONST(max(W, W * k))`. -/
theorem visit_CNewObjectExpressionNode_int_overflow :
    sampleBigTranslator.table.getClassInfo "Big" = .ok sampleBigClass ∧
    sampleBigClass.vars.length = 2 ^ 29 ∧
    ¬ ∃ b : CTemp,
      currentNodeOf (visitExp (.CNewObjectExpressionNode "Big") sampleBigTranslator) =
        some (.CExpConverter
          (ESEQ (MOVE (TEMP b)
                  (CALL (NAME (some (.named "#malloc")))
                    (.cons (CONST (max CFrame.wordSize (CFrame.wordSize * (2 ^ 29 : Int))))
                      .null)))
                (TEMP b))) := by
  have hlen : sampleBigClass.vars.length = 2 ^ 29 :=
    List.length_replicate (2 ^ 29) _
  refine ⟨rfl, hlen, ?_⟩
  rintro ⟨b, h⟩
  rw [visitNewObject_eq "Big" sampleBigTranslator sampleBigClass _ rfl rfl, hlen] at h
  simp [currentNodeOf, CTranslator.setExp, CFrame.wordSize, toInt32] at h

end Translate

namespace Translate

open IExp IStm

/-! ### `&&` as the condition of an `if` -/

/-- The visit of `a && b`, step by step: the operands leave the values `x` and `y`,
and the current node becomes the value wrapper of `CFromAndConverter(x, y).ToExp()`. -/
theorem visitExp_AND_steps (a b : ExpNode) (tr tr1 tr2 : CTranslator) (x y : IExp)
    (ha : visitExp a tr = .ok tr1) (hx : tr1.currentNode = some (.CExpConverter x))
    (hb : visitExp b tr1 = .ok tr2) (hy : tr2.currentNode = some (.CExpConverter y)) :
    visitExp (.CArithmeticExpressionNode a .AND_OP b) tr =
      .ok (CTranslator.setExp
            { tr2 with pool := { nextTemp := tr2.pool.nextTemp + 1,
                                 nextLabel := tr2.pool.nextLabel + 3 } }
            (andValue x y ⟨tr2.pool.nextTemp⟩ (.anon tr2.pool.nextLabel)
              (.anon (tr2.pool.nextLabel + 1)) (.anon (tr2.pool.nextLabel + 2)))) := by
  rw [visitExp]
  simp only [ha, bind, Except.bind, CTranslator.ToExp_CExpConverter _ _ hx, hb,
    CTranslator.ToExp_CExpConverter _ _ hy]
  rfl

/-- C15 (as amended): for every `if` whose condition is `a && b`, with `a` and `b`
translating to the values `x` and `y`, the branching statement at the head of the
emitted tree is `CJUMP(EQ, v, CONST(0), F, T)` where `T` and `F` are the labels of the
`if` and `v` is the value of `CFromAndConverter(x, y)`: the tree that sets a fresh
temporary `r` to 1, runs `SEQ(CJUMP(LT, x, CONST(1), f, z), SEQ(LABEL(z),
CJUMP(LT, y, CONST(1), f, t)))` towards fresh labels `t`, `f` of its own, sets `r` to 0
at `f`, and yields `TEMP(r)`. The condition is first materialised into `r` and then
compared with `CONST(0)`. -/
theorem visit_CIfStatementNode_AND_head (a b : ExpNode) (th : StmNode) (els : ElseNode)
    (tr tr1 tr2 trc tr3 tr4 tr5 tr6 : CTranslator) (x y : IExp) (s1 s2 : IStm)
    (ha : visitExp a tr = .ok tr1) (hx : tr1.currentNode = some (.CExpConverter x))
    (hb : visitExp b tr1 = .ok tr2) (hy : tr2.currentNode = some (.CExpConverter y))
    (hc : visitExp (.CArithmeticExpressionNode a .AND_OP b) tr = .ok trc)
    (hth : visitStm th trc.newLabel.2.newLabel.2.newLabel.2 = .ok tr3)
    (hs1 : tr3.ToStm = .ok (s1, tr4))
    (hel : visitElse els tr4 = .ok tr5)
    (hs2 : tr5.ToStm = .ok (s2, tr6)) :
    ∃ (r : CTemp) (t f z T F E : CLabel),
      r = ⟨tr2.pool.nextTemp⟩ ∧
      t = .anon tr2.pool.nextLabel ∧ f = .anon (tr2.pool.nextLabel + 1) ∧
      z = .anon (tr2.pool.nextLabel + 2) ∧ T = .anon (tr2.pool.nextLabel + 3) ∧
      F = .anon (tr2.pool.nextLabel + 4) ∧ E = .anon (tr2.pool.nextLabel + 5) ∧
      visitStm (.CIfStatementNode (.CArithmeticExpressionNode a .AND_OP b) th els) tr =
        .ok (tr6.setStm
          (SEQ (SEQ (CJUMP .EQ (andValue x y r t f z) (CONST 0) F T)
                    (SEQ (SEQ (LABEL T) s1) (JUMP E)))
               (SEQ (SEQ (LABEL F) s2) (LABEL E)))) := by
  have hc' := visitExp_AND_steps a b tr tr1 tr2 x y ha hx hb hy
  rw [hc] at hc'
  injection hc' with hc'
  subst hc'
  exact ⟨_, _, _, _, _, _, _, rfl, rfl, rfl, rfl, rfl, rfl, rfl,
    visitStm_CIfStatementNode_steps _ th els tr _ tr3 tr4 tr5 tr6 _ s1 s2 hc rfl hth hs1 hel
      hs2⟩

/-- The tree of `if (true && false) System.out.println(1); else System.out.println(2);`
by the steps of the visit. -/
theorem visitStm_sampleIfAnd :
    currentNodeOf (visitStm sampleIfAnd sampleTranslator) =
      some (.CStmConverter
        (SEQ (SEQ (CJUMP .EQ
                    (andValue (CONST 1) (CONST 0) ⟨0⟩ (.anon 0) (.anon 1) (.anon 2))
                    (CONST 0) (.anon 4) (.anon 3))
                  (SEQ (SEQ (LABEL (.anon 3)) (samplePrintIR 1)) (JUMP (.anon 5))))
             (SEQ (SEQ (LABEL (.anon 4)) (samplePrintIR 2)) (LABEL (.anon 5))))) := by
  have hc := visitExp_AND_steps (.CBooleanExpressionNode true) (.CBooleanExpressionNode false)
    sampleTranslator _ _ (CONST 1) (CONST 0) rfl rfl rfl rfl
  rw [sampleIfAnd, sampleAnd,
    visitStm_CIfStatementNode_steps _ (samplePrint 1) (.stm (samplePrint 2)) sampleTranslator
      _ _ _ _ _ _ (samplePrintIR 1) (samplePrintIR 2) hc rfl rfl rfl rfl rfl]
  rfl

/-- The head of the tree of
`if (true && false) System.out.println(1); else System.out.println(2);`. -/
theorem visit_CIfStatementNode_AND_head_witness :
    currentNodeOf (visitStm sampleIfAnd sampleTranslator) =
      some (.CStmConverter
        (SEQ (SEQ (CJUMP .EQ
                    (andValue (CONST 1) (CONST 0) ⟨0⟩ (.anon 0) (.anon 1) (.anon 2))
                    (CONST 0) (.anon 4) (.anon 3))
                  (SEQ (SEQ (LABEL (.anon 3)) (samplePrintIR 1)) (JUMP (.anon 5))))
             (SEQ (SEQ (LABEL (.anon 4)) (samplePrintIR 2)) (LABEL (.anon 5))))) := by
  have hc := visitExp_AND_steps (.CBooleanExpressionNode true) (.CBooleanExpressionNode false)
    sampleTranslator _ _ (CONST 1) (CONST 0) rfl rfl rfl rfl
  obtain ⟨r, t, f, z, T, F, E, rfl, rfl, rfl, rfl, rfl, rfl, rfl, h⟩ :=
    visit_CIfStatementNode_AND_head (.CBooleanExpressionNode true)
      (.CBooleanExpressionNode false) (samplePrint 1) (.stm (samplePrint 2))
      sampleTranslator _ _ _ _ _ _ _ (CONST 1) (CONST 0) (samplePrintIR 1) (samplePrintIR 2)
      rfl rfl rfl rfl hc rfl rfl rfl rfl
  rw [sampleIfAnd, sampleAnd, h]
  rfl

/-- C15 (counterexample): in the tree of
`if (true && false) System.out.println(1); else System.out.println(2);` the branching
statement at the head is not `SEQ(CJUMP(LT, x, CONST(1), F, Z), SEQ(LABEL(Z),
CJUMP(LT, y, CONST(1), F, T)))`, whether the head is looked for as the first child of
the root or as the first child of that child. -/
theorem visit_CIfStatementNode_AND_head_not_direct :
    ¬ ∃ (x y : IExp) (T F Z : CLabel) (rest rest' : IStm),
      currentNodeOf (visitStm sampleIfAnd sampleTranslator) =
          some (.CStmConverter
            (SEQ (SEQ (SEQ (CJUMP .LT x (CONST 1) F Z)
                           (SEQ (LABEL Z) (CJUMP .LT y (CONST 1) F T))) rest) rest')) ∨
      currentNodeOf (visitStm sampleIfAnd sampleTranslator) =
          some (.CStmConverter
            (SEQ (SEQ (CJUMP .LT x (CONST 1) F Z)
                      (SEQ (LABEL Z) (CJUMP .LT y (CONST 1) F T))) rest)) := by
  rintro ⟨x, y, T, F, Z, rest, rest', h | h⟩ <;>
    · rw [visitStm_sampleIfAnd] at h
      cases h

end Translate

namespace Translate

open IExp IStm

/-! ### Jump targets are defined -/

theorem bind_eq_ok {α β : Type} (x : Except TranslateError α)
    (f : α → Except TranslateError β) (b : β) :
    (x >>= f) = .ok b ↔ ∃ a, x = .ok a ∧ f a = .ok b := by
  cases x with
  | error e => simp [bind, Except.bind]
  | ok a => simp [bind, Except.bind]

theorem Stable.refl (tr : CTranslator) : Stable tr tr := ⟨rfl, rfl, rfl, rfl⟩

theorem Stable.trans {a b c : CTranslator} (h1 : Stable a b) (h2 : Stable b c) : Stable a c :=
  ⟨h2.1.trans h1.1, h2.2.1.trans h1.2.1, h2.2.2.1.trans h1.2.2.1, h2.2.2.2.trans h1.2.2.2⟩

theorem CTranslator.ToExp_good {tr tr' : CTranslator} {e : IExp}
    (h : tr.ToExp = .ok (e, tr')) :
    Stable tr tr' ∧ (tr.Closed → tr'.Closed ∧ e.Closed) := by
  unfold CTranslator.ToExp at h
  split at h
  · cases h
  · rename_i w hw
    split at h
    · cases h
    · rename_i e' p hp
      cases h
      refine ⟨⟨rfl, rfl, rfl, rfl⟩, fun hc => ?_⟩
      obtain ⟨hn, ha, hf⟩ := hc
      rw [hw] at hn
      cases w with
      | CExpConverter x =>
          cases hp
          exact ⟨⟨by rw [hw]; exact hn, ha, hf⟩, hn⟩
      | CStmConverter x => cases hp
      | CRelativeCmpWrapper op a b => exact absurd hn (by simp [WrapperClosed])
      | CFromAndConverter a b => exact absurd hn (by simp [WrapperClosed])
      | CFromOrConverter a b => exact absurd hn (by simp [WrapperClosed])

theorem CTranslator.ToStm_good {tr tr' : CTranslator} {s : IStm}
    (h : tr.ToStm = .ok (s, tr')) :
    Stable tr tr' ∧ (tr.Closed → tr'.Closed ∧ s.Closed) := by
  unfold CTranslator.ToStm at h
  split at h
  · cases h
  · rename_i w hw
    split at h
    · cases h
    · rename_i s' p hp
      cases h
      refine ⟨⟨rfl, rfl, rfl, rfl⟩, fun hc => ?_⟩
      obtain ⟨hn, ha, hf⟩ := hc
      rw [hw] at hn
      cases w with
      | CExpConverter x =>
          cases hp
          exact ⟨⟨by rw [hw]; exact hn, ha, hf⟩, hn⟩
      | CStmConverter x =>
          cases hp
          exact ⟨⟨by rw [hw]; exact hn, ha, hf⟩, hn⟩
      | CRelativeCmpWrapper op a b => exact absurd hn (by simp [WrapperClosed])
      | CFromAndConverter a b => exact absurd hn (by simp [WrapperClosed])
      | CFromOrConverter a b => exact absurd hn (by simp [WrapperClosed])

theorem CTranslator.ToConditional_good {tr tr' : CTranslator} {c : IStm} {t f : CLabel}
    (h : tr.ToConditional t f = .ok (c, tr')) :
    Stable tr tr' ∧
      (tr.Closed → tr'.Closed ∧ ∀ l ∈ c.targets, l ∈ c.labels ∨ l = t ∨ l = f) := by
  unfold CTranslator.ToConditional at h
  split at h
  · cases h
  · rename_i w hw
    split at h
    · cases h
    · rename_i s' p hp
      cases h
      refine ⟨⟨rfl, rfl, rfl, rfl⟩, fun hc => ?_⟩
      obtain ⟨hn, ha, hf⟩ := hc
      rw [hw] at hn
      cases w with
      | CExpConverter x =>
          cases hp
          refine ⟨⟨by rw [hw]; exact hn, ha, hf⟩, ?_⟩
          intro l hl
          simp only [IStm.targets, IStm.labels, IExp.targets, IExp.labels, List.append_nil,
            List.mem_append, List.mem_cons, List.mem_singleton, List.not_mem_nil,
            or_false] at hl ⊢
          rcases hl with hl | hl | hl
          · exact Or.inl (hn l hl)
          · exact Or.inr (Or.inr hl)
          · exact Or.inr (Or.inl hl)
      | CStmConverter x => cases hp
      | CRelativeCmpWrapper op a b => exact absurd hn (by simp [WrapperClosed])
      | CFromAndConverter a b => exact absurd hn (by simp [WrapperClosed])
      | CFromOrConverter a b => exact absurd hn (by simp [WrapperClosed])

theorem CTranslator.Closed.setExp {tr : CTranslator} {e : IExp} (hc : tr.Closed)
    (he : e.Closed) : (tr.setExp e).Closed :=
  ⟨he, hc.2.1, hc.2.2⟩

theorem CTranslator.Closed.setStm {tr : CTranslator} {s : IStm} (hc : tr.Closed)
    (hs : s.Closed) : (tr.setStm s).Closed :=
  ⟨hs, hc.2.1, hc.2.2⟩

theorem CTranslator.Closed.withPool {tr : CTranslator} (hc : tr.Closed) (p : Pool) :
    CTranslator.Closed { tr with pool := p } :=
  ⟨hc.1, hc.2.1, hc.2.2⟩

/-- The value of a conditional wrapper over closed operands is closed. -/
theorem andValue_closed {x y : IExp} (r : CTemp) (t f z : CLabel) (hx : x.Closed)
    (hy : y.Closed) : (andValue x y r t f z).Closed := by
  intro l hl
  simp only [andValue, IStm.targets, IStm.labels, IExp.targets, IExp.labels, List.append_nil,
    List.nil_append, List.mem_append, List.mem_cons, List.mem_singleton, List.not_mem_nil,
    or_false, false_or] at hl ⊢
  have := hx l
  have := hy l
  tauto

theorem arithmeticTail_good {op : ArithmeticOpType} {a1 a2 : IExp} {tr tr' : CTranslator}
    (h : arithmeticTail op a1 a2 tr = .ok tr') :
    Stable tr tr' ∧ (tr.Closed → a1.Closed → a2.Closed → tr'.Closed) := by
  cases op
  case AND_OP =>
    simp only [arithmeticTail, CFromAndConverter_ToExp_eq] at h
    cases h
    exact ⟨⟨rfl, rfl, rfl, rfl⟩, fun hc h1 h2 =>
      (hc.withPool _).setExp (andValue_closed _ _ _ _ h1 h2)⟩
  case OR_OP =>
    simp only [arithmeticTail, CFromOrConverter_ToExp_eq] at h
    cases h
    refine ⟨⟨rfl, rfl, rfl, rfl⟩, fun hc h1 h2 => (hc.withPool _).setExp ?_⟩
    intro l hl
    simp only [IStm.targets, IStm.labels, IExp.targets, IExp.labels, List.append_nil,
      List.nil_append, List.mem_append, List.mem_cons, List.mem_singleton, List.not_mem_nil,
      or_false, false_or] at hl ⊢
    have := h1 l
    have := h2 l
    tauto
  all_goals
    simp only [arithmeticTail] at h
    cases h
    refine ⟨⟨rfl, rfl, rfl, rfl⟩, fun hc h1 h2 => hc.setExp ?_⟩
    intro l hl
    simp only [IExp.targets, IExp.labels, List.mem_append] at hl ⊢
    have := h1 l
    have := h2 l
    tauto

theorem relativeCmpTail_good {op : CJUMP_OP} {a1 a2 : IExp} {tr tr' : CTranslator}
    (h : relativeCmpTail op a1 a2 tr = .ok tr') :
    Stable tr tr' ∧ (tr.Closed → a1.Closed → a2.Closed → tr'.Closed) := by
  have h' : relativeCmpTail op a1 a2 tr =
      .ok (CTranslator.setExp
        { tr with pool := { nextTemp := tr.pool.nextTemp + 1,
                            nextLabel := tr.pool.nextLabel + 2 } }
        (ESEQ (toExpBody ⟨tr.pool.nextTemp⟩ (.anon tr.pool.nextLabel)
                (.anon (tr.pool.nextLabel + 1))
                (CJUMP op a1 a2 (.anon tr.pool.nextLabel) (.anon (tr.pool.nextLabel + 1))))
              (TEMP ⟨tr.pool.nextTemp⟩))) := rfl
  rw [h'] at h
  cases h
  refine ⟨⟨rfl, rfl, rfl, rfl⟩, fun hc h1 h2 => (hc.withPool _).setExp ?_⟩
  intro l hl
  simp only [toExpBody, IStm.targets, IStm.labels, IExp.targets, IExp.labels, List.append_nil,
    List.nil_append, List.mem_append, List.mem_cons, List.mem_singleton, List.not_mem_nil,
    or_false, false_or] at hl ⊢
  have := h1 l
  have := h2 l
  tauto

theorem CTranslator.frame_eq_ok {tr : CTranslator} {fr : CFrame} (h : tr.frame = .ok fr) :
    tr.currentFrame = some fr := by
  unfold CTranslator.frame at h
  split at h
  · cases h
  · rename_i fr' hfr
    cases h
    exact hfr

theorem IExp.closed_of_targets_nil {e : IExp} (h : e.targets = []) : e.Closed := by
  intro l hl
  rw [h] at hl
  cases hl

theorem CFrame.findByName_targets {fr : CFrame} {name : CSymbol} {e : IExp}
    (hf : fr.JumpFree) (h : fr.findByName name = .ok e) : e.targets = [] := by
  unfold CFrame.findByName at h
  split at h
  · rename_i b hb
    cases h
    exact hf.2 b (List.mem_of_find?_eq_some hb)
  · cases h

theorem newArrayTail_good {tr tr' : CTranslator} (h : newArrayTail tr = .ok tr') :
    Stable tr tr' ∧ (tr.Closed → tr'.Closed) := by
  simp only [newArrayTail, bind_eq_ok, Prod.exists, pure, Except.pure, CTranslator.newTemp,
    Except.ok.injEq] at h
  obtain ⟨arg, tr1, h1, fr, -, rfl⟩ := h
  have g1 := CTranslator.ToExp_good h1
  refine ⟨g1.1.trans ⟨rfl, rfl, rfl, rfl⟩, fun hc => ?_⟩
  obtain ⟨c1, harg⟩ := g1.2 hc
  refine (c1.withPool _).setExp ?_
  intro l hl
  simp only [CFrame.externalCall, IStm.targets, IStm.labels, IExp.targets, IExp.labels,
    ExpList.targets, ExpList.labels, List.append_nil, List.nil_append, List.mem_append,
    List.not_mem_nil, or_false, false_or] at hl ⊢
  exact harg l hl

theorem visitNewObject_good {objType : CSymbol} {tr tr' : CTranslator}
    (h : visitNewObject objType tr = .ok tr') :
    Stable tr tr' ∧ (tr.Closed → tr'.Closed) := by
  simp only [visitNewObject, bind_eq_ok, Prod.exists, pure, Except.pure, CTranslator.newTemp,
    Except.ok.injEq] at h
  obtain ⟨cl, -, fr, -, rfl⟩ := h
  refine ⟨⟨rfl, rfl, rfl, rfl⟩, fun hc => ?_⟩
  refine ⟨?_, hc.2.1, hc.2.2⟩
  intro l hl
  simp only [CFrame.externalCall, IStm.targets, IStm.labels, IExp.targets, IExp.labels,
    ExpList.targets, ExpList.labels, List.append_nil, List.nil_append, List.mem_append,
    List.not_mem_nil, or_false, false_or] at hl

theorem invokeTail_good (name : CSymbol) (texp : IExp) (tr : CTranslator) :
    Stable tr (invokeTail name texp tr) ∧
      (tr.Closed → texp.Closed → (invokeTail name texp tr).Closed) := by
  refine ⟨⟨rfl, rfl, rfl, rfl⟩, fun hc ht => ⟨?_, ?_, hc.2.2⟩⟩
  · intro l hl
    simp only [IExp.targets, IExp.labels, ExpList.targets, ExpList.labels, List.nil_append,
      List.mem_append] at hl ⊢
    rcases hl with hl | hl
    · exact Or.inl (ht l hl)
    · exact Or.inr (hc.2.1 l hl)
  · intro l hl
    cases hl

theorem pushArgument_good {tr tr' : CTranslator} (h : pushArgument tr = .ok tr') :
    Stable tr tr' ∧ (tr.Closed → tr'.Closed) := by
  simp only [pushArgument, bind_eq_ok, Prod.exists, pure, Except.pure, Except.ok.injEq] at h
  obtain ⟨e, tr1, h1, rfl⟩ := h
  have g1 := CTranslator.ToExp_good h1
  refine ⟨g1.1.trans ⟨rfl, rfl, rfl, rfl⟩, fun hc => ?_⟩
  obtain ⟨c1, he⟩ := g1.2 hc
  refine ⟨c1.1, ?_, c1.2.2⟩
  intro l hl
  simp only [ExpList.targets, ExpList.labels, List.mem_append] at hl ⊢
  rcases hl with hl | hl
  · exact Or.inl (he l hl)
  · exact Or.inr (c1.2.1 l hl)

theorem IExp.closed_CONST (v : Int) : (CONST v).Closed := by
  intro l hl
  cases hl

mutual
/-- The visit of an expression leaves the outer state alone and keeps the current
node, the arguments and the frame closed. -/
theorem visitExp_good : ∀ (e : ExpNode) (tr tr' : CTranslator),
    visitExp e tr = .ok tr' → Stable tr tr' ∧ (tr.Closed → tr'.Closed)
  | .CInvokeExpressionNode a b, tr, tr', h => by
      rw [visitExp] at h
      simp only [bind_eq_ok] at h
      obtain ⟨tr1, h1, h2⟩ := h
      have g1 := visitExp_good a tr tr1 h1
      have g2 := visitExp_good b tr1 tr' h2
      exact ⟨g1.1.trans g2.1, fun hc => g2.2 (g1.2 hc)⟩
  | .CLengthExpressionNode expr, tr, tr', h => by
      rw [visitExp] at h
      exact visitExp_good expr tr tr' h
  | .CArithmeticExpressionNode a op b, tr, tr', h => by
      rw [visitExp] at h
      simp only [bind_eq_ok, Prod.exists] at h
      obtain ⟨tr1, h1, arg1, tr2, h2, tr3, h3, arg2, tr4, h4, h5⟩ := h
      have g1 := visitExp_good a tr tr1 h1
      have g2 := CTranslator.ToExp_good h2
      have g3 := visitExp_good b tr2 tr3 h3
      have g4 := CTranslator.ToExp_good h4
      have g5 := arithmeticTail_good h5
      refine ⟨g1.1.trans (g2.1.trans (g3.1.trans (g4.1.trans g5.1))), fun hc => ?_⟩
      obtain ⟨c2, ha1⟩ := g2.2 (g1.2 hc)
      obtain ⟨c4, ha2⟩ := g4.2 (g3.2 c2)
      exact g5.2 c4 ha1 ha2
  | .CUnaryExpressionNode op expr, tr, tr', h => by
      rw [visitExp] at h
      simp only [bind_eq_ok, Prod.exists, pure, Except.pure, Except.ok.injEq] at h
      obtain ⟨tr1, h1, arg, tr2, h2, rfl⟩ := h
      have g1 := visitExp_good expr tr tr1 h1
      have g2 := CTranslator.ToExp_good h2
      refine ⟨g1.1.trans (g2.1.trans ⟨rfl, rfl, rfl, rfl⟩), fun hc => ?_⟩
      obtain ⟨c2, ha⟩ := g2.2 (g1.2 hc)
      refine c2.setExp ?_
      intro l hl
      simp only [IExp.targets, IExp.labels, List.nil_append] at hl ⊢
      exact ha l hl
  | .CCompareExpressionNode a b, tr, tr', h => by
      rw [visitExp] at h
      simp only [bind_eq_ok, Prod.exists] at h
      obtain ⟨tr1, h1, arg1, tr2, h2, tr3, h3, arg2, tr4, h4, h5⟩ := h
      have g1 := visitExp_good a tr tr1 h1
      have g2 := CTranslator.ToExp_good h2
      have g3 := visitExp_good b tr2 tr3 h3
      have g4 := CTranslator.ToExp_good h4
      have g5 := relativeCmpTail_good h5
      refine ⟨g1.1.trans (g2.1.trans (g3.1.trans (g4.1.trans g5.1))), fun hc => ?_⟩
      obtain ⟨c2, ha1⟩ := g2.2 (g1.2 hc)
      obtain ⟨c4, ha2⟩ := g4.2 (g3.2 c2)
      exact g5.2 c4 ha1 ha2
  | .CNotExpressionNode expr, tr, tr', h => by
      rw [visitExp] at h
      simp only [bind_eq_ok, Prod.exists] at h
      obtain ⟨tr1, h1, arg, tr2, h2, h3⟩ := h
      have g1 := visitExp_good expr tr tr1 h1
      have g2 := CTranslator.ToExp_good h2
      have g3 := relativeCmpTail_good h3
      refine ⟨g1.1.trans (g2.1.trans g3.1), fun hc => ?_⟩
      obtain ⟨c2, ha⟩ := g2.2 (g1.2 hc)
      exact g3.2 c2 ha (IExp.closed_CONST 0)
  | .CNewArrayExpressionNode expr, tr, tr', h => by
      rw [visitExp] at h
      simp only [bind_eq_ok] at h
      obtain ⟨tr1, h1, h2⟩ := h
      have g1 := visitExp_good expr tr tr1 h1
      have g2 := newArrayTail_good h2
      exact ⟨g1.1.trans g2.1, fun hc => g2.2 (g1.2 hc)⟩
  | .CNewObjectExpressionNode objType, tr, tr', h => by
      rw [visitExp] at h
      exact visitNewObject_good h
  | .CIntExpressionNode value, tr, tr', h => by
      rw [visitExp] at h
      cases h
      exact ⟨⟨rfl, rfl, rfl, rfl⟩, fun hc => hc.setExp (IExp.closed_CONST _)⟩
  | .CBooleanExpressionNode value, tr, tr', h => by
      rw [visitExp] at h
      cases h
      exact ⟨⟨rfl, rfl, rfl, rfl⟩, fun hc => hc.setExp (IExp.closed_CONST _)⟩
  | .CIdentExpressionNode name, tr, tr', h => by
      rw [visitExp] at h
      simp only [bind_eq_ok, pure, Except.pure, Except.ok.injEq] at h
      obtain ⟨fr, hfr, result, hres, rfl⟩ := h
      refine ⟨⟨rfl, rfl, rfl, rfl⟩, fun hc => hc.setExp ?_⟩
      exact IExp.closed_of_targets_nil
        (CFrame.findByName_targets (hc.2.2 fr (CTranslator.frame_eq_ok hfr)) hres)
  | .CThisExpressionNode, tr, tr', h => by
      rw [visitExp] at h
      simp only [bind_eq_ok, pure, Except.pure, Except.ok.injEq] at h
      obtain ⟨fr, hfr, rfl⟩ := h
      refine ⟨⟨rfl, rfl, rfl, rfl⟩, fun hc => ⟨?_, hc.2.1, hc.2.2⟩⟩
      exact IExp.closed_of_targets_nil
        ((hc.2.2 fr (CTranslator.frame_eq_ok hfr)).1 0).1
  | .CParenExpressionNode expr, tr, tr', h => by
      rw [visitExp] at h
      exact visitExp_good expr tr tr' h
  | .CInvokeMethodExpressionNode expr name args, tr, tr', h => by
      rw [visitExp] at h
      simp only [bind_eq_ok, Prod.exists, pure, Except.pure, Except.ok.injEq] at h
      obtain ⟨tr1, h1, texp, tr2, h2, tr3, h3, rfl⟩ := h
      have g1 := visitExp_good expr tr tr1 h1
      have g2 := CTranslator.ToExp_good h2
      have g3 := visitArgs_good args tr2 tr3 h3
      have g4 := invokeTail_good name texp tr3
      refine ⟨g1.1.trans (g2.1.trans (g3.1.trans g4.1)), fun hc => ?_⟩
      obtain ⟨c2, ht⟩ := g2.2 (g1.2 hc)
      exact g4.2 (g3.2 c2) ht
/-- The visit of the arguments of an invocation keeps the state closed. -/
theorem visitArgs_good : ∀ (a : ArgsNode) (tr tr' : CTranslator),
    visitArgs a tr = .ok tr' → Stable tr tr' ∧ (tr.Closed → tr'.Closed)
  | .null, tr, tr', h => by
      rw [visitArgs] at h
      cases h
      exact ⟨Stable.refl _, fun hc => hc⟩
  | .CFewArgsExpressionNode expr, tr, tr', h => by
      rw [visitArgs] at h
      exact visitExpList_good expr tr tr' h
/-- The visit of an argument chain keeps the state closed. -/
theorem visitExpList_good : ∀ (a : ExpListNode) (tr tr' : CTranslator),
    visitExpList a tr = .ok tr' → Stable tr tr' ∧ (tr.Closed → tr'.Closed)
  | .CListExpressionNode prevExps nextExp, tr, tr', h => by
      rw [visitExpList] at h
      simp only [bind_eq_ok] at h
      obtain ⟨tr1, h1, tr2, h2, h3⟩ := h
      have g1 := visitExpList_good prevExps tr tr1 h1
      have g2 := visitExp_good nextExp tr1 tr2 h2
      have g3 := pushArgument_good h3
      exact ⟨g1.1.trans (g2.1.trans g3.1), fun hc => g3.2 (g2.2 (g1.2 hc))⟩
  | .CLastListExpressionNode expr, tr, tr', h => by
      rw [visitExpList] at h
      simp only [bind_eq_ok] at h
      obtain ⟨tr1, h1, h2⟩ := h
      have g1 := visitExp_good expr tr tr1 h1
      have g2 := pushArgument_good h2
      exact ⟨g1.1.trans g2.1, fun hc => g2.2 (g1.2 hc)⟩
end

theorem whileTail_good {expr : IExp} {tr tr' : CTranslator}
    (h : whileTail expr tr = .ok tr') :
    Stable tr tr' ∧ (tr.Closed → expr.Closed → tr'.Closed) := by
  simp only [whileTail, bind_eq_ok, Prod.exists, pure, Except.pure, CTranslator.newLabel,
    Except.ok.injEq] at h
  obtain ⟨statement, tr1, h1, rfl⟩ := h
  have g1 := CTranslator.ToStm_good h1
  refine ⟨g1.1.trans ⟨rfl, rfl, rfl, rfl⟩, fun hc he => ?_⟩
  obtain ⟨c1, hs⟩ := g1.2 hc
  refine (c1.withPool _).setStm ?_
  intro l hl
  simp only [IStm.targets, IStm.labels, IExp.targets, IExp.labels, List.append_nil,
    List.nil_append, List.mem_append, List.mem_cons, List.mem_singleton, List.not_mem_nil,
    or_false, false_or] at hl ⊢
  have := he l
  have := hs l
  tauto

theorem printTail_good {tr tr' : CTranslator} (h : printTail tr = .ok tr') :
    Stable tr tr' ∧ (tr.Closed → tr'.Closed) := by
  simp only [printTail, bind_eq_ok, Prod.exists, pure, Except.pure, ISubtreeWrapper.ToStm,
    Except.ok.injEq, Prod.mk.injEq] at h
  obtain ⟨exp, tr1, h1, fr, -, st, p, ⟨rfl, rfl⟩, rfl⟩ := h
  have g1 := CTranslator.ToExp_good h1
  refine ⟨g1.1.trans ⟨rfl, rfl, rfl, rfl⟩, fun hc => ?_⟩
  obtain ⟨c1, he⟩ := g1.2 hc
  refine (c1.withPool _).setStm ?_
  intro l hl
  simp only [CFrame.externalCall, IStm.targets, IStm.labels, IExp.targets, IExp.labels,
    ExpList.targets, ExpList.labels, List.append_nil, List.nil_append] at hl ⊢
  exact he l hl

theorem assignTail_good {identifier : CSymbol} {tr tr' : CTranslator}
    (h : assignTail identifier tr = .ok tr') :
    Stable tr tr' ∧ (tr.Closed → tr'.Closed) := by
  simp only [assignTail, bind_eq_ok, Prod.exists, pure, Except.pure, Except.ok.injEq] at h
  obtain ⟨fr, hfr, dst, hdst, src, tr1, h1, rfl⟩ := h
  have g1 := CTranslator.ToExp_good h1
  refine ⟨g1.1.trans ⟨rfl, rfl, rfl, rfl⟩, fun hc => ?_⟩
  obtain ⟨c1, hs⟩ := g1.2 hc
  have hd := CFrame.findByName_targets (hc.2.2 fr (CTranslator.frame_eq_ok hfr)) hdst
  refine c1.setStm ?_
  intro l hl
  simp only [IStm.targets, IStm.labels, hd, List.nil_append, List.mem_append] at hl ⊢
  exact Or.inr (hs l hl)

mutual
/-- The visit of a statement leaves the outer state alone and keeps the current node,
the arguments and the frame closed. -/
theorem visitStm_good : ∀ (s : StmNode) (tr tr' : CTranslator),
    visitStm s tr = .ok tr' → Stable tr tr' ∧ (tr.Closed → tr'.Closed)
  | .CBracedStatementNode statements, tr, tr', h => by
      rw [visitStm] at h
      exact visitStatements_good statements tr tr' h
  | .CIfStatementNode c th els, tr, tr', h => by
      rw [visitStm] at h
      simp only [bind_eq_ok, Prod.exists, pure, Except.pure, CTranslator.newLabel,
        Except.ok.injEq] at h
      obtain ⟨tr1, h1, stm, tr2, h2, tr3, h3, thenStm, tr4, h4, tr5, h5, elseStm, tr6, h6,
        rfl⟩ := h
      have g1 := visitExp_good c tr tr1 h1
      have g2 := CTranslator.ToConditional_good h2
      have g3 := visitStm_good th tr2 tr3 h3
      have g4 := CTranslator.ToStm_good h4
      have g5 := visitElse_good els tr4 tr5 h5
      have g6 := CTranslator.ToStm_good h6
      have s2 : Stable tr1 tr2 := g2.1
      refine ⟨g1.1.trans (s2.trans
        (g3.1.trans (g4.1.trans (g5.1.trans (g6.1.trans ⟨rfl, rfl, rfl, rfl⟩))))),
        fun hc => ?_⟩
      have c1 : CTranslator.Closed
          { tr1 with pool := tr1.pool.newLabel.2.newLabel.2.newLabel.2 } :=
        (g1.2 hc).withPool _
      obtain ⟨c2, hstm⟩ := g2.2 c1
      obtain ⟨c4, hthen⟩ := g4.2 (g3.2 c2)
      obtain ⟨c6, helse⟩ := g6.2 (g5.2 c4)
      refine c6.setStm ?_
      intro l hl
      simp only [IStm.targets, IStm.labels, List.append_nil, List.nil_append, List.mem_append,
        List.mem_cons, List.mem_singleton, List.not_mem_nil, or_false, false_or] at hl ⊢
      rcases hl with (hl | hl | hl) | hl
      · rcases hstm l hl with h | h | h
        · exact Or.inl (Or.inl h)
        · exact Or.inl (Or.inr (Or.inl h))
        · exact Or.inr (Or.inl (Or.inl h))
      · exact Or.inl (Or.inr (Or.inr (hthen l hl)))
      · exact Or.inr (Or.inr hl)
      · exact Or.inr (Or.inl (Or.inr (helse l hl)))
  | .CWhileStatementNode c body, tr, tr', h => by
      rw [visitStm] at h
      simp only [bind_eq_ok, Prod.exists] at h
      obtain ⟨tr1, h1, expr, tr2, h2, tr3, h3, h4⟩ := h
      have g1 := visitExp_good c tr tr1 h1
      have g2 := CTranslator.ToExp_good h2
      have g3 := visitStm_good body tr2 tr3 h3
      have g4 := whileTail_good h4
      refine ⟨g1.1.trans (g2.1.trans (g3.1.trans g4.1)), fun hc => ?_⟩
      obtain ⟨c2, he⟩ := g2.2 (g1.2 hc)
      exact g4.2 (g3.2 c2) he
  | .CPrintStatementNode e, tr, tr', h => by
      rw [visitStm] at h
      simp only [bind_eq_ok] at h
      obtain ⟨tr1, h1, h2⟩ := h
      have g1 := visitExp_good e tr tr1 h1
      have g2 := printTail_good h2
      exact ⟨g1.1.trans g2.1, fun hc => g2.2 (g1.2 hc)⟩
  | .CAssignStatementNode identifier e, tr, tr', h => by
      rw [visitStm] at h
      simp only [bind_eq_ok] at h
      obtain ⟨tr1, h1, h2⟩ := h
      have g1 := visitExp_good e tr tr1 h1
      have g2 := assignTail_good h2
      exact ⟨g1.1.trans g2.1, fun hc => g2.2 (g1.2 hc)⟩
  | .CInvokeExpressionStatementNode a b, tr, tr', h => by
      rw [visitStm] at h
      simp only [bind_eq_ok] at h
      obtain ⟨tr1, h1, h2⟩ := h
      have g1 := visitExp_good a tr tr1 h1
      have g2 := visitExp_good b tr1 tr' h2
      exact ⟨g1.1.trans g2.1, fun hc => g2.2 (g1.2 hc)⟩
/-- The visit of a statement list keeps the state closed. -/
theorem visitStatements_good : ∀ (s : StatementsNode) (tr tr' : CTranslator),
    visitStatements s tr = .ok tr' → Stable tr tr' ∧ (tr.Closed → tr'.Closed)
  | .null, tr, tr', h => by
      rw [visitStatements] at h
      cases h
      exact ⟨Stable.refl _, fun hc => hc⟩
  | .CNumerousStatementsNode ss st, tr, tr', h => by
      have ih := visitStatements_good ss
      rw [visitStatements.eq_def] at h
      simp only [bind_eq_ok, Prod.exists] at h
      obtain ⟨inner, tr0, h0, tr1, h1, res, tr2, h2, h3⟩ := h
      have g0 : Stable tr tr0 ∧
          (tr.Closed → tr0.Closed ∧ ∀ i, inner = some i → i.Closed) := by
        cases ss with
        | null =>
            simp only [Except.ok.injEq, Prod.mk.injEq] at h0
            obtain ⟨rfl, rfl⟩ := h0
            exact ⟨Stable.refl _, fun hc => ⟨hc, fun i hi => by cases hi⟩⟩
        | CNumerousStatementsNode ss' st' =>
            simp only [bind_eq_ok, Prod.exists, Except.ok.injEq, Prod.mk.injEq] at h0
            obtain ⟨tra, ha, i, trb, hb, rfl, rfl⟩ := h0
            have ga := ih tr tra ha
            have gb := CTranslator.ToStm_good hb
            refine ⟨ga.1.trans gb.1, fun hc => ?_⟩
            obtain ⟨cb, hi⟩ := gb.2 (ga.2 hc)
            exact ⟨cb, fun j hj => by cases hj; exact hi⟩
      have g1 := visitStm_good st tr0 tr1 h1
      have g2 := CTranslator.ToStm_good h2
      cases inner with
      | none =>
          simp only [pure, Except.pure, Except.ok.injEq] at h3
          subst h3
          refine ⟨g0.1.trans (g1.1.trans (g2.1.trans ⟨rfl, rfl, rfl, rfl⟩)), fun hc => ?_⟩
          obtain ⟨c2, hres⟩ := g2.2 (g1.2 (g0.2 hc).1)
          exact c2.setStm hres
      | some i =>
          simp only [bind_eq_ok, Prod.exists, pure, Except.pure, Except.ok.injEq] at h3
          obtain ⟨last, tr3, h3, rfl⟩ := h3
          have g3 := CTranslator.ToStm_good h3
          refine ⟨g0.1.trans (g1.1.trans (g2.1.trans (g3.1.trans ⟨rfl, rfl, rfl, rfl⟩))),
            fun hc => ?_⟩
          obtain ⟨c0, hi⟩ := g0.2 hc
          obtain ⟨c2, -⟩ := g2.2 (g1.2 c0)
          obtain ⟨c3, hlast⟩ := g3.2 c2
          refine c3.setStm ?_
          intro l hl
          simp only [IStm.targets, IStm.labels, List.mem_append] at hl ⊢
          rcases hl with hl | hl
          · exact Or.inl (hi i rfl l hl)
          · exact Or.inr (hlast l hl)
/-- The visit of the else member keeps the state closed. -/
theorem visitElse_good : ∀ (e : ElseNode) (tr tr' : CTranslator),
    visitElse e tr = .ok tr' → Stable tr tr' ∧ (tr.Closed → tr'.Closed)
  | .null, tr, tr', h => by
      rw [visitElse] at h
      cases h
      exact ⟨Stable.refl _, fun hc => hc⟩
  | .stm s, tr, tr', h => by
      rw [visitElse] at h
      exact visitStm_good s tr tr' h
end

theorem Stable.trees {tr tr' : CTranslator} (h : Stable tr tr') : tr'.trees = tr.trees :=
  congrArg (fun o => o.2.2.2.2) h.1

theorem Stable.jumpFree {tr tr' : CTranslator} (h : Stable tr tr')
    (hl : tr.layout.JumpFree) : tr'.layout.JumpFree := by
  intro i
  have := hl i
  rw [FrameLayout.JumpFree] at hl
  rw [h.2.2.1, h.2.2.2]
  exact this

theorem CTranslator.WellFormed.step {tr tr' : CTranslator} (ht : tr.WellFormed)
    (g : Stable tr tr' ∧ (tr.Closed → tr'.Closed)) : tr'.WellFormed := by
  refine ⟨g.2 ht.1, g.1.jumpFree ht.2.1, ?_⟩
  intro n hn
  rw [g.1.trees] at hn
  exact ht.2.2 n hn

theorem visitOptStm_good {s : Option StmNode} {tr tr' : CTranslator}
    (h : visitOptStm s tr = .ok tr') : Stable tr tr' ∧ (tr.Closed → tr'.Closed) := by
  cases s with
  | none =>
      rw [visitOptStm] at h
      cases h
      exact ⟨Stable.refl _, fun hc => hc⟩
  | some s =>
      rw [visitOptStm] at h
      exact visitStm_good s tr tr' h

theorem visitStats_good (s : StatsNode) : ∀ (tr tr' : CTranslator),
    visitStats s tr = .ok tr' → Stable tr tr' ∧ (tr.Closed → tr'.Closed) := by
  induction s with
  | null =>
      intro tr tr' h
      rw [visitStats] at h
      cases h
  | CStatsFirstNode stm =>
      intro tr tr' h
      rw [visitStats] at h
      exact visitOptStm_good h
  | CStatsListNode list stm ih =>
      intro tr tr' h
      rw [visitStats.eq_def] at h
      simp only [bind_eq_ok, Prod.exists] at h
      obtain ⟨inner, tr0, h0, res, tr1, h1, h2⟩ := h
      have g0 : Stable tr tr0 ∧
          (tr.Closed → tr0.Closed ∧ ∀ i, inner = some i → i.Closed) := by
        cases list with
        | null =>
            simp only [Except.ok.injEq, Prod.mk.injEq] at h0
            obtain ⟨rfl, rfl⟩ := h0
            exact ⟨Stable.refl _, fun hc => ⟨hc, fun i hi => by cases hi⟩⟩
        | CStatsFirstNode stm' =>
            simp only [bind_eq_ok, Prod.exists, Except.ok.injEq, Prod.mk.injEq] at h0
            obtain ⟨tra, ha, i, trb, hb, rfl, rfl⟩ := h0
            have ga := ih tr tra ha
            have gb := CTranslator.ToStm_good hb
            refine ⟨ga.1.trans gb.1, fun hc => ?_⟩
            obtain ⟨cb, hi⟩ := gb.2 (ga.2 hc)
            exact ⟨cb, fun j hj => by cases hj; exact hi⟩
        | CStatsListNode list' stm' =>
            simp only [bind_eq_ok, Prod.exists, Except.ok.injEq, Prod.mk.injEq] at h0
            obtain ⟨tra, ha, i, trb, hb, rfl, rfl⟩ := h0
            have ga := ih tr tra ha
            have gb := CTranslator.ToStm_good hb
            refine ⟨ga.1.trans gb.1, fun hc => ?_⟩
            obtain ⟨cb, hi⟩ := gb.2 (ga.2 hc)
            exact ⟨cb, fun j hj => by cases hj; exact hi⟩
      have g1 := CTranslator.ToStm_good h1
      cases stm with
      | none =>
          simp only [pure, Except.pure, Except.ok.injEq] at h2
          subst h2
          refine ⟨g0.1.trans (g1.1.trans ⟨rfl, rfl, rfl, rfl⟩), fun hc => ?_⟩
          obtain ⟨c1, hres⟩ := g1.2 (g0.2 hc).1
          exact c1.setStm hres
      | some s =>
          simp only [bind_eq_ok] at h2
          obtain ⟨tr2, h2, h3⟩ := h2
          have g2 := visitStm_good s tr1 tr2 h2
          cases inner with
          | none =>
              simp only [pure, Except.pure, Except.ok.injEq] at h3
              subst h3
              refine ⟨g0.1.trans (g1.1.trans (g2.1.trans ⟨rfl, rfl, rfl, rfl⟩)), fun hc => ?_⟩
              obtain ⟨c1, hres⟩ := g1.2 (g0.2 hc).1
              exact (g2.2 c1).setStm hres
          | some i =>
              simp only [bind_eq_ok, Prod.exists, pure, Except.pure, Except.ok.injEq] at h3
              obtain ⟨last, tr3, h3, rfl⟩ := h3
              have g3 := CTranslator.ToStm_good h3
              refine ⟨g0.1.trans (g1.1.trans (g2.1.trans (g3.1.trans ⟨rfl, rfl, rfl, rfl⟩))),
                fun hc => ?_⟩
              obtain ⟨c0, hi⟩ := g0.2 hc
              obtain ⟨c1, -⟩ := g1.2 c0
              obtain ⟨c3, hlast⟩ := g3.2 (g2.2 c1)
              refine c3.setStm ?_
              intro l hl
              simp only [IStm.targets, IStm.labels, List.mem_append] at hl ⊢
              rcases hl with hl | hl
              · exact Or.inl (hi i rfl l hl)
              · exact Or.inr (hlast l hl)

theorem visitMethodBody_good {b : MethodBodyNode} {tr tr' : CTranslator}
    (h : visitMethodBody b tr = .ok tr') : Stable tr tr' ∧ (tr.Closed → tr'.Closed) := by
  cases b with
  | CMethodBodyVarsNode =>
      rw [visitMethodBody] at h
      cases h
      exact ⟨Stable.refl _, fun hc => hc⟩
  | CMethodBodyStatsNode stats =>
      rw [visitMethodBody] at h
      exact visitStats_good stats tr tr' h
  | CMethodBodyAllNode stats =>
      rw [visitMethodBody] at h
      exact visitStats_good stats tr tr' h

theorem CFrame.JumpFree.allocFormal {fr : CFrame} (h : fr.JumpFree) (name : CSymbol) :
    (fr.allocFormal name).JumpFree := by
  refine ⟨h.1, ?_⟩
  intro b hb
  have h2 := h.2 b
  simp only [CFrame.allocFormal, List.mem_append, List.mem_singleton] at hb h2
  rcases hb with ((hb | hb) | hb) | hb
  · exact h2 (Or.inl (Or.inl hb))
  · subst hb
    exact (h.1 _).1
  · exact h2 (Or.inl (Or.inr hb))
  · exact h2 (Or.inr hb)

theorem CFrame.JumpFree.allocLocal {fr : CFrame} (h : fr.JumpFree) (name : CSymbol) :
    (fr.allocLocal name).JumpFree := by
  refine ⟨h.1, ?_⟩
  intro b hb
  have h2 := h.2 b
  simp only [CFrame.allocLocal, List.mem_append, List.mem_singleton] at hb h2
  rcases hb with (hb | hb | hb) | hb
  · exact h2 (Or.inl (Or.inl hb))
  · exact h2 (Or.inl (Or.inr hb))
  · subst hb
    exact (h.1 _).2
  · exact h2 (Or.inr hb)

theorem CFrame.JumpFree.allocVar {fr : CFrame} (h : fr.JumpFree) (name : CSymbol) :
    (fr.allocVar name).JumpFree := by
  refine ⟨h.1, ?_⟩
  intro b hb
  have h2 := h.2 b
  simp only [CFrame.allocVar, List.mem_append, List.mem_singleton] at hb h2
  rcases hb with (hb | hb) | hb | hb
  · exact h2 (Or.inl (Or.inl hb))
  · exact h2 (Or.inl (Or.inr hb))
  · exact h2 (Or.inr hb)
  · subst hb
    simp only [IExp.targets, CFrame.getTP, (h.1 0).1, List.append_nil]

theorem foldl_jumpFree {α : Type} (step : CFrame → α → CFrame)
    (hstep : ∀ fr a, fr.JumpFree → (step fr a).JumpFree) (l : List α) :
    ∀ fr : CFrame, fr.JumpFree → (l.foldl step fr).JumpFree := by
  induction l with
  | nil => exact fun fr h => h
  | cons a l ih => exact fun fr h => ih _ (hstep fr a h)

/-- The frame of a method holds jump-free access expressions when the layout does. -/
theorem buildFrame_jumpFree (layout : FrameLayout) (name : CSymbol) (method : CMethodInfo)
    (cl : CClassInfo) (hl : layout.JumpFree) : (buildFrame layout name method cl).JumpFree := by
  have h0 : (CFrame.new layout name).JumpFree :=
    ⟨hl, fun b hb => by simp [CFrame.new] at hb⟩
  unfold buildFrame
  exact foldl_jumpFree _ (fun fr a h => h.allocVar _) _ _
    (foldl_jumpFree _ (fun fr a h => h.allocLocal _) _ _
      (foldl_jumpFree _ (fun fr a h => h.allocFormal _) _ _ (h0.allocFormal _)))

theorem CTranslator.WellFormed.push {tr : CTranslator} (ht : tr.WellFormed) (n : INode)
    (hn : n.TargetsDefined) : CTranslator.WellFormed { tr with trees := tr.trees ++ [n] } := by
  refine ⟨ht.1, ht.2.1, ?_⟩
  intro m hm
  simp only [List.mem_append, List.mem_singleton] at hm
  rcases hm with hm | hm
  · exact ht.2.2 m hm
  · subst hm
    exact hn

theorem CTranslator.WellFormed.enterMethod {tr : CTranslator} (ht : tr.WellFormed)
    (name : CSymbol) (method : CMethodInfo) :
    CTranslator.WellFormed
      { tr with currentMethod := method
                currentFrame := some (buildFrame tr.layout name method tr.currentClass) } := by
  refine ⟨⟨ht.1.1, ht.1.2.1, ?_⟩, ht.2.1, ht.2.2⟩
  intro fr hfr
  cases hfr
  exact buildFrame_jumpFree _ _ _ _ ht.2.1

theorem visitMethodDeclaration_wellFormed {node : CMethodDeclarationRuleNode}
    {tr tr' : CTranslator} (ht : tr.WellFormed)
    (h : visitMethodDeclaration node tr = .ok tr') : tr'.WellFormed := by
  simp only [visitMethodDeclaration, bind_eq_ok, Prod.exists] at h
  obtain ⟨method, -, tr2, h2, res, tr3, h3, h4⟩ := h
  have w1 := ht.enterMethod node.ident method
  have w2 := w1.step (visitExp_good _ _ _ h2)
  have g3 := CTranslator.ToExp_good h3
  have w3 := w2.step ⟨g3.1, fun hc => (g3.2 hc).1⟩
  have hres : res.Closed := (g3.2 w2.1).2
  cases hb : node.method_body with
  | none =>
      rw [hb] at h4
      simp only [pure, Except.pure, Except.ok.injEq] at h4
      subst h4
      exact w3.push _ hres
  | some body =>
      rw [hb] at h4
      simp only [bind_eq_ok, Prod.exists, pure, Except.pure, Except.ok.injEq] at h4
      obtain ⟨tr4, h4, arg1, tr5, h5, rfl⟩ := h4
      have w4 := w3.step (visitMethodBody_good h4)
      have g5 := CTranslator.ToStm_good h5
      have w5 := w4.step ⟨g5.1, fun hc => (g5.2 hc).1⟩
      have harg : arg1.Closed := (g5.2 w4.1).2
      refine w5.push _ ?_
      intro l hl
      simp only [INode.targets, INode.labels, IExp.targets, IExp.labels, List.mem_append]
        at hl ⊢
      rcases hl with hl | hl
      · exact Or.inl (harg l hl)
      · exact Or.inr (hres l hl)

theorem visitMethodDeclarations_wellFormed (m : MethodDeclarationsNode) :
    ∀ (tr tr' : CTranslator), tr.WellFormed → visitMethodDeclarations m tr = .ok tr' →
      tr'.WellFormed := by
  induction m with
  | null =>
      intro tr tr' ht h
      rw [visitMethodDeclarations] at h
      cases h
      exact ht
  | CMethodDeclarationsListNode list item ih =>
      intro tr tr' ht h
      rw [visitMethodDeclarations] at h
      simp only [bind_eq_ok] at h
      obtain ⟨tr1, h1, h2⟩ := h
      exact visitMethodDeclaration_wellFormed (ih tr tr1 ht h1) h2

theorem visitClassDeclaration_wellFormed {node : CClassDeclarationRuleNode}
    {tr tr' : CTranslator} (ht : tr.WellFormed)
    (h : visitClassDeclaration node tr = .ok tr') : tr'.WellFormed := by
  simp only [visitClassDeclaration, bind_eq_ok] at h
  obtain ⟨cl, -, h⟩ := h
  have w1 : CTranslator.WellFormed { tr with currentClass := cl } := ⟨ht.1, ht.2.1, ht.2.2⟩
  split at h
  · cases h
  · exact visitMethodDeclarations_wellFormed _ _ _ w1 h

theorem visitDeclarations_wellFormed (d : DeclarationsNode) :
    ∀ (tr tr' : CTranslator), tr.WellFormed → visitDeclarations d tr = .ok tr' →
      tr'.WellFormed := by
  induction d with
  | null =>
      intro tr tr' ht h
      rw [visitDeclarations] at h
      cases h
      exact ht
  | CDeclarationsListNode decl cl ih =>
      intro tr tr' ht h
      rw [visitDeclarations] at h
      simp only [bind_eq_ok] at h
      obtain ⟨tr1, h1, h2⟩ := h
      have w1 := ih tr tr1 ht h1
      cases cl with
      | none =>
          simp only [pure, Except.pure, Except.ok.injEq] at h2
          subst h2
          exact w1
      | some c => exact visitClassDeclaration_wellFormed w1 h2

theorem visitMainClass_wellFormed {node : CMainClassDeclarationRuleNode}
    {tr tr' : CTranslator} (ht : tr.WellFormed)
    (h : visitMainClass node tr = .ok tr') : tr'.WellFormed := by
  simp only [visitMainClass, bind_eq_ok] at h
  obtain ⟨method, -, h⟩ := h
  have w1 := ht.enterMethod "main" method
  cases hs : node.stmt with
  | none =>
      rw [hs] at h
      simp only [pure, Except.pure, Except.ok.injEq] at h
      subst h
      exact w1
  | some s =>
      rw [hs] at h
      simp only [bind_eq_ok, Prod.exists, pure, Except.pure, Except.ok.injEq] at h
      obtain ⟨tr2, h2, st, tr3, h3, rfl⟩ := h
      have w2 := w1.step (visitStm_good _ _ _ h2)
      have g3 := CTranslator.ToStm_good h3
      have w3 := w2.step ⟨g3.1, fun hc => (g3.2 hc).1⟩
      exact w3.push _ (g3.2 w2.1).2

theorem CTranslator.new_wellFormed {table : CTable} {layout : FrameLayout} {pool : Pool}
    {tr : CTranslator} (hl : layout.JumpFree) (h : CTranslator.new table layout pool = .ok tr) :
    tr.WellFormed := by
  unfold CTranslator.new at h
  split at h
  · cases h
  · split at h
    · cases h
    · cases h
      refine ⟨⟨trivial, ?_, ?_⟩, hl, ?_⟩
      · intro l hl
        cases hl
      · intro fr hfr
        cases hfr
      · intro n hn
        cases hn

end Translate

namespace Translate

open IExp IStm

/-! ### The emitted trees -/

/-- The visit of the main class with a statement, step by step. -/
theorem visitMainClass_steps (s : StmNode) (tr tr2 tr3 : CTranslator) (method : CMethodInfo)
    (st : IStm) (hm : tr.currentClass.getMethodInfo "main" = .ok method)
    (hs : visitStm s
        { tr with currentMethod := method
                  currentFrame := some (buildFrame tr.layout "main" method tr.currentClass) }
        = .ok tr2)
    (hst : tr2.ToStm = .ok (st, tr3)) :
    visitMainClass { stmt := some s } tr = .ok { tr3 with trees := tr3.trees ++ [.stm st] } := by
  simp only [visitMainClass, hm, bind, Except.bind, hs, hst, pure, Except.pure]

/-- The visit of a program, step by step. -/
theorem visitProgram_steps (node : CProgramRuleNode) (tr tr1 tr2 : CTranslator)
    (h1 : visitMainClass node.mainClass tr = .ok tr1)
    (h2 : visitDeclarations node.decl tr1 = .ok tr2) :
    visitProgram node tr = .ok tr2 := by
  simp only [visitProgram, h1, bind, Except.bind, h2]

/-- The visit of a `while`, step by step. -/
theorem visitStm_CWhileStatementNode_steps (c : ExpNode) (body : StmNode)
    (tr tr1 tr2 tr3 : CTranslator) (e : IExp) (s : IStm)
    (hc : visitExp c tr = .ok tr1)
    (he : tr1.currentNode = some (.CExpConverter e))
    (hb : visitStm body tr1 = .ok tr2)
    (hs : tr2.ToStm = .ok (s, tr3)) :
    visitStm (.CWhileStatementNode c body) tr =
      .ok (tr3.newLabel.2.newLabel.2.setStm
        (SEQ (SEQ (SEQ (SEQ
          (CJUMP .EQ e (CONST 0) (.anon tr3.pool.nextLabel) (.anon (tr3.pool.nextLabel + 1)))
          (LABEL (.anon (tr3.pool.nextLabel + 1)))) s)
          (CJUMP .EQ e (CONST 0) (.anon tr3.pool.nextLabel) (.anon (tr3.pool.nextLabel + 1))))
          (LABEL (.anon tr3.pool.nextLabel)))) := by
  rw [visitStm]
  simp only [hc, bind, Except.bind, CTranslator.ToExp_CExpConverter _ _ he, hb, whileTail, hs,
    pure, Except.pure]
  rfl

theorem sampleLayout_jumpFree : sampleLayout.JumpFree := fun _ => ⟨rfl, rfl⟩

/-- The run of the translator on `sampleProgramIf`. -/
theorem visitProgram_sampleProgramIf :
    ∃ tr, visitProgram sampleProgramIf sampleMainTranslator = .ok tr ∧
      tr.trees.length = 1 := by
  have hif := visitStm_CIfStatementNode_steps (.CBooleanExpressionNode true) (samplePrint 1)
      (.stm (samplePrint 2))
      { sampleMainTranslator with
          currentMethod := ⟨"main", [], []⟩
          currentFrame := some (buildFrame sampleLayout "main" ⟨"main", [], []⟩ sampleClassMain) }
      _ _ _ _ _ (CONST 1) (samplePrintIR 1) (samplePrintIR 2) rfl rfl rfl rfl rfl rfl
  have hmain := visitMainClass_steps sampleIfElse sampleMainTranslator _ _ ⟨"main", [], []⟩ _
    rfl hif rfl
  exact ⟨_, visitProgram_steps sampleProgramIf sampleMainTranslator _ _ hmain rfl, rfl⟩

/-- C12: for every program, every symbol table and every frame layout whose access
expressions contain no jump, when the translator built by the constructor runs over
the program, in every tree it emits each label named as a target of a `CJUMP` (its
true and its false label) or of a `JUMP` occurs as a `LABEL` statement of that same
tree. -/
theorem visitProgram_targets_defined (node : CProgramRuleNode) (table : CTable)
    (layout : FrameLayout) (pool : Pool) (tr0 tr : CTranslator) (hl : layout.JumpFree)
    (h0 : CTranslator.new table layout pool = .ok tr0)
    (h : visitProgram node tr0 = .ok tr) :
    ∀ n ∈ tr.trees, ∀ l ∈ n.targets, l ∈ n.labels := by
  simp only [visitProgram, bind_eq_ok] at h
  obtain ⟨tr1, h1, h2⟩ := h
  have w0 := CTranslator.new_wellFormed hl h0
  have w1 := visitMainClass_wellFormed w0 h1
  exact (visitDeclarations_wellFormed _ _ _ w1 h2).2.2

/-- The tree emitted for `sampleProgramIf` has its jump targets defined. -/
theorem visitProgram_targets_defined_witness :
    sampleLayout.JumpFree ∧
    CTranslator.new sampleTable sampleLayout ⟨0, 0⟩ = .ok sampleMainTranslator ∧
    (treesOf (visitProgram sampleProgramIf sampleMainTranslator)).length = 1 ∧
    ∀ n ∈ treesOf (visitProgram sampleProgramIf sampleMainTranslator),
      ∀ l ∈ n.targets, l ∈ n.labels := by
  obtain ⟨tr, h, hlen⟩ := visitProgram_sampleProgramIf
  refine ⟨sampleLayout_jumpFree, rfl, ?_, ?_⟩
  · rw [h]
    exact hlen
  · rw [h]
    exact visitProgram_targets_defined sampleProgramIf sampleTable sampleLayout ⟨0, 0⟩
      sampleMainTranslator tr sampleLayout_jumpFree rfl h

/-- C13 (the code departs from the claim): for the program whose main statement is
`while (1 < 2) System.out.println(1);` the translator emits one tree, in which the
labels 1 and 0 of the lowering of `1 < 2` each occur in two `LABEL` statements: the
value of the condition is installed in both `CJUMP`s of the loop. -/
theorem visitProgram_while_compare_repeats_labels :
    treesOf (visitProgram sampleProgramWhile sampleMainTranslator)
      = [.stm sampleWhileCompareIR] ∧
    (INode.stm sampleWhileCompareIR).labels
      = [.anon 1, .anon 0, .anon 3, .anon 1, .anon 0, .anon 2] ∧
    ¬ (INode.stm sampleWhileCompareIR).LabelsUnique := by
  have hw := visitStm_CWhileStatementNode_steps sampleCompare (samplePrint 1)
      { sampleMainTranslator with
          currentMethod := ⟨"main", [], []⟩
          currentFrame := some (buildFrame sampleLayout "main" ⟨"main", [], []⟩ sampleClassMain) }
      _ _ _ sampleCompareIR (samplePrintIR 1) rfl rfl rfl rfl
  have hmain := visitMainClass_steps sampleWhileCompare sampleMainTranslator _ _
    ⟨"main", [], []⟩ _ rfl hw rfl
  have hprog := visitProgram_steps sampleProgramWhile sampleMainTranslator _ _ hmain rfl
  have hlabels : (INode.stm sampleWhileCompareIR).labels
      = [.anon 1, .anon 0, .anon 3, .anon 1, .anon 0, .anon 2] := rfl
  refine ⟨?_, hlabels, ?_⟩
  · rw [hprog]
    rfl
  · rw [INode.LabelsUnique, hlabels]
    decide

/-! ### Method trees -/

/-- C11 (as amended): for every method declaration of the current class whose return
expression translates to the value `r`, the visit appends exactly one tree to
`trees`: `r` itself when the declaration has no body node, and `ESEQ(s, r)` when the
body is a statement body (with or without variable declarations) the visit of whose
statements succeeds, so that its member `stats` is not null, and after which the
current node yields the statement `s`. -/
theorem visitMethodDeclaration_tree (node : CMethodDeclarationRuleNode)
    (tr tr2 tr3 : CTranslator) (method : CMethodInfo) (r : IExp)
    (hm : tr.currentClass.getMethodInfo node.ident = .ok method)
    (hr : visitExp node.return_exp
        { tr with currentMethod := method
                  currentFrame := some (buildFrame tr.layout node.ident method tr.currentClass) }
        = .ok tr2)
    (hre : tr2.ToExp = .ok (r, tr3)) :
    (node.method_body = none →
      ∃ tr', visitMethodDeclaration node tr = .ok tr' ∧ tr'.trees = tr.trees ++ [.exp r]) ∧
    (∀ (stats : StatsNode) (tr4 tr5 : CTranslator) (s : IStm),
      (node.method_body = some (.CMethodBodyStatsNode stats) ∨
        node.method_body = some (.CMethodBodyAllNode stats)) →
      visitStats stats tr3 = .ok tr4 → tr4.ToStm = .ok (s, tr5) →
      ∃ tr', visitMethodDeclaration node tr = .ok tr' ∧
        tr'.trees = tr.trees ++ [.exp (ESEQ s r)]) := by
  have t3 : tr3.trees = tr.trees := by
    rw [(CTranslator.ToExp_good hre).1.trees, (visitExp_good _ _ _ hr).1.trees]
  constructor
  · intro hb
    refine ⟨{ tr3 with trees := tr3.trees ++ [.exp r] }, ?_, ?_⟩
    · simp only [visitMethodDeclaration, hm, bind, Except.bind, hr, hre, hb, pure, Except.pure]
    · show tr3.trees ++ [.exp r] = tr.trees ++ [.exp r]
      rw [t3]
  · intro stats tr4 tr5 s hb h4 h5
    have t5 : tr5.trees = tr.trees := by
      rw [(CTranslator.ToStm_good h5).1.trees, (visitStats_good _ _ _ h4).1.trees, t3]
    refine ⟨{ tr5 with trees := tr5.trees ++ [.exp (ESEQ s r)] }, ?_, ?_⟩
    · rcases hb with hb | hb <;>
        simp only [visitMethodDeclaration, hm, bind, Except.bind, hr, hre, hb, visitMethodBody,
          h4, h5, pure, Except.pure]
    · show tr5.trees ++ [.exp (ESEQ s r)] = tr.trees ++ [.exp (ESEQ s r)]
      rw [t5]

/-- The tree of the method `m` whose body is `System.out.println(1);` and which
returns 7. -/
theorem visitMethodDeclaration_tree_witness :
    treesOf (visitMethodDeclaration sampleMethodStats sampleTranslator)
      = [.exp (ESEQ (samplePrintIR 1) (CONST 7))] := by
  obtain ⟨tr', h, ht⟩ :=
    (visitMethodDeclaration_tree sampleMethodStats sampleTranslator _ _ sampleMethodBm
      (CONST 7) rfl rfl rfl).2 (.CStatsFirstNode (some (samplePrint 1))) _ _
      (samplePrintIR 1) (Or.inl rfl) rfl rfl
  rw [h]
  exact ht

/-- C11 (counterexample): for the method `m` declared with no body node and returning
7, the one tree the visit appends is `CONST(7)`, which is not of the form
`ESEQ(s, r)`. -/
theorem visitMethodDeclaration_no_body_not_ESEQ :
    treesOf (visitMethodDeclaration sampleMethodNoBody sampleTranslator) = [.exp (CONST 7)] ∧
    ¬ ∃ (s : IStm) (r : IExp),
      treesOf (visitMethodDeclaration sampleMethodNoBody sampleTranslator)
        = [.exp (ESEQ s r)] := by
  have h : treesOf (visitMethodDeclaration sampleMethodNoBody sampleTranslator)
      = [.exp (CONST 7)] := rfl
  refine ⟨h, ?_⟩
  rintro ⟨s, r, h'⟩
  rw [h] at h'
  cases h'

/-- A statement body whose member `stats` is null: the visit of the declaration ends
in the null dereference `node->stats->accept(this)` and appends no tree. -/
theorem visitMethodDeclaration_null_stats (node : CMethodDeclarationRuleNode)
    (tr tr2 tr3 : CTranslator) (method : CMethodInfo) (r : IExp)
    (hm : tr.currentClass.getMethodInfo node.ident = .ok method)
    (hr : visitExp node.return_exp
        { tr with currentMethod := method
                  currentFrame := some (buildFrame tr.layout node.ident method tr.currentClass) }
        = .ok tr2)
    (hre : tr2.ToExp = .ok (r, tr3))
    (hb : node.method_body = some (.CMethodBodyStatsNode .null) ∨
      node.method_body = some (.CMethodBodyAllNode .null)) :
    visitMethodDeclaration node tr = .error .nullPointer := by
  rcases hb with hb | hb <;>
    simp only [visitMethodDeclaration, hm, bind, Except.bind, hr, hre, hb, visitMethodBody,
      visitStats]

/-- The method `m` returning 7 whose statement body has a null member `stats`. -/
theorem visitMethodDeclaration_null_stats_sample :
    visitMethodDeclaration sampleMethodNullStats sampleTranslator = .error .nullPointer :=
  visitMethodDeclaration_null_stats sampleMethodNullStats sampleTranslator _ _ sampleMethodBm
    (CONST 7) rfl rfl rfl (Or.inl rfl)

/-- The tree of a method whose body declares variables only: the statement part of
the `ESEQ` is the return expression once more, as a statement. -/
theorem visitMethodDeclaration_vars_only :
    treesOf (visitMethodDeclaration sampleMethodVarsOnly sampleTranslator)
      = [.exp (ESEQ (EXP (CONST 7)) (CONST 7))] := rfl

/-! ### Node objects -/

/-- C14 (the code departs from the claim): in the objects built by the visit of a
`while`, for every condition `e` and body `s` already on the heap, the object of the
condition is installed as a child at two positions, the left operand of each of the
two `CJUMP` objects, while the tree read from the root is the one the visit leaves in
the current node. -/
theorem whileTailAlloc_shares_condition (e : IExp) (s : IStm) (f t : CLabel) :
    ∃ (root : Nat) (h : Heap),
      whileTailAlloc 0 1 f t [.expTree e, .stmTree s] = (root, h) ∧
      h.readStm 5 root = some
        (SEQ (SEQ (SEQ (SEQ (CJUMP .EQ e (CONST 0) f t) (LABEL t)) s)
          (CJUMP .EQ e (CONST 0) f t)) (LABEL f)) ∧
      h.positions 0 = [(3, 0), (8, 0)] ∧
      h.get? 3 = some (.CJUMP .EQ 0 2 f t) ∧ h.get? 8 = some (.CJUMP .EQ 0 7 f t) :=
  ⟨_, _, rfl, rfl, rfl, rfl, rfl⟩

end Translate

namespace Translate

open IExp IStm

/-! ### Empty blocks -/

/-- The visit of a block with no statements changes nothing: the current node stays
what the visit before left. -/
theorem visitStm_CBracedStatementNode_null (tr : CTranslator) :
    visitStm (.CBracedStatementNode .null) tr = .ok tr := by
  rw [visitStm, visitStatements]

/-- C21 (the code departs from the claim): the visit of a block with no statements
leaves the translator state as it was, so the wrapper after the block is the one of
the subtree translated before. In `while (this.m(1, 2)) { }` the body of the loop is
`EXP(CALL(...))`, the condition once more, not `EXP(CONST(0))`; and for a program
whose main statement is `{ }` the current node is still null when it is read. -/
theorem visit_CBracedStatementNode_keeps_current_node :
    (∀ tr : CTranslator, visitStm (.CBracedStatementNode .null) tr = .ok tr) ∧
    currentNodeOf (visitStm sampleWhileEmptyBlock sampleTranslator) =
      some (.CStmConverter
        (SEQ (SEQ (SEQ (SEQ
          (CJUMP .EQ sampleInvokeIR (CONST 0) (.anon 0) (.anon 1))
          (LABEL (.anon 1)))
          (EXP sampleInvokeIR))
          (CJUMP .EQ sampleInvokeIR (CONST 0) (.anon 0) (.anon 1)))
          (LABEL (.anon 0)))) ∧
    EXP sampleInvokeIR ≠ EXP (CONST 0) ∧
    visitProgram sampleProgramEmptyBlock sampleMainTranslator = .error .nullPointer := by
  refine ⟨visitStm_CBracedStatementNode_null, ?_, ?_, rfl⟩
  · rw [sampleWhileEmptyBlock,
      visitStm_CWhileStatementNode_steps sampleInvokeTwoArgs (.CBracedStatementNode .null)
        sampleTranslator _ _ _ sampleInvokeIR (EXP sampleInvokeIR) rfl rfl
        (visitStm_CBracedStatementNode_null _) rfl]
    rfl
  · simp [sampleInvokeIR]

/-! ### Nested invocations -/

/-- C23 (the code departs from the claim): for `this.m(1, this.m(2, 3))` inside class
`B`, an invocation with two arguments, the emitted `CALL` has two arguments (the
receiver and the inner call) instead of three, and the inner `CALL` has four (its
receiver, 3, 2 and the 1 of the outer list) instead of three; the accumulator
`arguments` is empty after the visit. -/
theorem visit_CInvokeMethodExpressionNode_nested_argument_count :
    currentNodeOf (visitExp sampleInvokeNested sampleTranslator) =
      some (.CExpConverter
        (CALL (NAME (some (.named "B@m")))
          (.cons (sampleLayout.formal 0)
            (.cons
              (CALL (NAME (some (.named "B@m")))
                (.cons (sampleLayout.formal 0)
                  (.cons (CONST 3) (.cons (CONST 2) (.cons (CONST 1) .null)))))
              .null)))) ∧
    (callArgumentsOf (visitExp sampleInvokeNested sampleTranslator)).map List.length = some 2 ∧
    argumentsOf (visitExp sampleInvokeNested sampleTranslator) = some [] := by
  refine ⟨rfl, rfl, rfl⟩

end Translate

namespace Translate

open IExp IStm

/-! ### The kind of the current wrapper -/

theorem NoAssert.ok {α : Type} (a : α) : NoAssert (Except.ok a : Except TranslateError α) := by
  intro h
  cases h

theorem LeavesValue.noAssert {r : Except TranslateError CTranslator} (h : LeavesValue r) :
    NoAssert r := by
  cases r with
  | error err =>
      intro he
      cases he
      exact h rfl
  | ok tr => exact NoAssert.ok tr

theorem noAssert_bind {α β : Type} {r : Except TranslateError α}
    {f : α → Except TranslateError β} (hr : NoAssert r) (hf : ∀ a, r = .ok a → NoAssert (f a)) :
    NoAssert (r >>= f) := by
  cases r with
  | error err =>
      intro he
      have he' : (Except.error err : Except TranslateError β) = .error .assertFailed := he
      injection he' with he'
      exact hr (congrArg Except.error he')
  | ok a => exact hf a rfl

theorem leavesValue_bind {α : Type} {r : Except TranslateError α}
    {f : α → Except TranslateError CTranslator} (hr : NoAssert r)
    (hf : ∀ a, r = .ok a → LeavesValue (f a)) : LeavesValue (r >>= f) := by
  cases r with
  | error err =>
      intro he
      exact hr (congrArg Except.error he)
  | ok a => exact hf a rfl

theorem arithmeticTail_leavesValue (op : ArithmeticOpType) (a b : IExp) (tr : CTranslator) :
    LeavesValue (arithmeticTail op a b tr) := by
  cases op <;> exact ⟨_, rfl⟩

theorem relativeCmpTail_leavesValue (op : CJUMP_OP) (a b : IExp) (tr : CTranslator) :
    LeavesValue (relativeCmpTail op a b tr) := ⟨_, rfl⟩

theorem CTranslator.frame_noAssert (tr : CTranslator) : NoAssert tr.frame := by
  unfold CTranslator.frame
  split
  · intro h
    cases h
  · exact NoAssert.ok _

theorem CFrame.findByName_noAssert (fr : CFrame) (name : CSymbol) :
    NoAssert (fr.findByName name) := by
  unfold CFrame.findByName
  split
  · exact NoAssert.ok _
  · intro h
    cases h

theorem CTable.getClassInfo_noAssert (table : CTable) (name : CSymbol) :
    NoAssert (table.getClassInfo name) := by
  unfold CTable.getClassInfo
  split
  · exact NoAssert.ok _
  · intro h
    cases h

theorem CClassInfo.getMethodInfo_noAssert (cl : CClassInfo) (name : CSymbol) :
    NoAssert (cl.getMethodInfo name) := by
  unfold CClassInfo.getMethodInfo
  split
  · exact NoAssert.ok _
  · intro h
    cases h

/-- The call `currentNode->ToStm()` has no `assert(0)`. -/
theorem CTranslator.ToStm_noAssert (tr : CTranslator) : NoAssert tr.ToStm := by
  unfold CTranslator.ToStm
  split
  · intro h
    cases h
  · rename_i w hw
    cases w <;> exact NoAssert.ok _

theorem newArrayTail_leavesValue {tr : CTranslator} {x : IExp}
    (hx : tr.currentNode = some (.CExpConverter x)) : LeavesValue (newArrayTail tr) := by
  unfold newArrayTail
  simp only [CTranslator.ToExp_CExpConverter _ _ hx, bind, Except.bind]
  exact leavesValue_bind (CTranslator.frame_noAssert _) (fun fr _ => ⟨_, rfl⟩)

theorem visitNewObject_leavesValue (objType : CSymbol) (tr : CTranslator) :
    LeavesValue (visitNewObject objType tr) := by
  unfold visitNewObject
  exact leavesValue_bind (CTable.getClassInfo_noAssert _ _) (fun cl _ =>
    leavesValue_bind (CTranslator.frame_noAssert _) (fun fr _ => ⟨_, rfl⟩))

theorem pushArgument_leavesValue {tr : CTranslator} {x : IExp}
    (hx : tr.currentNode = some (.CExpConverter x)) : LeavesValue (pushArgument tr) := by
  unfold pushArgument
  simp only [CTranslator.ToExp_CExpConverter _ _ hx, bind, Except.bind]
  exact ⟨x, hx⟩

/-- A step after a visit that leaves a value wrapper: the next step may rely on the
value wrapper. -/
theorem LeavesValue.andThen {r : Except TranslateError CTranslator}
    {f : CTranslator → Except TranslateError CTranslator} (hr : LeavesValue r)
    (hf : ∀ tr x, tr.currentNode = some (.CExpConverter x) → LeavesValue (f tr)) :
    LeavesValue (r >>= f) := by
  cases r with
  | error err => exact hr
  | ok tr =>
      obtain ⟨x, hx⟩ := hr
      exact hf tr x hx

theorem NoAssert.afterValue {β : Type} {r : Except TranslateError CTranslator}
    {f : CTranslator → Except TranslateError β} (hr : LeavesValue r)
    (hf : ∀ tr x, tr.currentNode = some (.CExpConverter x) → NoAssert (f tr)) :
    NoAssert (r >>= f) := by
  cases r with
  | error err =>
      intro he
      have he' : (Except.error err : Except TranslateError β) = .error .assertFailed := he
      injection he' with he'
      exact hr he'
  | ok tr =>
      obtain ⟨x, hx⟩ := hr
      exact hf tr x hx

mutual
/-- The visit of an expression leaves a value wrapper in the current node, from every
state, unless it stops on a null pointer or an unknown name. -/
theorem visitExp_leavesValue : ∀ (e : ExpNode) (tr : CTranslator), LeavesValue (visitExp e tr)
  | .CInvokeExpressionNode a b, tr => by
      rw [visitExp]
      exact (visitExp_leavesValue a tr).andThen (fun tr1 _ _ => visitExp_leavesValue b tr1)
  | .CLengthExpressionNode expr, tr => by
      rw [visitExp]
      exact visitExp_leavesValue expr tr
  | .CArithmeticExpressionNode a op b, tr => by
      rw [visitExp]
      refine (visitExp_leavesValue a tr).andThen (fun tr1 x hx => ?_)
      simp only [CTranslator.ToExp_CExpConverter _ _ hx, bind, Except.bind]
      refine (visitExp_leavesValue b tr1).andThen (fun tr3 y hy => ?_)
      simp only [CTranslator.ToExp_CExpConverter _ _ hy, bind, Except.bind]
      exact arithmeticTail_leavesValue op x y tr3
  | .CUnaryExpressionNode op expr, tr => by
      rw [visitExp]
      refine (visitExp_leavesValue expr tr).andThen (fun tr1 x hx => ?_)
      simp only [CTranslator.ToExp_CExpConverter _ _ hx, bind, Except.bind]
      exact ⟨_, rfl⟩
  | .CCompareExpressionNode a b, tr => by
      rw [visitExp]
      refine (visitExp_leavesValue a tr).andThen (fun tr1 x hx => ?_)
      simp only [CTranslator.ToExp_CExpConverter _ _ hx, bind, Except.bind]
      refine (visitExp_leavesValue b tr1).andThen (fun tr3 y hy => ?_)
      simp only [CTranslator.ToExp_CExpConverter _ _ hy, bind, Except.bind]
      exact relativeCmpTail_leavesValue .LT x y tr3
  | .CNotExpressionNode expr, tr => by
      rw [visitExp]
      refine (visitExp_leavesValue expr tr).andThen (fun tr1 x hx => ?_)
      simp only [CTranslator.ToExp_CExpConverter _ _ hx, bind, Except.bind]
      exact relativeCmpTail_leavesValue .EQ x (CONST 0) tr1
  | .CNewArrayExpressionNode expr, tr => by
      rw [visitExp]
      exact (visitExp_leavesValue expr tr).andThen (fun tr1 x hx => newArrayTail_leavesValue hx)
  | .CNewObjectExpressionNode objType, tr => by
      rw [visitExp]
      exact visitNewObject_leavesValue objType tr
  | .CIntExpressionNode value, tr => by
      rw [visitExp]
      exact ⟨_, rfl⟩
  | .CBooleanExpressionNode value, tr => by
      rw [visitExp]
      exact ⟨_, rfl⟩
  | .CIdentExpressionNode name, tr => by
      rw [visitExp]
      exact leavesValue_bind (CTranslator.frame_noAssert _) (fun fr _ =>
        leavesValue_bind (CFrame.findByName_noAssert _ _) (fun result _ => ⟨_, rfl⟩))
  | .CThisExpressionNode, tr => by
      rw [visitExp]
      exact leavesValue_bind (CTranslator.frame_noAssert _) (fun fr _ => ⟨_, rfl⟩)
  | .CParenExpressionNode expr, tr => by
      rw [visitExp]
      exact visitExp_leavesValue expr tr
  | .CInvokeMethodExpressionNode expr name args, tr => by
      rw [visitExp]
      refine (visitExp_leavesValue expr tr).andThen (fun tr1 x hx => ?_)
      simp only [CTranslator.ToExp_CExpConverter _ _ hx, bind, Except.bind]
      exact leavesValue_bind (visitArgs_noAssert args tr1) (fun tr3 _ => ⟨_, rfl⟩)
/-- The visit of the arguments of an invocation never reaches an `assert(0)`. -/
theorem visitArgs_noAssert : ∀ (a : ArgsNode) (tr : CTranslator), NoAssert (visitArgs a tr)
  | .null, tr => by
      rw [visitArgs]
      exact NoAssert.ok tr
  | .CFewArgsExpressionNode expr, tr => by
      rw [visitArgs]
      exact visitExpList_noAssert expr tr
/-- The visit of an argument chain never reaches an `assert(0)`. -/
theorem visitExpList_noAssert : ∀ (a : ExpListNode) (tr : CTranslator),
    NoAssert (visitExpList a tr)
  | .CListExpressionNode prevExps nextExp, tr => by
      rw [visitExpList]
      refine noAssert_bind (visitExpList_noAssert prevExps tr) (fun tr1 _ => ?_)
      exact NoAssert.afterValue (visitExp_leavesValue nextExp tr1)
        (fun tr2 x hx => (pushArgument_leavesValue hx).noAssert)
  | .CLastListExpressionNode expr, tr => by
      rw [visitExpList]
      exact NoAssert.afterValue (visitExp_leavesValue expr tr)
        (fun tr1 x hx => (pushArgument_leavesValue hx).noAssert)
end

theorem whileTail_noAssert (expr : IExp) (tr : CTranslator) : NoAssert (whileTail expr tr) := by
  unfold whileTail
  exact noAssert_bind (CTranslator.ToStm_noAssert tr) (fun p _ => NoAssert.ok _)

theorem printTail_noAssert {tr : CTranslator} {x : IExp}
    (hx : tr.currentNode = some (.CExpConverter x)) : NoAssert (printTail tr) := by
  unfold printTail
  simp only [CTranslator.ToExp_CExpConverter _ _ hx, bind, Except.bind]
  exact noAssert_bind (CTranslator.frame_noAssert _) (fun fr _ => NoAssert.ok _)

theorem assignTail_noAssert (identifier : CSymbol) {tr : CTranslator} {x : IExp}
    (hx : tr.currentNode = some (.CExpConverter x)) : NoAssert (assignTail identifier tr) := by
  unfold assignTail
  refine noAssert_bind (CTranslator.frame_noAssert _) (fun fr _ => ?_)
  refine noAssert_bind (CFrame.findByName_noAssert _ _) (fun dst _ => ?_)
  simp only [CTranslator.ToExp_CExpConverter _ _ hx, bind, Except.bind]
  exact NoAssert.ok _

mutual
/-- The visit of a statement never reaches an `assert(0)`, from every state. -/
theorem visitStm_noAssert : ∀ (s : StmNode) (tr : CTranslator), NoAssert (visitStm s tr)
  | .CBracedStatementNode statements, tr => by
      rw [visitStm]
      exact visitStatements_noAssert statements tr
  | .CIfStatementNode c th els, tr => by
      rw [visitStm]
      refine NoAssert.afterValue (visitExp_leavesValue c tr) (fun tr1 x hx => ?_)
      have hx' : tr1.newLabel.2.newLabel.2.newLabel.2.currentNode
          = some (.CExpConverter x) := hx
      simp only [CTranslator.ToConditional_CExpConverter _ _ _ _ hx', bind, Except.bind]
      refine noAssert_bind (visitStm_noAssert th _) (fun tr6 _ => ?_)
      refine noAssert_bind (CTranslator.ToStm_noAssert tr6) (fun p _ => ?_)
      refine noAssert_bind (visitElse_noAssert els _) (fun tr8 _ => ?_)
      exact noAssert_bind (CTranslator.ToStm_noAssert tr8) (fun q _ => NoAssert.ok _)
  | .CWhileStatementNode c body, tr => by
      rw [visitStm]
      refine NoAssert.afterValue (visitExp_leavesValue c tr) (fun tr1 x hx => ?_)
      simp only [CTranslator.ToExp_CExpConverter _ _ hx, bind, Except.bind]
      exact noAssert_bind (visitStm_noAssert body tr1) (fun tr3 _ => whileTail_noAssert x tr3)
  | .CPrintStatementNode e, tr => by
      rw [visitStm]
      exact NoAssert.afterValue (visitExp_leavesValue e tr)
        (fun tr1 x hx => printTail_noAssert hx)
  | .CAssignStatementNode identifier e, tr => by
      rw [visitStm]
      exact NoAssert.afterValue (visitExp_leavesValue e tr)
        (fun tr1 x hx => assignTail_noAssert identifier hx)
  | .CInvokeExpressionStatementNode a b, tr => by
      rw [visitStm]
      exact NoAssert.afterValue (visitExp_leavesValue a tr)
        (fun tr1 _ _ => (visitExp_leavesValue b tr1).noAssert)
/-- The visit of a statement list never reaches an `assert(0)`. -/
theorem visitStatements_noAssert : ∀ (s : StatementsNode) (tr : CTranslator),
    NoAssert (visitStatements s tr)
  | .null, tr => by
      rw [visitStatements]
      exact NoAssert.ok tr
  | .CNumerousStatementsNode ss st, tr => by
      have ih := visitStatements_noAssert ss
      rw [visitStatements.eq_def]
      refine noAssert_bind ?_ (fun p _ => ?_)
      · cases ss with
        | null => exact NoAssert.ok _
        | CNumerousStatementsNode ss' st' =>
            refine noAssert_bind (ih tr) (fun tr' _ => ?_)
            exact noAssert_bind (CTranslator.ToStm_noAssert tr') (fun q _ => NoAssert.ok _)
      · refine noAssert_bind (visitStm_noAssert st _) (fun tr1 _ => ?_)
        refine noAssert_bind (CTranslator.ToStm_noAssert tr1) (fun q _ => ?_)
        cases p.1 with
        | none => exact NoAssert.ok _
        | some inner =>
            exact noAssert_bind (CTranslator.ToStm_noAssert _) (fun q' _ => NoAssert.ok _)
/-- The visit of the else member never reaches an `assert(0)`. -/
theorem visitElse_noAssert : ∀ (e : ElseNode) (tr : CTranslator), NoAssert (visitElse e tr)
  | .null, tr => by
      rw [visitElse]
      exact NoAssert.ok tr
  | .stm s, tr => by
      rw [visitElse]
      exact visitStm_noAssert s tr
end

theorem visitOptStm_noAssert (s : Option StmNode) (tr : CTranslator) :
    NoAssert (visitOptStm s tr) := by
  cases s with
  | none =>
      rw [visitOptStm]
      exact NoAssert.ok tr
  | some s =>
      rw [visitOptStm]
      exact visitStm_noAssert s tr

theorem visitStats_noAssert (s : StatsNode) : ∀ tr : CTranslator, NoAssert (visitStats s tr) := by
  induction s with
  | null =>
      intro tr
      rw [visitStats]
      intro h
      cases h
  | CStatsFirstNode stm =>
      intro tr
      rw [visitStats]
      exact visitOptStm_noAssert stm tr
  | CStatsListNode list stm ih =>
      intro tr
      rw [visitStats.eq_def]
      refine noAssert_bind ?_ (fun p _ => ?_)
      · cases list with
        | null => exact NoAssert.ok _
        | CStatsFirstNode stm' =>
            refine noAssert_bind (ih tr) (fun tr' _ => ?_)
            exact noAssert_bind (CTranslator.ToStm_noAssert tr') (fun q _ => NoAssert.ok _)
        | CStatsListNode list' stm' =>
            refine noAssert_bind (ih tr) (fun tr' _ => ?_)
            exact noAssert_bind (CTranslator.ToStm_noAssert tr') (fun q _ => NoAssert.ok _)
      · refine noAssert_bind (CTranslator.ToStm_noAssert _) (fun q _ => ?_)
        cases stm with
        | none => exact NoAssert.ok _
        | some s =>
            refine noAssert_bind (visitStm_noAssert s _) (fun tr2 _ => ?_)
            cases p.1 with
            | none => exact NoAssert.ok _
            | some inner =>
                exact noAssert_bind (CTranslator.ToStm_noAssert _) (fun q' _ => NoAssert.ok _)

theorem visitMethodBody_noAssert (b : MethodBodyNode) (tr : CTranslator) :
    NoAssert (visitMethodBody b tr) := by
  cases b with
  | CMethodBodyVarsNode =>
      rw [visitMethodBody]
      exact NoAssert.ok tr
  | CMethodBodyStatsNode stats =>
      rw [visitMethodBody]
      exact visitStats_noAssert stats tr
  | CMethodBodyAllNode stats =>
      rw [visitMethodBody]
      exact visitStats_noAssert stats tr

theorem visitMethodDeclaration_noAssert (node : CMethodDeclarationRuleNode)
    (tr : CTranslator) : NoAssert (visitMethodDeclaration node tr) := by
  unfold visitMethodDeclaration
  refine noAssert_bind (CClassInfo.getMethodInfo_noAssert _ _) (fun method _ => ?_)
  refine NoAssert.afterValue (visitExp_leavesValue node.return_exp _) (fun tr2 x hx => ?_)
  simp only [CTranslator.ToExp_CExpConverter _ _ hx, bind, Except.bind]
  cases node.method_body with
  | none => exact NoAssert.ok _
  | some body =>
      refine noAssert_bind (visitMethodBody_noAssert body tr2) (fun tr4 _ => ?_)
      exact noAssert_bind (CTranslator.ToStm_noAssert tr4) (fun q _ => NoAssert.ok _)

theorem visitMethodDeclarations_noAssert (m : MethodDeclarationsNode) :
    ∀ tr : CTranslator, NoAssert (visitMethodDeclarations m tr) := by
  induction m with
  | null =>
      intro tr
      rw [visitMethodDeclarations]
      exact NoAssert.ok tr
  | CMethodDeclarationsListNode list item ih =>
      intro tr
      rw [visitMethodDeclarations]
      exact noAssert_bind (ih tr) (fun tr1 _ => visitMethodDeclaration_noAssert item tr1)

theorem visitClassDeclaration_noAssert (node : CClassDeclarationRuleNode) (tr : CTranslator) :
    NoAssert (visitClassDeclaration node tr) := by
  unfold visitClassDeclaration
  refine noAssert_bind (CTable.getClassInfo_noAssert _ _) (fun cl _ => ?_)
  split
  · intro h
    cases h
  · exact visitMethodDeclarations_noAssert _ _

theorem visitDeclarations_noAssert (d : DeclarationsNode) :
    ∀ tr : CTranslator, NoAssert (visitDeclarations d tr) := by
  induction d with
  | null =>
      intro tr
      rw [visitDeclarations]
      exact NoAssert.ok tr
  | CDeclarationsListNode decl cl ih =>
      intro tr
      rw [visitDeclarations]
      refine noAssert_bind (ih tr) (fun tr1 _ => ?_)
      cases cl with
      | none => exact NoAssert.ok _
      | some c => exact visitClassDeclaration_noAssert c tr1

theorem visitMainClass_noAssert (node : CMainClassDeclarationRuleNode) (tr : CTranslator) :
    NoAssert (visitMainClass node tr) := by
  unfold visitMainClass
  refine noAssert_bind (CClassInfo.getMethodInfo_noAssert _ _) (fun method _ => ?_)
  cases node.stmt with
  | none => exact NoAssert.ok _
  | some s =>
      refine noAssert_bind (visitStm_noAssert s _) (fun tr2 _ => ?_)
      exact noAssert_bind (CTranslator.ToStm_noAssert tr2) (fun q _ => NoAssert.ok _)

/-- C22: from every translator state, the visit of any expression node that succeeds
leaves a value wrapper (`CExpConverter`) in the current node; every
`currentNode->ToExp()` and `currentNode->ToConditional(t, f)` of the translator directly
follows such a visit, so no visit of an expression, of a statement or of a whole
program stops on the `assert(0)` of `CStmConverter::ToExp` or
`CStmConverter::ToConditional`. -/
theorem translator_never_asserts :
    (∀ (e : ExpNode) (tr tr' : CTranslator), visitExp e tr = .ok tr' →
      ∃ x, tr'.currentNode = some (.CExpConverter x)) ∧
    (∀ (e : ExpNode) (tr : CTranslator), visitExp e tr ≠ .error .assertFailed) ∧
    (∀ (s : StmNode) (tr : CTranslator), visitStm s tr ≠ .error .assertFailed) ∧
    (∀ (node : CProgramRuleNode) (tr : CTranslator),
      visitProgram node tr ≠ .error .assertFailed) := by
  refine ⟨?_, ?_, ?_, ?_⟩
  · intro e tr tr' h
    have hv := visitExp_leavesValue e tr
    rw [h] at hv
    exact hv
  · exact fun e tr => (visitExp_leavesValue e tr).noAssert
  · exact visitStm_noAssert
  · intro node tr
    unfold visitProgram
    exact noAssert_bind (visitMainClass_noAssert _ _)
      (fun tr1 _ => visitDeclarations_noAssert _ tr1)

/-- The visit of `true && false` leaves a value wrapper and does not stop on an
`assert(0)`. -/
theorem translator_never_asserts_witness :
    visitExp sampleAnd sampleTranslator ≠ .error .assertFailed ∧
    ∃ x, currentNodeOf (visitExp sampleAnd sampleTranslator)
      = some (.CExpConverter x) := by
  obtain ⟨x, hx⟩ := translator_never_asserts.1 sampleAnd sampleTranslator _ rfl
  exact ⟨translator_never_asserts.2.1 sampleAnd sampleTranslator, x, hx⟩

end Translate
